import Mathlib

/-!
# pulsar-admin-go: message retrieval and decoding for topic subscriptions

A shallow embedding of `api_subscription.go` (`handleResp`,
`getIndividualMsgsFromBatch`, `PeekMessages`, `peekNthMessage`, `GetMessageByID`)
together with the
pieces of the Go standard library these functions call (`strconv.Atoi`,
`io.ReadFull` over a `bytes.Reader`, `binary.BigEndian.Uint32`, `http.Header.Get`,
`strings.Contains`, `strings.TrimPrefix`).

Conventions of the embedding:

* a Go function returning `(v, err)` is a function into `Outcome`, whose second
  constructor records a run-time panic (the Go program aborts instead of
  returning);
* a nil slice and an empty slice are both the empty list (the code only ever
  observes `len`);
* `int` is the 64-bit Go `int`; `make` panics on a negative size and on a size above
  the allocation limit `maxAlloc` of the runtime, and succeeds otherwise;
* a Go pointer that may be nil is an `Option`, and loading through `nil` panics;
* a Go `map[string]string` is an association list with unique keys, read through
  `PropMap.get` / `PropMap.find`.
-/

namespace PulsarAdmin

/-! ## Basic data -/

/-- One octet of a response body. -/
abbrev Byte := Fin 256

/-- The error values that can reach a caller of the decoding functions. -/
inductive Error where
  /-- The value `io.EOF`. -/
  | EOF
  /-- The value `io.ErrUnexpectedEOF`. -/
  | ErrUnexpectedEOF
  /-- A `strconv.NumError` wrapping `strconv.ErrSyntax`. -/
  | ErrSyntax
  /-- A `strconv.NumError` wrapping `strconv.ErrRange`. -/
  | ErrRange
  /-- An error returned by `proto.Unmarshal`. -/
  | protoError (detail : String)
  /-- An error returned by `ParseMessageID`. -/
  | invalidMessageID (text : String)
  /-- An error of the REST transport (`MakeRequest`, reading the body). -/
  | transport (detail : String)
  deriving DecidableEq, Repr

deriving instance DecidableEq for Except

/-- Run-time panics the decoder can raise. -/
inductive RuntimePanic where
  /-- The panic `makeslice: len out of range`. -/
  | makesliceLen
  /-- The panic `makeslice: cap out of range`. -/
  | makesliceCap
  /-- The panic `invalid memory address or nil pointer dereference`. -/
  | nilDereference
  deriving DecidableEq, Repr

/-- What a call of a Go function with result type `(α, error)` does: it returns a
pair, or the goroutine panics. -/
inductive Outcome (α : Type) where
  | ret (val : α) (err : Option Error)
  | panic (p : RuntimePanic)
  deriving DecidableEq, Repr

/-- A Go `map[string]string`: an association list holding each key at most once. -/
structure PropMap where
  entries : List (String × String)
  deriving DecidableEq, Repr

namespace PropMap

/-- The result of `make(map[string]string)`. -/
def empty : PropMap := ⟨[]⟩

/-- The two-valued lookup `v, ok := m[k]`. -/
def find (m : PropMap) (k : String) : Option String := m.entries.lookup k

/-- The lookup `m[k]`: the zero value `""` for a key that is not present. -/
def get (m : PropMap) (k : String) : String := (m.find k).getD ""

/-- The assignment `m[k] = v`. -/
def set (m : PropMap) (k v : String) : PropMap :=
  ⟨(k, v) :: m.entries.filter (fun p => p.1 != k)⟩

end PropMap

/-- Modelled from the spec: the declaration of `TopicName` is not among the
sources; the decoder only calls `topic.String()`, so a topic is kept as the text
that call returns. -/
structure TopicName where
  str : String
  deriving DecidableEq, Repr

/-- The method `topic.String()`. -/
def TopicName.String (t : TopicName) : String := t.str

/-- Modelled from the spec: the declaration of `MessageID` is not among the
sources; the spec lists ledger id, entry id, partition index and batch index. -/
structure MessageID where
  LedgerID : Int
  EntryID : Int
  PartitionIndex : Int
  BatchIndex : Int
  deriving DecidableEq, Repr

/-- The struct `Message` with the four fields the decoder fills in. -/
structure Message where
  Topic : String
  MessageID : MessageID
  Payload : List Byte
  Properties : PropMap
  deriving DecidableEq, Repr

/-- Modelled from the spec: `NewMessage` is not among the sources; the spec gives
the message built from topic, identity, payload and property map. -/
def NewMessage (topic : String) (id : MessageID) (payload : List Byte)
    (properties : PropMap) : Message :=
  ⟨topic, id, payload, properties⟩

/-- One entry of `SingleMessageMetadata.Properties`. The fields `Key` and `Value` are
pointers (`*string`): `none` is the nil pointer of a field the decoded bytes did not
carry. -/
structure KeyValue where
  Key : Option String
  Value : Option String
  deriving DecidableEq, Repr

/-- Modelled from the spec: the generated type `SingleMessageMetadata` is not among
the sources; the decoder reads its `Properties` and `GetPayloadSize()` (an
`int32`). -/
structure SingleMessageMetadata where
  Properties : List KeyValue
  PayloadSize : Int
  deriving DecidableEq, Repr

/-- The decoder `proto.Unmarshal` into a `SingleMessageMetadata`, taken as a
parameter of the embedding. -/
abbrev Unmarshal := List Byte → Except Error SingleMessageMetadata

/-! ## Standard library pieces -/

/-- The value of an ASCII decimal digit. -/
def digitVal (c : Char) : Option Nat :=
  if 48 ≤ c.toNat ∧ c.toNat ≤ 57 then some (c.toNat - 48) else none

/-- The digit loop of `strconv.ParseUint(s, 10, 64)`: a byte that is not a digit
is a syntax error, a value that leaves `uint64` is a range error. -/
def parseUintLoop : List Char → Nat → Except Error Nat
  | [], acc => .ok acc
  | c :: cs, acc =>
    match digitVal c with
    | none => .error .ErrSyntax
    | some d =>
      if 2 ^ 64 ≤ acc * 10 + d then .error .ErrRange
      else parseUintLoop cs (acc * 10 + d)

/-- The function `strconv.Atoi` for a 64-bit `int`: an optional sign followed by at
least one decimal digit, with a value in `[-2^63, 2^63)`. -/
def Atoi (s : String) : Except Error Int :=
  match s.toList with
  | [] => .error .ErrSyntax
  | c :: rest =>
    let neg := c == '-'
    let ds := if c == '-' || c == '+' then rest else c :: rest
    match ds with
    | [] => .error .ErrSyntax
    | _ :: _ =>
      match parseUintLoop ds 0 with
      | .error e => .error e
      | .ok un =>
        if !neg && 2 ^ 63 ≤ un then .error .ErrRange
        else if neg && 2 ^ 63 < un then .error .ErrRange
        else .ok (if neg then -(un : Int) else (un : Int))

/-- The decimal digit `d` as an ASCII character. -/
def digitChar (d : Nat) : Char := Char.ofNat (48 + d)

/-- The decimal digits of `n`, most significant first; `fuel` bounds the number of
digits and `n + 1` is always enough. -/
def natDigits : Nat → Nat → List Char
  | 0, _ => []
  | fuel + 1, n =>
    if n < 10 then [digitChar n] else natDigits fuel (n / 10) ++ [digitChar (n % 10)]

/-- The function `strconv.Itoa`: the decimal text of an `int`. -/
def Itoa (i : Int) : String :=
  if i < 0 then String.mk ('-' :: natDigits (i.natAbs + 1) i.natAbs)
  else String.mk (natDigits (i.natAbs + 1) i.natAbs)

/-- The call `io.ReadFull(rd, buf)` on a `bytes.Reader` holding the unread bytes
`rd`, for a buffer of `n` bytes: the bytes read and the bytes left, `io.EOF`
when nothing could be read, `io.ErrUnexpectedEOF` when only a part could. A buffer
of length zero is filled without touching the reader. -/
def readFull (rd : List Byte) (n : Nat) : Except Error (List Byte × List Byte) :=
  if n = 0 then .ok ([], rd)
  else if n ≤ rd.length then .ok (rd.take n, rd.drop n)
  else if rd = [] then .error .EOF
  else .error .ErrUnexpectedEOF

/-- The function `binary.BigEndian.Uint32` on a four-byte buffer. -/
def beUint32 : List Byte → Nat
  | [b0, b1, b2, b3] => b0.val * 2 ^ 24 + b1.val * 2 ^ 16 + b2.val * 2 ^ 8 + b3.val
  | _ => 0

/-- The four bytes `binary.BigEndian.PutUint32` writes for `n`. -/
def be32 (n : Nat) : List Byte :=
  [Fin.ofNat (n / 2 ^ 24), Fin.ofNat (n / 2 ^ 16), Fin.ofNat (n / 2 ^ 8), Fin.ofNat n]

/-! ## Constants of `api_subscription.go` -/

def PublishTimeHeader : String := "X-Pulsar-Publish-Time"

def BatchHeader : String := "X-Pulsar-Num-Batch-Message"

def PropertyPrefix : String := "X-Pulsar-Property-"

/-! ## `getIndividualMsgsFromBatch` -/

/-- A `*Message` as it sits in `msgs` while the loop of
`getIndividualMsgsFromBatch` runs. Its `Properties` field is a reference to the one
map `properties` the function was given, so the content a caller reads there is
the content of that map when the function returns. -/
structure MessageCell where
  Topic : String
  MessageID : MessageID
  Payload : List Byte
  deriving DecidableEq, Repr

/-- Reading the cells of `msgs` once the shared map has its final content. -/
def MessageCell.deref (properties : PropMap) (c : MessageCell) : Message :=
  ⟨c.Topic, c.MessageID, c.Payload, properties⟩

/-- The allocation limit of the Go runtime on a 64-bit platform (`maxAlloc` of
`runtime/malloc.go`, 48 address bits): `make` panics when the memory asked for is
larger. -/
def maxAlloc : Nat := 2 ^ 48

/-- The loop `for _, v := range singleMeta.Properties` writing into `properties`.
Each round loads `*v.Key` and then `*v.Value`; a nil pointer aborts the call. -/
def applyProperties : PropMap → List KeyValue → Except RuntimePanic PropMap
  | properties, [] => .ok properties
  | properties, v :: rest =>
    match v.Key with
    | none => .error .nilDereference
    | some k =>
      match v.Value with
      | none => .error .nilDereference
      | some property => applyProperties (properties.set k property) rest

/-- The loop `for i := 0; i < batchSize; i++` of `getIndividualMsgsFromBatch`, with
`todo = batchSize - i` iterations left, `rd` the unread bytes of `rdBuf`,
`properties` the content of the shared map and `msgs` the cells appended so far. -/
def batchLoop (unmarshal : Unmarshal) (topic : TopicName) (msgID : MessageID) :
    Nat → Int → List Byte → PropMap → List MessageCell → Outcome (List Message)
  | 0, _, _, properties, msgs => .ret (msgs.map (MessageCell.deref properties)) none
  | todo + 1, i, rd, properties, msgs =>
    match readFull rd 4 with
    | .error err => .ret [] (some err)
    | .ok (buf32, rd1) =>
      let singleMetaSize := beUint32 buf32
      match readFull rd1 singleMetaSize with
      | .error err => .ret [] (some err)
      | .ok (singleMetaBuf, rd2) =>
        match unmarshal singleMetaBuf with
        | .error err => .ret [] (some err)
        | .ok singleMeta =>
          match applyProperties properties singleMeta.Properties with
          | .error p => .panic p
          | .ok properties1 =>
            if singleMeta.PayloadSize < 0 then .panic .makesliceLen
            else
              match readFull rd2 singleMeta.PayloadSize.toNat with
              | .error err => .ret [] (some err)
              | .ok (singlePayload, rd3) =>
                batchLoop unmarshal topic msgID todo (i + 1) rd3 properties1
                  (msgs ++ [⟨topic.String, { msgID with BatchIndex := i }, singlePayload⟩])

/-- The function `getIndividualMsgsFromBatch`. The call
`make([]*Message, 0, batchSize)` panics on a negative capacity and on a capacity
whose `8 * batchSize` bytes of pointers exceed `maxAlloc`; the `make([]byte, n)` calls
are given a length below `2^32`, which is within the limit, or (for the payload) a
negative length. -/
def getIndividualMsgsFromBatch (unmarshal : Unmarshal) (topic : TopicName)
    (msgID : MessageID) (data : List Byte) (properties : PropMap) :
    Outcome (List Message) :=
  match Atoi (properties.get BatchHeader) with
  | .error _ => .ret [] none
  | .ok batchSize =>
    if batchSize < 0 then .panic .makesliceCap
    else if (maxAlloc : Int) < 8 * batchSize then .panic .makesliceCap
    else batchLoop unmarshal topic msgID batchSize.toNat 0 data properties []

/-! ## `handleResp` -/

/-- The bytes `textproto` accepts in a header field name (the token characters of
RFC 7230). -/
def validHeaderFieldByte (c : Char) : Bool :=
  (48 ≤ c.toNat && c.toNat ≤ 57) || (65 ≤ c.toNat && c.toNat ≤ 90) ||
    (97 ≤ c.toNat && c.toNat ≤ 122) ||
    [33, 35, 36, 37, 38, 39, 42, 43, 45, 46, 94, 95, 96, 124, 126].contains c.toNat

/-- The rewriting loop of `textproto.CanonicalMIMEHeaderKey`: upper case for the
first letter and for a letter after a dash, lower case elsewhere. -/
def canonicalLoop : Bool → List Char → List Char
  | _, [] => []
  | upper, c :: cs =>
    let c1 :=
      if upper && (97 ≤ c.toNat && c.toNat ≤ 122) then Char.ofNat (c.toNat - 32)
      else if !upper && (65 ≤ c.toNat && c.toNat ≤ 90) then Char.ofNat (c.toNat + 32)
      else c
    c1 :: canonicalLoop (c1 == '-') cs

/-- The function `textproto.CanonicalMIMEHeaderKey`: a name holding a byte that is
not a token character is returned unchanged. -/
def CanonicalMIMEHeaderKey (s : String) : String :=
  if s.toList.all validHeaderFieldByte then String.mk (canonicalLoop true s.toList) else s

/-- A `http.Header`, a `map[string][]string`; the order of the list is the order in
which `range` visits the keys in the run at hand. -/
abbrev Header := List (String × List String)

/-- The method `Header.Get`: the first value stored under the canonical form of
`key`, and `""` when there is none. -/
def Header.Get (h : Header) (key : String) : String :=
  match h.lookup (CanonicalMIMEHeaderKey key) with
  | some (v :: _) => v
  | _ => ""

/-- The parts of a `*http.Response` the decoder reads: the headers, and what
`io.ReadAll(resp.Body)` returns. -/
structure Response where
  Header : Header
  Body : Except Error (List Byte)
  deriving DecidableEq, Repr

/-- The function `strings.Contains`. -/
def Contains (s substr : String) : Bool :=
  s.toList.tails.any (fun t => substr.toList.isPrefixOf t)

/-- The function `strings.TrimPrefix`. -/
def TrimPrefix (s pre : String) : String :=
  if pre.toList.isPrefixOf s.toList then String.mk (s.toList.drop pre.toList.length) else s

/-- The function `ParseMessageID`, which is not among the sources and is taken as a
parameter of the embedding. -/
abbrev MessageIDReader := String → Except Error MessageID

/-- The loop `for k := range resp.Header` of `handleResp` over the keys still to
visit, with `properties` the map built so far. -/
def headerLoop (unmarshal : Unmarshal) (topic : TopicName) (header : Header)
    (ID : MessageID) (payload : List Byte) : List String → PropMap → Outcome (List Message)
  | [], properties => .ret [NewMessage topic.String ID payload properties] none
  | k :: ks, properties =>
    if k = PublishTimeHeader then
      let h := header.Get k
      headerLoop unmarshal topic header ID payload ks
        (if h ≠ "" then properties.set "publish-time" h else properties)
    else if k = BatchHeader then
      let h := header.Get k
      getIndividualMsgsFromBatch unmarshal topic ID payload
        (if h ≠ "" then properties.set BatchHeader h else properties)
    else if Contains k PropertyPrefix then
      headerLoop unmarshal topic header ID payload ks
        (properties.set (TrimPrefix k PropertyPrefix) (header.Get k))
    else headerLoop unmarshal topic header ID payload ks properties

/-- The function `handleResp`. -/
def handleResp (parseMessageID : MessageIDReader) (unmarshal : Unmarshal)
    (topic : TopicName) (resp : Response) : Outcome (List Message) :=
  match parseMessageID (resp.Header.Get "X-Pulsar-Message-ID") with
  | .error err => .ret [] (some err)
  | .ok ID =>
    match resp.Body with
    | .error err => .ret [] (some err)
    | .ok payload =>
      headerLoop unmarshal topic resp.Header ID payload (resp.Header.map Prod.fst)
        PropMap.empty

/-! ## `PeekMessages` -/

/-- The call `s.pulsar.restClient.MakeRequest(http.MethodGet, endpoint)` for the
endpoint of position `pos`: the REST transport, taken as a parameter. -/
abbrev Transport := Int → Except Error Response

/-- The method `subscriptions.peekNthMessage`. -/
def peekNthMessage (parseMessageID : MessageIDReader) (unmarshal : Unmarshal)
    (makeRequest : Transport) (topic : TopicName) (pos : Int) : Outcome (List Message) :=
  match makeRequest pos with
  | .error err => .ret [] (some err)
  | .ok resp => handleResp parseMessageID unmarshal topic resp

/-- The loop `for n > 0` of `PeekMessages`, given what the fetch of each position
returns. The loop need not end (a fetch may return no message and no error), so it
runs on `fuel` iterations and yields `none` when they do not suffice. Next to the
outcome it reports the positions fetched, in order. -/
def peekLoop (peekNth : Int → Outcome (List Message)) :
    Nat → Int → Int → List Message → List Int → Option (Outcome (List Message) × List Int)
  | 0, n, _, msgs, fetched => if n > 0 then none else some (.ret msgs none, fetched)
  | fuel + 1, n, count, msgs, fetched =>
    if n > 0 then
      match peekNth count with
      | .panic p => some (.panic p, fetched ++ [count])
      | .ret _ (some err) => some (.ret [] (some err), fetched ++ [count])
      | .ret m none =>
        peekLoop peekNth fuel (n - (m.length : Int)) (count + 1) (msgs ++ m)
          (fetched ++ [count])
    else some (.ret msgs none, fetched)

/-- The method `subscriptions.PeekMessages`, over a per-position fetch. -/
def PeekMessagesWith (peekNth : Int → Outcome (List Message)) (fuel : Nat) (n : Int) :
    Option (Outcome (List Message) × List Int) :=
  peekLoop peekNth fuel n 1 [] []

/-- The method `subscriptions.PeekMessages`. -/
def PeekMessages (parseMessageID : MessageIDReader) (unmarshal : Unmarshal)
    (makeRequest : Transport) (topic : TopicName) (fuel : Nat) (n : Int) :
    Option (Outcome (List Message) × List Int) :=
  PeekMessagesWith (peekNthMessage parseMessageID unmarshal makeRequest topic) fuel n

/-- Modelled from the spec: the fields of an identity text, split at each `:`. -/
def splitColon : List Char → List (List Char)
  | [] => [[]]
  | c :: cs =>
    match splitColon cs with
    | [] => [[]]
    | f :: fs => if c = ':' then [] :: f :: fs else (c :: f) :: fs

/-- Modelled from the spec: `ParseMessageID` is not among the sources. The spec has
it split the text on `:`, fail unless there are two to four fields that are all
numeric, and default the missing trailing fields to `-1`. -/
def ParseMessageID (s : String) : Except Error MessageID :=
  match (splitColon s.toList).map (fun f => Atoi (String.mk f)) with
  | [.ok l, .ok e] => .ok ⟨l, e, -1, -1⟩
  | [.ok l, .ok e, .ok p] => .ok ⟨l, e, p, -1⟩
  | [.ok l, .ok e, .ok p, .ok b] => .ok ⟨l, e, p, b⟩
  | _ => .error (.invalidMessageID s)

/-! ## The batch wire format

`[4-byte big-endian length L][L bytes of metadata][payloadSize bytes of payload]`,
repeated once per message of the batch. -/

/-- One record of a batch body: the serialized metadata block, the metadata it
stands for, and the payload bytes. -/
structure Record where
  metaBytes : List Byte
  metadata : SingleMessageMetadata
  payload : List Byte
  deriving DecidableEq, Repr

/-- The bytes of one record on the wire. -/
def Record.bytes (r : Record) : List Byte :=
  be32 r.metaBytes.length ++ r.metaBytes ++ r.payload

/-- A record is well formed for a metadata decoder when its length field fits four
bytes, its metadata block decodes to its metadata, and the payload size declared
there is the length of its payload. -/
def Record.WellFormed (unmarshal : Unmarshal) (r : Record) : Prop :=
  r.metaBytes.length < 2 ^ 32 ∧ unmarshal r.metaBytes = .ok r.metadata ∧
    r.metadata.PayloadSize = (r.payload.length : Int)

/-- A property carries both its key and its value. -/
def KeyValue.Complete (kv : KeyValue) : Prop :=
  kv.Key.isSome = true ∧ kv.Value.isSome = true

/-- A record is complete for a metadata decoder when it is well formed and each of
its properties carries a key and a value. -/
def Record.Complete (unmarshal : Unmarshal) (r : Record) : Prop :=
  r.WellFormed unmarshal ∧ ∀ kv ∈ r.metadata.Properties, kv.Complete

/-- The body made of the given records, one after the other. -/
def batchBody : List Record → List Byte
  | [] => []
  | r :: rs => r.bytes ++ batchBody rs

/-- The cells the loop appends for the given records, the first of them at batch
index `i`. -/
def expectedCells (topic : TopicName) (msgID : MessageID) : Int → List Record → List MessageCell
  | _, [] => []
  | i, r :: rs =>
    ⟨topic.String, { msgID with BatchIndex := i }, r.payload⟩ ::
      expectedCells topic msgID (i + 1) rs

/-- The map `properties` after the properties `kvs` that carry a key and a value have
been written into it, in order. -/
def overlayProperties (properties : PropMap) (kvs : List KeyValue) : PropMap :=
  kvs.foldl (fun m v =>
    match v.Key, v.Value with
    | some k, some property => m.set k property
    | _, _ => m) properties

/-- The map `properties` after the metadata properties of the given records have
been written into it, record after record. -/
def overlayAll (properties : PropMap) : List Record → PropMap
  | [] => properties
  | r :: rs => overlayAll (overlayProperties properties r.metadata.Properties) rs

/-- Fewer bytes remain than the next record needs: fewer than the four bytes of the
length field, fewer than the metadata length it declares, or fewer than the payload
size the metadata declares (the metadata decodes, to properties that each carry a
key and a value). -/
inductive ShortRecord (unmarshal : Unmarshal) : List Byte → Prop where
  | lengthField (rest : List Byte) : rest.length < 4 → ShortRecord unmarshal rest
  | metadataBlock (len4 rest : List Byte) : len4.length = 4 →
      rest.length < beUint32 len4 → ShortRecord unmarshal (len4 ++ rest)
  | payloadBytes (len4 metaBytes rest : List Byte) (m : SingleMessageMetadata) :
      len4.length = 4 → metaBytes.length = beUint32 len4 → unmarshal metaBytes = .ok m →
      (∀ kv ∈ m.Properties, kv.Complete) →
      (rest.length : Int) < m.PayloadSize → ShortRecord unmarshal (len4 ++ metaBytes ++ rest)

/-! ## A small metadata codec for concrete inputs -/

/-- Key/value pairs of one-letter strings, two bytes per pair; a last byte on its
own is a property that carries a key and no value. -/
def samplePairs : List Byte → List KeyValue
  | [] => []
  | [k] => [⟨some (String.singleton (Char.ofNat k.val)), none⟩]
  | k :: v :: rest =>
    ⟨some (String.singleton (Char.ofNat k.val)), some (String.singleton (Char.ofNat v.val))⟩ ::
      samplePairs rest

/-- A stand-in for `proto.Unmarshal` on concrete inputs: the first byte is the
payload size in two's complement (so `255` declares `-1`), the bytes after it are
the properties as pairs of one-letter strings; an empty block is rejected. -/
def sampleUnmarshal : Unmarshal
  | [] => .error (.protoError "payload_size not set")
  | p :: rest =>
    .ok ⟨samplePairs rest, if p.val < 128 then (p.val : Int) else (p.val : Int) - 256⟩

instance (unmarshal : Unmarshal) (r : Record) : Decidable (r.WellFormed unmarshal) := by
  unfold Record.WellFormed; infer_instance

instance (kv : KeyValue) : Decidable kv.Complete := by
  unfold KeyValue.Complete; infer_instance

instance (unmarshal : Unmarshal) (r : Record) : Decidable (r.Complete unmarshal) := by
  unfold Record.Complete; infer_instance

/-! ## Concrete inputs -/

def sampleTopic : TopicName := ⟨"persistent://public/default/t"⟩

def sampleID : MessageID := ⟨10, 20, -1, -1⟩

/-- A record declaring the properties `a = 2`, `b = 3` and a payload of two bytes. -/
def sampleRecA : Record :=
  ⟨[2, 97, 50, 98, 51], ⟨[⟨some "a", some "2"⟩, ⟨some "b", some "3"⟩], 2⟩, [7, 8]⟩

/-- A record declaring no property and a payload of one byte. -/
def sampleRecB : Record := ⟨[1], ⟨[], 1⟩, [9]⟩

/-- A record declaring the property `c = 4` and an empty payload. -/
def sampleRecC : Record := ⟨[0, 99, 52], ⟨[⟨some "c", some "4"⟩], 0⟩, []⟩

/-- A well-formed record whose one property carries the key `a` and no value. -/
def sampleRecNoValue : Record := ⟨[0, 97], ⟨[⟨some "a", none⟩], 0⟩, []⟩

/-- The base property map `handleResp` passes on for a batch-count header `text`. -/
def sampleBase (text : String) : PropMap := PropMap.empty.set BatchHeader text

/-- What the header `k` adds to the property map in `handleResp` when it is not the
batch-count header. -/
def headerStep (header : Header) (properties : PropMap) (k : String) : PropMap :=
  if k = PublishTimeHeader then
    (if header.Get k ≠ "" then properties.set "publish-time" (header.Get k) else properties)
  else if Contains k PropertyPrefix then
    properties.set (TrimPrefix k PropertyPrefix) (header.Get k)
  else properties

/-- The base property map built from the headers of a response without a
batch-count header, the keys visited in the order of the list. -/
def baseProperties (header : Header) : PropMap :=
  (header.map Prod.fst).foldl (headerStep header) PropMap.empty

/-- A response without a batch-count header: identity `10:20:-1:-1`, a publish time,
one custom property, and the body `hello`. -/
def sampleSingle : Response :=
  ⟨[("X-Pulsar-Message-Id", ["10:20:-1:-1"]), ("X-Pulsar-Publish-Time", ["2023-01-01"]),
    ("X-Pulsar-Property-Color", ["red"])], .ok [104, 101, 108, 108, 111]⟩

/-- A batch response that carries no identity header. -/
def sampleNoIdentity : Response :=
  ⟨[(BatchHeader, ["2"])], .ok (batchBody [sampleRecA, sampleRecB])⟩

/-- The messages of the positions `c, c + 1, ..., c + m - 1`, one result after the
other, when position `pos` yields `f pos`. -/
def collect (f : Nat → List Message) : Nat → Nat → List Message
  | _, 0 => []
  | c, m + 1 => f c ++ collect f (c + 1) m

/-- The positions `c, c + 1, ..., c + m - 1`. -/
def positionsFrom : Nat → Nat → List Int
  | _, 0 => []
  | c, m + 1 => (c : Int) :: positionsFrom (c + 1) m

/-- A batch response of three messages. -/
def sampleBatch3 : Response :=
  ⟨[("X-Pulsar-Message-Id", ["10:20:-1:-1"]), (BatchHeader, ["3"])],
    .ok (batchBody [sampleRecA, sampleRecB, sampleRecC])⟩

/-- A batch response of four messages. -/
def sampleBatch4 : Response :=
  ⟨[("X-Pulsar-Message-Id", ["10:21:-1:-1"]), (BatchHeader, ["4"])],
    .ok (batchBody [sampleRecA, sampleRecB, sampleRecC, sampleRecB])⟩

/-- A transport serving three messages at position 1 and four at every other. -/
def sampleTransport : Transport :=
  fun pos => if pos = 1 then .ok sampleBatch3 else .ok sampleBatch4

/-- A transport serving three messages at position 1 and failing at every other. -/
def sampleBrokenTransport : Transport :=
  fun pos => if pos = 1 then .ok sampleBatch3 else .error (.transport "connection reset")

/-- The messages `handleResp` decodes from a response, when it decodes any. -/
def decoded (resp : Response) : List Message :=
  match handleResp ParseMessageID sampleUnmarshal sampleTopic resp with
  | .ret ms _ => ms
  | .panic _ => []

/-- What each position yields under `sampleTransport`. -/
def sampleFetched (pos : Nat) : List Message :=
  if pos = 1 then decoded sampleBatch3 else decoded sampleBatch4

/-! ## `GetMessageByID` -/

/-- The call `s.pulsar.restClient.MakeRequest(http.MethodGet, endpoint)` for the
endpoint of a ledger id and an entry id: the REST transport, taken as a parameter. -/
abbrev EntryTransport := Int → Int → Except Error Response

/-- The method `subscriptions.GetMessageByID`; the result `nil` is `none`. -/
def GetMessageByID (parseMessageID : MessageIDReader) (unmarshal : Unmarshal)
    (makeRequest : EntryTransport) (topic : TopicName) (ledgerID entryID : Int) :
    Outcome (Option Message) :=
  match makeRequest ledgerID entryID with
  | .error err => .ret none (some err)
  | .ok resp =>
    match handleResp parseMessageID unmarshal topic resp with
    | .panic p => .panic p
    | .ret _ (some err) => .ret none (some err)
    | .ret messages none =>
      match messages with
      | [] => .ret none none
      | m :: _ => .ret (some m) none

/-- A batch response whose batch count is zero. -/
def sampleBatch0 : Response :=
  ⟨[("X-Pulsar-Message-Id", ["10:20:-1:-1"]), (BatchHeader, ["0"])], .ok []⟩

/-- A transport for `GetMessageByID`: an empty batch at entry 0, a batch of three at
entry 1, a single message at entry 2, a malformed batch at entry 3, and no
connection for any other entry. -/
def sampleEntryTransport : EntryTransport :=
  fun _ entryID =>
    if entryID = 0 then .ok sampleBatch0
    else if entryID = 1 then .ok sampleBatch3
    else if entryID = 2 then .ok sampleSingle
    else if entryID = 3 then .ok ⟨sampleBatch3.Header, .ok [0, 0]⟩
    else .error (.transport "connection refused")

/-- The keys of a `http.Header` are in canonical form, as they are in every header
the `net/http` transport builds (and as the documentation of the type asks). -/
def Header.Canonical (h : Header) : Prop :=
  ∀ kv ∈ h, CanonicalMIMEHeaderKey kv.1 = kv.1

instance (h : Header) : Decidable (Header.Canonical h) := by
  unfold Header.Canonical; infer_instance

/-- A response with a header whose name holds the property marker, but not at its
start. -/
def sampleInfix : Response :=
  ⟨[("X-Pulsar-Message-Id", ["10:20:-1:-1"]), ("Foo-X-Pulsar-Property-Bar", ["v"])],
    .ok [104, 101, 108, 108, 111]⟩

/-- The map `handleResp` hands to `getIndividualMsgsFromBatch` when it meets the
batch-count header with `properties` built so far: the value of that header is
stored under its name unless it is empty. -/
def withBatchCount (header : Header) (properties : PropMap) : PropMap :=
  if header.Get BatchHeader ≠ "" then properties.set BatchHeader (header.Get BatchHeader)
  else properties

/-- The value the properties `kvs` of one metadata record leave under `key`: that of
the last entry with this key, if there is one. -/
def lastValue : List KeyValue → String → Option String
  | [], _ => none
  | kv :: rest, key =>
    match lastValue rest key with
    | some v => some v
    | none => if kv.Key = some key then kv.Value else none

/-- The value the given records leave under `key`: that of the last record setting
this key, if there is one. -/
def lastWritten : List Record → String → Option String
  | [], _ => none
  | r :: rs, key =>
    match lastWritten rs key with
    | some v => some v
    | none => lastValue r.metadata.Properties key

/-- A record declaring the property `a = 9` and an empty payload. -/
def sampleRecD : Record := ⟨[0, 97, 57], ⟨[⟨some "a", some "9"⟩], 0⟩, []⟩

/-- The headers visited before the batch-count header in the counterexample to the
dispatch claim: the identity, and a property header that writes under the name of
the batch-count header. -/
def sampleBefore : Header :=
  [("X-Pulsar-Message-Id", ["10:20:-1:-1"]),
    ("X-Pulsar-Property-X-Pulsar-Num-Batch-Message", ["1"])]

/-! ## `subscription_auth_mode.go` -/

/-- The type `SubscriptionAuthMode`, a defined type over `string`. -/
structure SubscriptionAuthMode where
  val : String
  deriving DecidableEq, Repr

/-- The constant `None`. -/
def SubscriptionAuthMode.None : SubscriptionAuthMode := ⟨"None"⟩

/-- The constant `Prefix`. -/
def SubscriptionAuthMode.Prefix : SubscriptionAuthMode := ⟨"Prefix"⟩

/-- The function `ParseSubscriptionAuthMode`; the error of `errors.New` is kept as
its message. -/
def ParseSubscriptionAuthMode (s : String) : SubscriptionAuthMode × Option String :=
  if s = "None" then (SubscriptionAuthMode.None, none)
  else if s = "Prefix" then (SubscriptionAuthMode.Prefix, none)
  else (⟨""⟩, some "Invalid subscription auth mode")

/-- The method `SubscriptionAuthMode.String`. -/
def SubscriptionAuthMode.String (s : SubscriptionAuthMode) : String := s.val

/-! ## `client_config.go` -/

/-- The type `APIVersion`, a defined type over `int`. -/
structure APIVersion where
  val : Int
  deriving DecidableEq, Repr

/-- The constant `undefined`, the zero value of `APIVersion`. -/
def undefined : APIVersion := ⟨0⟩

def APIV1 : APIVersion := ⟨1⟩

def APIV2 : APIVersion := ⟨2⟩

def APIV3 : APIVersion := ⟨3⟩

def DefaultAPIVersion : String := "v2"

/-- The method `APIVersion.String`. -/
def APIVersion.String (v : APIVersion) : String :=
  if v = undefined then DefaultAPIVersion
  else if v = APIV1 then ""
  else if v = APIV2 then "v2"
  else if v = APIV3 then "v3"
  else DefaultAPIVersion

/-- The struct `APIProfile`. -/
structure APIProfile where
  Clusters : APIVersion
  Functions : APIVersion
  Tenants : APIVersion
  Topics : APIVersion
  Sources : APIVersion
  Sinks : APIVersion
  Namespaces : APIVersion
  Schemas : APIVersion
  NsIsolationPolicy : APIVersion
  Brokers : APIVersion
  BrokerStats : APIVersion
  ResourceQuotas : APIVersion
  FunctionsWorker : APIVersion
  Packages : APIVersion
  deriving DecidableEq, Repr

/-- The function `defaultAPIProfile`: only `Functions` is set, every other field has
the zero value of its type. -/
def defaultAPIProfile : APIProfile :=
  { Clusters := undefined, Functions := APIV3, Tenants := undefined, Topics := undefined,
    Sources := undefined, Sinks := undefined, Namespaces := undefined, Schemas := undefined,
    NsIsolationPolicy := undefined, Brokers := undefined, BrokerStats := undefined,
    ResourceQuotas := undefined, FunctionsWorker := undefined, Packages := undefined }

/-! ## `api_broker_stats.go`

The REST client is a parameter: `Get endpoint obj` stands for
`bs.pulsar.restClient.Get(endpoint, &obj)` and yields the object after decoding, or
the error; `endpoint parts` stands for
`bs.pulsar.endpoint(bs.apiVersion, bs.basePath, parts...)`. The payload types are
not among the sources and are type parameters. A `nil` pointer result is `none`. -/

/-- The method `brokerStats.GetMetrics`. -/
def GetMetrics {Metrics : Type} (endpoint : List String → String)
    (Get : String → List Metrics → Except Error (List Metrics)) :
    List Metrics × Option Error :=
  match Get (endpoint ["/metrics"]) [] with
  | .error err => ([], some err)
  | .ok response => (response, none)

/-- The method `brokerStats.GetMBeans`. -/
def GetMBeans {Metrics : Type} (endpoint : List String → String)
    (Get : String → List Metrics → Except Error (List Metrics)) :
    List Metrics × Option Error :=
  match Get (endpoint ["/mbeans"]) [] with
  | .error err => ([], some err)
  | .ok response => (response, none)

/-- The method `brokerStats.GetTopics`; `GetWithQueryParams` stands for the call
`bs.pulsar.restClient.GetWithQueryParams(endpoint, nil, nil, false)`, and a Go string
is kept as its bytes. -/
def GetTopics (endpoint : List String → String)
    (GetWithQueryParams : String → Except Error (List Byte)) : List Byte × Option Error :=
  match GetWithQueryParams (endpoint ["/topics"]) with
  | .error err => ([], some err)
  | .ok buf => (buf, none)

/-- The method `brokerStats.GetLoadReport`; `NewLocalBrokerData` is the value of the
call of that name. -/
def GetLoadReport {LocalBrokerData : Type} (endpoint : List String → String)
    (Get : String → LocalBrokerData → Except Error LocalBrokerData)
    (NewLocalBrokerData : LocalBrokerData) : Option LocalBrokerData × Option Error :=
  match Get (endpoint ["/load-report"]) NewLocalBrokerData with
  | .error _ => (none, none)
  | .ok response => (some response, none)

/-- The method `brokerStats.GetAllocatorStats`; `zero` is the zero value of
`AllocatorStats`. -/
def GetAllocatorStats {AllocatorStats : Type} (endpoint : List String → String)
    (Get : String → AllocatorStats → Except Error AllocatorStats) (zero : AllocatorStats)
    (allocatorName : String) : Option AllocatorStats × Option Error :=
  match Get (endpoint ["/allocator-stats", allocatorName]) zero with
  | .error err => (none, some err)
  | .ok allocatorStats => (some allocatorStats, none)

/-! ## `bundles_data.go` -/

/-- The struct `BundlesData`. -/
structure BundlesData where
  Boundaries : List String
  NumBundles : Int
  deriving DecidableEq, Repr

/-- The function `NewBundlesData`. -/
def NewBundlesData (boundaries : List String) : BundlesData :=
  { Boundaries := boundaries, NumBundles := (boundaries.length : Int) - 1 }

/-- The function `NewBundlesDataWithNumBundles`. -/
def NewBundlesDataWithNumBundles (numBundles : Int) : BundlesData :=
  { Boundaries := [], NumBundles := numBundles }

/-- The function `NewDefaultBoundle`; the constants `FirstBoundary` and
`LastBoundary` are not among the sources and are parameters. -/
def NewDefaultBoundle (FirstBoundary LastBoundary : String) : BundlesData :=
  let bundleData := NewBundlesDataWithNumBundles 1
  { bundleData with Boundaries := bundleData.Boundaries ++ [FirstBoundary, LastBoundary] }

/-- A REST `Get` that always fails. -/
def sampleFailingGet {α : Type} : String → α → Except Error α :=
  fun _ _ => .error (.transport "connection refused")

/-- A REST `Get` that always succeeds and leaves the object as it was. -/
def sampleGet {α : Type} : String → α → Except Error α :=
  fun _ obj => .ok obj

/-- A stand-in for `bs.pulsar.endpoint`: the parts joined after the base path. -/
def sampleEndpoint (parts : List String) : String :=
  String.join ("/admin/v2/broker-stats" :: parts)

/-! ## Order of the header iteration -/

/-- The write the header named `k` performs on the property map in a non-batch
decode: the key written and the value, if it writes at all. -/
def headerWrite (header : Header) (k : String) : Option (String × String) :=
  if k = PublishTimeHeader then
    (if header.Get k ≠ "" then some ("publish-time", header.Get k) else none)
  else if Contains k PropertyPrefix then
    some (TrimPrefix k PropertyPrefix, header.Get k)
  else none

/-- The property key a header named `k` can write to. -/
def writtenKey (k : String) : Option String :=
  if k = PublishTimeHeader then some "publish-time"
  else if Contains k PropertyPrefix then some (TrimPrefix k PropertyPrefix)
  else none

/-- No two headers of the response write to the same property key. -/
def Header.NoCollision (h : Header) : Prop :=
  ∀ kv1 ∈ h, ∀ kv2 ∈ h, writtenKey kv1.1 ≠ none → writtenKey kv1.1 = writtenKey kv2.1 →
    kv1.1 = kv2.1

instance (h : Header) : Decidable (Header.NoCollision h) := by
  unfold Header.NoCollision; infer_instance

/-- The step of the header loop on the lookup function of the property map. -/
def stepFind (header : Header) (g : String → Option String) (k : String) :
    String → Option String :=
  match headerWrite header k with
  | some (a, v) => fun key => if key = a then some v else g key
  | none => g

/-- Two canonical header names that write to the same property key, in one
iteration order. -/
def sampleCollision : Header :=
  [("X-Pulsar-Message-Id", ["10:20:-1:-1"]),
    ("X-Pulsar-Property-A-X-Pulsar-Property-B", ["1"]),
    ("A-X-Pulsar-Property-B", ["2"])]

/-- The headers of `sampleCollision` in another iteration order. -/
def sampleCollisionSwapped : Header :=
  [("X-Pulsar-Message-Id", ["10:20:-1:-1"]),
    ("A-X-Pulsar-Property-B", ["2"]),
    ("X-Pulsar-Property-A-X-Pulsar-Property-B", ["1"])]

/-- The headers of `sampleSingle` in another iteration order. -/
def sampleSingleSwapped : Header :=
  [("X-Pulsar-Property-Color", ["red"]), ("X-Pulsar-Message-Id", ["10:20:-1:-1"]),
    ("X-Pulsar-Publish-Time", ["2023-01-01"])]

/-! # Theorems -/

/-! ## Lemmas on the library pieces -/

theorem beUint32_be32 (n : Nat) (h : n < 2 ^ 32) : beUint32 (be32 n) = n := by
  simp only [be32, beUint32, Fin.ofNat, Fin.val_mk]
  omega

theorem be32_length (n : Nat) : (be32 n).length = 4 := rfl

theorem readFull_append (a rest : List Byte) :
    readFull (a ++ rest) a.length = .ok (a, rest) := by
  unfold readFull
  by_cases h : a.length = 0
  · have : a = [] := List.length_eq_zero.mp h
    subst this; simp
  · simp [h]

theorem readFull_exact (a rest : List Byte) (n : Nat) (h : a.length = n) :
    readFull (a ++ rest) n = .ok (a, rest) := by
  subst h; exact readFull_append a rest

theorem digitVal_digitChar (d : Nat) (h : d < 10) : digitVal (digitChar d) = some d := by
  interval_cases d <;> rfl

theorem digitChar_ne_sign (d : Nat) (h : d < 10) :
    (digitChar d == '-' || digitChar d == '+') = false := by
  interval_cases d <;> rfl

theorem parseUintLoop_append (xs : List Char) (c : Char) (acc : Nat) :
    parseUintLoop (xs ++ [c]) acc =
      match parseUintLoop xs acc with
      | .error e => .error e
      | .ok v => parseUintLoop [c] v := by
  induction xs generalizing acc with
  | nil => simp [parseUintLoop]
  | cons x xs ih =>
    simp only [List.cons_append, parseUintLoop]
    cases digitVal x with
    | none => rfl
    | some d =>
      simp only
      split
      · rfl
      · exact ih _

theorem parseUintLoop_natDigits (fuel n : Nat) (hf : n < fuel) (hn : n < 2 ^ 64) :
    parseUintLoop (natDigits fuel n) 0 = .ok n := by
  induction fuel generalizing n with
  | zero => omega
  | succ fuel ih =>
    unfold natDigits
    split
    · rename_i h10
      simp [parseUintLoop, digitVal_digitChar n h10]
      omega
    · rename_i h10
      rw [parseUintLoop_append, ih (n / 10) (by omega) (by omega)]
      simp only [parseUintLoop, digitVal_digitChar (n % 10) (Nat.mod_lt _ (by decide))]
      have : n / 10 * 10 + n % 10 = n := by omega
      rw [this]
      simp; omega

theorem natDigits_head (fuel n : Nat) (hf : n < fuel) :
    ∃ d, d < 10 ∧ ∃ rest, natDigits fuel n = digitChar d :: rest := by
  induction fuel generalizing n with
  | zero => omega
  | succ fuel ih =>
    unfold natDigits
    split
    · rename_i h10
      exact ⟨n, h10, [], rfl⟩
    · obtain ⟨d, hd, rest, hr⟩ := ih (n / 10) (by omega)
      exact ⟨d, hd, rest ++ [digitChar (n % 10)], by rw [hr]; rfl⟩

/-- On a count that fits a Go `int`, `Atoi` reads back what `Itoa` wrote. -/
theorem Atoi_Itoa_ofNat (k : Nat) (hk : k < 2 ^ 63) :
    Atoi (Itoa (k : Int)) = .ok (k : Int) := by
  have hnn : ¬ ((k : Int) < 0) := by omega
  obtain ⟨d, hd, rest, hr⟩ := natDigits_head (k + 1) k (by omega)
  have hp := parseUintLoop_natDigits (k + 1) k (by omega) (by omega)
  have hs := digitChar_ne_sign d hd
  have hm : (digitChar d == '-') = false := by
    cases h : (digitChar d == '-') <;> simp_all
  simp only [Itoa, hnn, if_false, Int.natAbs_ofNat, Atoi, String.toList, hr, hs]
  rw [hr] at hp
  simp only [Bool.false_eq_true, if_false, hp, hm]
  simp
  omega

/-! ## The batch loop on complete records -/

/-- When every property carries a key and a value, the property loop runs through
and leaves the map with the properties written into it in order. -/
theorem applyProperties_complete (properties : PropMap) (kvs : List KeyValue)
    (h : ∀ kv ∈ kvs, kv.Complete) :
    applyProperties properties kvs = .ok (overlayProperties properties kvs) := by
  induction kvs generalizing properties with
  | nil => rfl
  | cons v rest ih =>
    obtain ⟨hk, hv⟩ := h v (List.mem_cons_self _ _)
    obtain ⟨key, value⟩ := v
    cases key with
    | none => simp at hk
    | some k =>
      cases value with
      | none => simp at hv
      | some property =>
        simp only [applyProperties, overlayProperties, List.foldl_cons]
        exact ih _ (fun kv hkv => h kv (List.mem_cons_of_mem _ hkv))

/-- The property loop runs through only when every property carries a key and a
value. -/
theorem applyProperties_ok (properties properties1 : PropMap) (kvs : List KeyValue)
    (h : applyProperties properties kvs = .ok properties1) :
    (∀ kv ∈ kvs, kv.Complete) ∧ properties1 = overlayProperties properties kvs := by
  induction kvs generalizing properties with
  | nil =>
    simp only [applyProperties, Except.ok.injEq] at h
    exact ⟨by simp, by rw [← h]; rfl⟩
  | cons v rest ih =>
    obtain ⟨key, value⟩ := v
    cases key with
    | none => simp [applyProperties] at h
    | some k =>
      cases value with
      | none => simp [applyProperties] at h
      | some property =>
        simp only [applyProperties] at h
        obtain ⟨hc, hp⟩ := ih _ h
        refine ⟨?_, ?_⟩
        · intro kv hkv
          rcases List.mem_cons.mp hkv with rfl | hkv
          · exact ⟨rfl, rfl⟩
          · exact hc kv hkv
        · rw [hp]; rfl

theorem batchLoop_complete (unmarshal : Unmarshal) (topic : TopicName) (msgID : MessageID)
    (recs : List Record) (hcomp : ∀ r ∈ recs, r.Complete unmarshal) (tail : List Byte)
    (i : Int) (properties : PropMap) (msgs : List MessageCell) :
    batchLoop unmarshal topic msgID recs.length i (batchBody recs ++ tail) properties msgs =
      .ret ((msgs ++ expectedCells topic msgID i recs).map
        (MessageCell.deref (overlayAll properties recs))) none := by
  induction recs generalizing i properties msgs with
  | nil => simp [batchLoop, expectedCells, overlayAll]
  | cons r rs ih =>
    obtain ⟨⟨hL, hU, hP⟩, hC⟩ := hcomp r (List.mem_cons_self _ _)
    have hA := applyProperties_complete properties r.metadata.Properties hC
    have hrest : ∀ r1 ∈ rs, r1.Complete unmarshal :=
      fun r1 h => hcomp r1 (List.mem_cons_of_mem _ h)
    have hbody : batchBody (r :: rs) ++ tail =
        be32 r.metaBytes.length ++ (r.metaBytes ++ (r.payload ++ (batchBody rs ++ tail))) := by
      simp [batchBody, Record.bytes, List.append_assoc]
    have hneg : ¬ (r.metadata.PayloadSize < 0) := by rw [hP]; omega
    have htoNat : r.metadata.PayloadSize.toNat = r.payload.length := by rw [hP]; simp
    rw [hbody]
    simp only [List.length_cons, batchLoop]
    rw [readFull_exact _ _ 4 (be32_length _)]
    simp only [beUint32_be32 _ hL]
    rw [readFull_exact _ _ _ rfl]
    simp only [hU, hA, hneg, if_false, htoNat]
    rw [readFull_exact _ _ _ rfl]
    simp only
    rw [ih hrest]
    simp [expectedCells, overlayAll, List.append_assoc]

theorem expectedCells_length (topic : TopicName) (msgID : MessageID) (i : Int)
    (recs : List Record) : (expectedCells topic msgID i recs).length = recs.length := by
  induction recs generalizing i with
  | nil => rfl
  | cons r rs ih => simp [expectedCells, ih]

theorem expectedCells_getElem? (topic : TopicName) (msgID : MessageID) (i : Int)
    (recs : List Record) (j : Nat) :
    (expectedCells topic msgID i recs)[j]? =
      recs[j]?.map (fun r => ⟨topic.String, { msgID with BatchIndex := i + j }, r.payload⟩) := by
  induction recs generalizing i j with
  | nil => simp [expectedCells]
  | cons r rs ih =>
    cases j with
    | zero => simp [expectedCells]
    | succ j =>
      simp only [expectedCells, List.getElem?_cons_succ, ih]
      congr 1; funext r1
      have : i + 1 + (j : Int) = i + ((j + 1 : Nat) : Int) := by push_cast; ring
      rw [this]

theorem batchBody_length_ge (recs : List Record) :
    4 * recs.length ≤ (batchBody recs).length := by
  induction recs with
  | nil => simp [batchBody]
  | cons r rs ih =>
    simp only [batchBody, Record.bytes, List.length_append, List.length_cons, be32_length]
    omega

/-- What `getIndividualMsgsFromBatch` returns on a body of complete records
followed by any bytes, when the batch-count entry reads as the number of records. -/
theorem getIndividualMsgsFromBatch_records (unmarshal : Unmarshal) (topic : TopicName)
    (msgID : MessageID) (recs : List Record) (tail : List Byte) (properties : PropMap)
    (hcomp : ∀ r ∈ recs, r.Complete unmarshal)
    (hcap : 8 * recs.length ≤ maxAlloc)
    (hcount : Atoi (properties.get BatchHeader) = .ok (recs.length : Int)) :
    getIndividualMsgsFromBatch unmarshal topic msgID (batchBody recs ++ tail) properties =
      .ret ((expectedCells topic msgID 0 recs).map
        (MessageCell.deref (overlayAll properties recs))) none := by
  have hnn : ¬ ((recs.length : Int) < 0) := by omega
  have hle : ¬ ((maxAlloc : Int) < 8 * (recs.length : Int)) := by
    have : ((8 * recs.length : Nat) : Int) ≤ (maxAlloc : Int) := by exact_mod_cast hcap
    push_cast at this
    omega
  simp only [getIndividualMsgsFromBatch, hcount, hnn, hle, if_false, Int.toNat_ofNat]
  rw [batchLoop_complete unmarshal topic msgID recs hcomp]
  simp

/-- For a body that is the concatenation of `k` complete records (a Go byte
slice, so shorter than `2^63`), few enough for the slice of messages to be
allocated, and a property map whose batch-count entry is the decimal text of `k`,
`getIndividualMsgsFromBatch` returns no error and exactly `k` messages in record
order; message `i` has `BatchIndex = i` and the payload of record `i`, byte for
byte. -/
theorem getIndividualMsgsFromBatch_complete_batch (unmarshal : Unmarshal)
    (topic : TopicName) (msgID : MessageID) (recs : List Record) (properties : PropMap)
    (hcomp : ∀ r ∈ recs, r.Complete unmarshal)
    (hsize : (batchBody recs).length < 2 ^ 63)
    (hcap : 8 * recs.length ≤ maxAlloc)
    (hcount : properties.get BatchHeader = Itoa (recs.length : Int)) :
    ∃ msgs, getIndividualMsgsFromBatch unmarshal topic msgID (batchBody recs) properties =
        .ret msgs none ∧
      msgs.length = recs.length ∧
      ∀ (i : Nat) (r : Record), recs[i]? = some r →
        ∃ m, msgs[i]? = some m ∧ m.MessageID.BatchIndex = (i : Int) ∧ m.Payload = r.payload := by
  have hk : recs.length < 2 ^ 63 := by
    have := batchBody_length_ge recs
    omega
  have hparse : Atoi (properties.get BatchHeader) = .ok (recs.length : Int) := by
    rw [hcount]; exact Atoi_Itoa_ofNat _ hk
  have hres := getIndividualMsgsFromBatch_records unmarshal topic msgID recs [] properties
    hcomp hcap hparse
  rw [List.append_nil] at hres
  refine ⟨_, hres, ?_, ?_⟩
  · simp [expectedCells_length]
  · intro i r hr
    simp [List.getElem?_map, expectedCells_getElem?, hr, MessageCell.deref]

theorem getIndividualMsgsFromBatch_complete_batch_sample :
    (∀ r ∈ [sampleRecA, sampleRecB], r.Complete sampleUnmarshal) ∧
    (batchBody [sampleRecA, sampleRecB]).length < 2 ^ 63 ∧
    8 * [sampleRecA, sampleRecB].length ≤ maxAlloc ∧
    (sampleBase "2").get BatchHeader = Itoa (([sampleRecA, sampleRecB].length : Nat) : Int) ∧
    ∃ msgs, getIndividualMsgsFromBatch sampleUnmarshal sampleTopic sampleID
        (batchBody [sampleRecA, sampleRecB]) (sampleBase "2") = .ret msgs none ∧
      msgs.length = [sampleRecA, sampleRecB].length ∧
      ∀ (i : Nat) (r : Record), [sampleRecA, sampleRecB][i]? = some r →
        ∃ m, msgs[i]? = some m ∧ m.MessageID.BatchIndex = (i : Int) ∧ m.Payload = r.payload :=
  ⟨by decide, by decide, by decide, by decide,
    getIndividualMsgsFromBatch_complete_batch sampleUnmarshal sampleTopic sampleID
      [sampleRecA, sampleRecB] (sampleBase "2") (by decide) (by decide) (by decide)
      (by decide)⟩

/-! ## Properties without a key or a value -/

/-- The property loop aborts at a property whose key or value is a nil pointer. -/
theorem applyProperties_incomplete (properties : PropMap) (kvs : List KeyValue)
    (h : ¬ ∀ kv ∈ kvs, kv.Complete) :
    applyProperties properties kvs = .error .nilDereference := by
  induction kvs generalizing properties with
  | nil => exact absurd (by simp) h
  | cons v rest ih =>
    obtain ⟨key, value⟩ := v
    cases key with
    | none => rfl
    | some k =>
      cases value with
      | none => rfl
      | some property =>
        simp only [applyProperties]
        apply ih
        intro hrest
        apply h
        intro kv hkv
        rcases List.mem_cons.mp hkv with rfl | hkv
        · exact ⟨rfl, rfl⟩
        · exact hrest kv hkv

/-- The loop aborts at the first record with a property whose key or value is a nil
pointer, when the records up to it are well formed. -/
theorem batchLoop_nil_property (unmarshal : Unmarshal) (topic : TopicName) (msgID : MessageID)
    (recs : List Record) (hwf : ∀ r ∈ recs, r.WellFormed unmarshal)
    (hnil : ¬ ∀ r ∈ recs, ∀ kv ∈ r.metadata.Properties, kv.Complete) (todo : Nat)
    (tail : List Byte) (i : Int) (properties : PropMap) (msgs : List MessageCell) :
    batchLoop unmarshal topic msgID (recs.length + todo) i (batchBody recs ++ tail)
        properties msgs = .panic .nilDereference := by
  induction recs generalizing i properties msgs with
  | nil => exact absurd (by simp) hnil
  | cons r rs ih =>
    obtain ⟨hL, hU, hP⟩ := hwf r (List.mem_cons_self _ _)
    have hrest : ∀ r1 ∈ rs, r1.WellFormed unmarshal :=
      fun r1 h => hwf r1 (List.mem_cons_of_mem _ h)
    have hbody : batchBody (r :: rs) ++ tail =
        be32 r.metaBytes.length ++ (r.metaBytes ++ (r.payload ++ (batchBody rs ++ tail))) := by
      simp [batchBody, Record.bytes, List.append_assoc]
    have hneg : ¬ (r.metadata.PayloadSize < 0) := by rw [hP]; omega
    have htoNat : r.metadata.PayloadSize.toNat = r.payload.length := by rw [hP]; simp
    have hlen : (r :: rs).length + todo = (rs.length + todo) + 1 := by
      simp only [List.length_cons]; omega
    rw [hbody, hlen]
    simp only [batchLoop]
    rw [readFull_exact _ _ 4 (be32_length _)]
    simp only [beUint32_be32 _ hL]
    rw [readFull_exact _ _ _ rfl]
    by_cases hC : ∀ kv ∈ r.metadata.Properties, kv.Complete
    · have hA := applyProperties_complete properties r.metadata.Properties hC
      simp only [hU, hA, hneg, if_false, htoNat]
      rw [readFull_exact _ _ _ rfl]
      simp only
      apply ih hrest
      intro hall
      apply hnil
      intro r1 h1
      rcases List.mem_cons.mp h1 with rfl | h1
      · exact hC
      · exact hall r1 h1
    · have hA := applyProperties_incomplete properties r.metadata.Properties hC
      simp only [hU, hA]

/-- What a return of `getIndividualMsgsFromBatch` tells about a body of well-formed
records, when the batch-count entry reads as the number of records: no property lacks
its key or its value, the slice of messages could be allocated, no error is returned
and the messages are those of the records, all holding the one map. -/
theorem getIndividualMsgsFromBatch_records_ret (unmarshal : Unmarshal) (topic : TopicName)
    (msgID : MessageID) (recs : List Record) (tail : List Byte) (properties : PropMap)
    (hwf : ∀ r ∈ recs, r.WellFormed unmarshal)
    (hcount : Atoi (properties.get BatchHeader) = .ok (recs.length : Int))
    (msgs : List Message) (err : Option Error)
    (hret : getIndividualMsgsFromBatch unmarshal topic msgID (batchBody recs ++ tail)
      properties = .ret msgs err) :
    (∀ r ∈ recs, r.Complete unmarshal) ∧ 8 * recs.length ≤ maxAlloc ∧ err = none ∧
      msgs = (expectedCells topic msgID 0 recs).map
        (MessageCell.deref (overlayAll properties recs)) := by
  have hnn : ¬ ((recs.length : Int) < 0) := by omega
  by_cases hle : (maxAlloc : Int) < 8 * (recs.length : Int)
  · simp [getIndividualMsgsFromBatch, hcount, hnn, hle] at hret
  · have hcap : 8 * recs.length ≤ maxAlloc := by
      have : ((8 * recs.length : Nat) : Int) ≤ (maxAlloc : Int) := by push_cast; omega
      exact_mod_cast this
    by_cases hC : ∀ r ∈ recs, ∀ kv ∈ r.metadata.Properties, kv.Complete
    · have hcomp : ∀ r ∈ recs, r.Complete unmarshal := fun r hr => ⟨hwf r hr, hC r hr⟩
      rw [getIndividualMsgsFromBatch_records unmarshal topic msgID recs tail properties hcomp
        hcap hcount] at hret
      simp only [Outcome.ret.injEq] at hret
      exact ⟨hcomp, hcap, hret.2.symm, hret.1.symm⟩
    · have hp := batchLoop_nil_property unmarshal topic msgID recs hwf hC 0 tail 0 properties []
      simp only [getIndividualMsgsFromBatch, hcount, hnn, hle, if_false, Int.toNat_ofNat] at hret
      rw [Nat.add_zero] at hp
      rw [hp] at hret
      exact absurd hret (by simp)

/-! ## Claims on `getIndividualMsgsFromBatch` -/

/-- C1, the code at the failing input: the batch count is `1` and the body is one
well-formed record (its metadata decodes, its payload has the declared size), with a
property that lacks its key or its value. The call does not return the one message:
it panics loading `*v.Key` or `*v.Value`. -/
theorem nil_property_panics (unmarshal : Unmarshal) (topic : TopicName) (msgID : MessageID)
    (r : Record) (properties : PropMap)
    (hwf : r.WellFormed unmarshal)
    (hnil : ∃ kv ∈ r.metadata.Properties, ¬ kv.Complete)
    (hcount : properties.get BatchHeader = Itoa 1) :
    getIndividualMsgsFromBatch unmarshal topic msgID (batchBody [r]) properties =
      .panic .nilDereference := by
  have hparse : Atoi (properties.get BatchHeader) = .ok 1 := by rw [hcount]; decide
  have hwf1 : ∀ r1 ∈ [r], r1.WellFormed unmarshal := by simpa using hwf
  have hnil1 : ¬ ∀ r1 ∈ [r], ∀ kv ∈ r1.metadata.Properties, kv.Complete := by
    obtain ⟨kv, hkv, hn⟩ := hnil
    intro hall
    exact hn (hall r (List.mem_singleton_self r) kv hkv)
  have hp := batchLoop_nil_property unmarshal topic msgID [r] hwf1 hnil1 0 [] 0 properties []
  rw [List.append_nil] at hp
  have hmax : ¬ ((maxAlloc : Int) < 8 * 1) := by decide
  simp only [getIndividualMsgsFromBatch, hparse, hmax, if_false]
  exact hp

theorem nil_property_panics_witness :
    sampleRecNoValue.WellFormed sampleUnmarshal ∧
    (∃ kv ∈ sampleRecNoValue.metadata.Properties, ¬ kv.Complete) ∧
    (sampleBase "1").get BatchHeader = Itoa 1 ∧
    getIndividualMsgsFromBatch sampleUnmarshal sampleTopic sampleID
      (batchBody [sampleRecNoValue]) (sampleBase "1") = .panic .nilDereference :=
  ⟨by decide, by decide, by decide,
    nil_property_panics sampleUnmarshal sampleTopic sampleID sampleRecNoValue (sampleBase "1")
      (by decide) (by decide) (by decide)⟩

theorem PropMap.find_set (m : PropMap) (k v key : String) :
    (m.set k v).find key = if key = k then some v else m.find key := by
  unfold PropMap.set PropMap.find
  by_cases h : key = k
  · subst h; simp [List.lookup]
  · have hb : (key == k) = false := by simpa using h
    simp only [List.lookup, hb, h, if_false]
    induction m.entries with
    | nil => simp
    | cons p ps ih =>
      by_cases hp : p.1 = k
      · have : (p.1 != k) = false := by simp [hp]
        rw [List.filter_cons_of_neg (by simpa using hp), ih]
        obtain ⟨a, b⟩ := p
        simp only at hp
        subst hp
        simp [List.lookup, hb]
      · rw [List.filter_cons_of_pos (by simpa using hp)]
        obtain ⟨a, b⟩ := p
        simp only [List.lookup]
        cases key == a <;> simp [ih]

/-- C2, counterexample: in the batch `[sampleRecB, sampleRecC]` the property `c` is
declared by record 1 only, and message 0 carries it. -/
theorem batch_properties_own_record_counterexample :
    ¬ (∀ (unmarshal : Unmarshal) (topic : TopicName) (msgID : MessageID)
        (recs : List Record) (properties : PropMap) (msgs : List Message),
        (∀ r ∈ recs, r.WellFormed unmarshal) →
        Atoi (properties.get BatchHeader) = .ok (recs.length : Int) →
        getIndividualMsgsFromBatch unmarshal topic msgID (batchBody recs) properties =
          .ret msgs none →
        ∀ (i : Nat) (m : Message) (r : Record), msgs[i]? = some m → recs[i]? = some r →
          ∀ key, m.Properties.find key =
            (overlayProperties properties r.metadata.Properties).find key) := by
  intro h
  have h0 := h sampleUnmarshal sampleTopic sampleID [sampleRecB, sampleRecC] (sampleBase "2")
    _ (by decide) (by decide) rfl 0 _ sampleRecB rfl rfl "c"
  revert h0
  decide

/-- C2, as the code has it: after a successful batch decode every returned message
carries the base property map overlaid with the metadata properties of all the
records of the batch, in record order, a later write winning on a key collision;
the messages share that one map. The decode is successful when every property of
the records carries a key and a value and the slice of messages can be allocated. -/
theorem batch_properties_all_records (unmarshal : Unmarshal) (topic : TopicName)
    (msgID : MessageID) (recs : List Record) (tail : List Byte) (properties : PropMap)
    (hwf : ∀ r ∈ recs, r.WellFormed unmarshal)
    (hcount : Atoi (properties.get BatchHeader) = .ok (recs.length : Int)) :
    ((∀ r ∈ recs, ∀ kv ∈ r.metadata.Properties, kv.Complete) → 8 * recs.length ≤ maxAlloc →
      ∃ msgs, getIndividualMsgsFromBatch unmarshal topic msgID (batchBody recs ++ tail)
        properties = .ret msgs none) ∧
    ∀ msgs, getIndividualMsgsFromBatch unmarshal topic msgID (batchBody recs ++ tail)
        properties = .ret msgs none →
      msgs.length = recs.length ∧
      ∀ m ∈ msgs, m.Properties = overlayAll properties recs := by
  refine ⟨fun hC hcap => ⟨_, getIndividualMsgsFromBatch_records unmarshal topic msgID recs
    tail properties (fun r hr => ⟨hwf r hr, hC r hr⟩) hcap hcount⟩, ?_⟩
  intro msgs hsucc
  obtain ⟨_, _, _, hmsgs⟩ := getIndividualMsgsFromBatch_records_ret unmarshal topic msgID
    recs tail properties hwf hcount msgs none hsucc
  subst hmsgs
  refine ⟨by simp [expectedCells_length], ?_⟩
  intro m hm
  simp only [List.mem_map] at hm
  obtain ⟨c, _, rfl⟩ := hm
  rfl

theorem batch_properties_all_records_witness :
    (∀ r ∈ [sampleRecB, sampleRecC], r.WellFormed sampleUnmarshal) ∧
    Atoi ((sampleBase "2").get BatchHeader) = .ok (([sampleRecB, sampleRecC].length : Nat) : Int) ∧
    (∀ r ∈ [sampleRecB, sampleRecC], ∀ kv ∈ r.metadata.Properties, kv.Complete) ∧
    8 * [sampleRecB, sampleRecC].length ≤ maxAlloc ∧
    (∃ msgs, getIndividualMsgsFromBatch sampleUnmarshal sampleTopic sampleID
        (batchBody [sampleRecB, sampleRecC] ++ []) (sampleBase "2") = .ret msgs none) ∧
    getIndividualMsgsFromBatch sampleUnmarshal sampleTopic sampleID
        (batchBody [sampleRecB, sampleRecC] ++ []) (sampleBase "2") =
      .ret [⟨sampleTopic.String, ⟨10, 20, -1, 0⟩, [9], overlayAll (sampleBase "2")
          [sampleRecB, sampleRecC]⟩,
        ⟨sampleTopic.String, ⟨10, 20, -1, 1⟩, [], overlayAll (sampleBase "2")
          [sampleRecB, sampleRecC]⟩] none ∧
    ∀ m ∈ [(⟨sampleTopic.String, ⟨10, 20, -1, 0⟩, [9], overlayAll (sampleBase "2")
          [sampleRecB, sampleRecC]⟩ : Message),
        ⟨sampleTopic.String, ⟨10, 20, -1, 1⟩, [], overlayAll (sampleBase "2")
          [sampleRecB, sampleRecC]⟩],
      m.Properties = overlayAll (sampleBase "2") [sampleRecB, sampleRecC] :=
  ⟨by decide, by decide, by decide, by decide,
    (batch_properties_all_records sampleUnmarshal sampleTopic sampleID
      [sampleRecB, sampleRecC] [] (sampleBase "2") (by decide) (by decide)).1
      (by decide) (by decide),
    by decide,
    ((batch_properties_all_records sampleUnmarshal sampleTopic sampleID
      [sampleRecB, sampleRecC] [] (sampleBase "2") (by decide) (by decide)).2 _
      (by decide)).2⟩

/-- C3, the code at the failing input: with the batch-count text `abc`, and with an
empty batch-count header, decoding returns no message and no error, whatever the
body holds. -/
theorem invalid_batch_count_returns_no_error (unmarshal : Unmarshal) (topic : TopicName)
    (msgID : MessageID) (data : List Byte) :
    getIndividualMsgsFromBatch unmarshal topic msgID data (sampleBase "abc") = .ret [] none ∧
    handleResp ParseMessageID unmarshal topic
      ⟨[("X-Pulsar-Message-Id", ["10:20:-1:-1"]), (BatchHeader, ["abc"])], .ok data⟩ =
        .ret [] none ∧
    handleResp ParseMessageID unmarshal topic
      ⟨[("X-Pulsar-Message-Id", ["10:20:-1:-1"]), (BatchHeader, [""])], .ok data⟩ =
        .ret [] none := by
  refine ⟨rfl, ?_, ?_⟩
  · have hid : ParseMessageID "10:20:-1:-1" = .ok ⟨10, 20, -1, -1⟩ := by decide
    have hget : Header.Get [("X-Pulsar-Message-Id", ["10:20:-1:-1"]), (BatchHeader, ["abc"])]
        "X-Pulsar-Message-ID" = "10:20:-1:-1" := by decide
    have hb : Header.Get [("X-Pulsar-Message-Id", ["10:20:-1:-1"]), (BatchHeader, ["abc"])]
        BatchHeader = "abc" := by decide
    simp only [handleResp, hget, hid, List.map, headerLoop, hb]
    rfl
  · have hid : ParseMessageID "10:20:-1:-1" = .ok ⟨10, 20, -1, -1⟩ := by decide
    have hget : Header.Get [("X-Pulsar-Message-Id", ["10:20:-1:-1"]), (BatchHeader, [""])]
        "X-Pulsar-Message-ID" = "10:20:-1:-1" := by decide
    have hb : Header.Get [("X-Pulsar-Message-Id", ["10:20:-1:-1"]), (BatchHeader, [""])]
        BatchHeader = "" := by decide
    simp only [handleResp, hget, hid, List.map, headerLoop, hb]
    rfl

/-- C4, the code at the failing input: with the batch-count text `-1` the call does
not return; it panics in `make([]*Message, 0, batchSize)`. -/
theorem negative_batch_count_panics (unmarshal : Unmarshal) (topic : TopicName)
    (msgID : MessageID) (data : List Byte) :
    getIndividualMsgsFromBatch unmarshal topic msgID data (sampleBase "-1") =
      .panic .makesliceCap := rfl

/-! ## Truncated bodies -/

/-- Decoding a run of complete records leaves the loop at the record after them. -/
theorem batchLoop_records_then (unmarshal : Unmarshal) (topic : TopicName) (msgID : MessageID)
    (recs : List Record) (hcomp : ∀ r ∈ recs, r.Complete unmarshal) (todo : Nat)
    (tail : List Byte) (i : Int) (properties : PropMap) (msgs : List MessageCell) :
    batchLoop unmarshal topic msgID (recs.length + todo) i (batchBody recs ++ tail)
        properties msgs =
      batchLoop unmarshal topic msgID todo (i + recs.length) tail (overlayAll properties recs)
        (msgs ++ expectedCells topic msgID i recs) := by
  induction recs generalizing i properties msgs with
  | nil => simp [expectedCells, overlayAll, batchBody]
  | cons r rs ih =>
    obtain ⟨⟨hL, hU, hP⟩, hC⟩ := hcomp r (List.mem_cons_self _ _)
    have hA := applyProperties_complete properties r.metadata.Properties hC
    have hrest : ∀ r1 ∈ rs, r1.Complete unmarshal :=
      fun r1 h => hcomp r1 (List.mem_cons_of_mem _ h)
    have hbody : batchBody (r :: rs) ++ tail =
        be32 r.metaBytes.length ++ (r.metaBytes ++ (r.payload ++ (batchBody rs ++ tail))) := by
      simp [batchBody, Record.bytes, List.append_assoc]
    have hneg : ¬ (r.metadata.PayloadSize < 0) := by rw [hP]; omega
    have htoNat : r.metadata.PayloadSize.toNat = r.payload.length := by rw [hP]; simp
    have hlen : (r :: rs).length + todo = (rs.length + todo) + 1 := by
      simp only [List.length_cons]; omega
    rw [hbody, hlen]
    simp only [batchLoop]
    rw [readFull_exact _ _ 4 (be32_length _)]
    simp only [beUint32_be32 _ hL]
    rw [readFull_exact _ _ _ rfl]
    simp only [hU, hA, hneg, if_false, htoNat]
    rw [readFull_exact _ _ _ rfl]
    simp only
    rw [ih hrest]
    have hi : i + 1 + (rs.length : Int) = i + ((r :: rs).length : Int) := by
      simp only [List.length_cons]; push_cast; ring
    rw [hi]
    simp [expectedCells, overlayAll, List.append_assoc]

theorem readFull_short (rd : List Byte) (n : Nat) (h : rd.length < n) :
    ∃ e, (e = Error.EOF ∨ e = Error.ErrUnexpectedEOF) ∧ readFull rd n = .error e := by
  unfold readFull
  have h0 : n ≠ 0 := by omega
  have h1 : ¬ n ≤ rd.length := by omega
  by_cases hr : rd = []
  · exact ⟨.EOF, Or.inl rfl, by simp [h0, h1, hr]⟩
  · exact ⟨.ErrUnexpectedEOF, Or.inr rfl, by simp [h0, h1, hr]⟩

/-- The loop stops with an end-of-input error at a record that is cut short. -/
theorem batchLoop_short (unmarshal : Unmarshal) (topic : TopicName) (msgID : MessageID)
    (todo : Nat) (i : Int) (rest : List Byte) (properties : PropMap)
    (msgs : List MessageCell) (h : ShortRecord unmarshal rest) :
    ∃ e, (e = Error.EOF ∨ e = Error.ErrUnexpectedEOF) ∧
      batchLoop unmarshal topic msgID (todo + 1) i rest properties msgs = .ret [] (some e) := by
  cases h with
  | lengthField _ hlen =>
    obtain ⟨e, he, hr⟩ := readFull_short rest 4 hlen
    exact ⟨e, he, by simp only [batchLoop, hr]⟩
  | metadataBlock len4 r h4 hlen =>
    obtain ⟨e, he, hr⟩ := readFull_short r (beUint32 len4) hlen
    refine ⟨e, he, ?_⟩
    simp only [batchLoop]
    rw [readFull_exact _ _ 4 h4]
    simp only [hr]
  | payloadBytes len4 metaBytes r m h4 hmeta hU hC hlen =>
    have hneg : ¬ (m.PayloadSize < 0) := by omega
    have hA := applyProperties_complete properties m.Properties hC
    obtain ⟨e, he, hr⟩ := readFull_short r m.PayloadSize.toNat (by omega)
    refine ⟨e, he, ?_⟩
    simp only [batchLoop, List.append_assoc]
    rw [readFull_exact _ _ 4 h4]
    simp only
    rw [readFull_exact _ _ _ hmeta]
    simp only [hU, hA, hneg, if_false, hr]

/-- A strict prefix of the bytes of a complete record is a record cut short. -/
theorem shortRecord_of_strict_prefix (unmarshal : Unmarshal) (r : Record)
    (hcomp : r.Complete unmarshal) (p t : List Byte) (h : p ++ t = r.bytes) (ht : t ≠ []) :
    ShortRecord unmarshal p := by
  obtain ⟨⟨hL, hU, hP⟩, hC⟩ := hcomp
  have htl : 0 < t.length := List.length_pos.mpr ht
  have hlen : p.length + t.length = 4 + r.metaBytes.length + r.payload.length := by
    have := congrArg List.length h
    simp only [Record.bytes, List.length_append, be32_length] at this
    omega
  by_cases h4 : p.length < 4
  · exact ShortRecord.lengthField p h4
  · -- the length field is complete
    have hp : p = be32 r.metaBytes.length ++ p.drop 4 := by
      have h1 : p.take 4 = be32 r.metaBytes.length := by
        have := congrArg (List.take 4) h
        rw [List.take_append_of_le_length (by omega)] at this
        rw [this, Record.bytes, List.append_assoc, List.take_left' (be32_length _)]
      rw [← h1, List.take_append_drop]
    have hrest : p.drop 4 ++ t = r.metaBytes ++ r.payload := by
      have := congrArg (List.drop 4) h
      rw [List.drop_append_of_le_length (by omega)] at this
      rw [this, Record.bytes, List.append_assoc, List.drop_left' (be32_length _)]
    have hdl : (p.drop 4).length = p.length - 4 := List.length_drop _ _
    by_cases hm : (p.drop 4).length < r.metaBytes.length
    · rw [hp]
      exact ShortRecord.metadataBlock _ _ (be32_length _) (by rw [beUint32_be32 _ hL]; exact hm)
    · -- the metadata block is complete
      have hq : p.drop 4 = r.metaBytes ++ (p.drop 4).drop r.metaBytes.length := by
        have h1 : (p.drop 4).take r.metaBytes.length = r.metaBytes := by
          have := congrArg (List.take r.metaBytes.length) hrest
          rw [List.take_append_of_le_length (by omega)] at this
          rw [this, List.take_left' rfl]
        conv_lhs => rw [← List.take_append_drop r.metaBytes.length (p.drop 4), h1]
      have hql : ((p.drop 4).drop r.metaBytes.length).length =
          p.length - 4 - r.metaBytes.length := by
        rw [List.length_drop, hdl]
      rw [hp, hq, ← List.append_assoc]
      refine ShortRecord.payloadBytes _ _ _ r.metadata (be32_length _)
        (by rw [beUint32_be32 _ hL]) hU hC ?_
      rw [hP, hql]
      have : p.length - 4 - r.metaBytes.length < r.payload.length := by omega
      exact_mod_cast this

/-- A strict prefix of a body of complete records consists of some of the records,
fewer than all, followed by a record that is cut short. -/
theorem strict_prefix_decomposition (unmarshal : Unmarshal) (recs : List Record)
    (hcomp : ∀ r ∈ recs, r.Complete unmarshal) (p t : List Byte)
    (h : p ++ t = batchBody recs) (ht : t ≠ []) :
    ∃ pre rest, (∀ r ∈ pre, r.Complete unmarshal) ∧ pre.length < recs.length ∧
      p = batchBody pre ++ rest ∧ ShortRecord unmarshal rest := by
  induction recs generalizing p with
  | nil =>
    simp only [batchBody, List.append_eq_nil] at h
    exact absurd h.2 ht
  | cons r rs ih =>
    have hr := hcomp r (List.mem_cons_self _ _)
    have hrest : ∀ r1 ∈ rs, r1.Complete unmarshal :=
      fun r1 h1 => hcomp r1 (List.mem_cons_of_mem _ h1)
    simp only [batchBody] at h
    rcases List.append_eq_append_iff.mp h with ⟨a, ha, hta⟩ | ⟨c, hc, hbc⟩
    · -- `p` ends inside the first record
      by_cases hnil : a = []
      · subst hnil
        rw [List.append_nil] at ha
        rw [List.nil_append] at hta
        obtain ⟨pre, rest, hpre, hlt, hp, hs⟩ := ih hrest [] (by simpa using hta)
        refine ⟨r :: pre, rest, ?_, ?_, ?_, hs⟩
        · intro r1 h1
          rcases List.mem_cons.mp h1 with rfl | h1
          · exact hr
          · exact hpre r1 h1
        · simp only [List.length_cons]; omega
        · simp only [batchBody, List.append_assoc, ← hp, List.append_nil, ha]
      · exact ⟨[], p, by simp, by simp, by simp [batchBody],
          shortRecord_of_strict_prefix unmarshal r hr p a ha.symm hnil⟩
    · -- `p` holds the whole first record
      obtain ⟨pre, rest, hpre, hlt, hp, hs⟩ := ih hrest c hbc.symm
      refine ⟨r :: pre, rest, ?_, ?_, ?_, hs⟩
      · intro r1 h1
        rcases List.mem_cons.mp h1 with rfl | h1
        · exact hr
        · exact hpre r1 h1
      · simp only [List.length_cons]; omega
      · simp only [batchBody, List.append_assoc, ← hp, hc]

/-- What `getIndividualMsgsFromBatch` returns when the record at some index below the
batch count is cut short after a run of complete records, for a batch count
within the allocation limit. -/
theorem getIndividualMsgsFromBatch_short (unmarshal : Unmarshal) (topic : TopicName)
    (msgID : MessageID) (properties : PropMap) (k : Int) (pre : List Record)
    (rest : List Byte)
    (hcount : Atoi (properties.get BatchHeader) = .ok k) (hcap : 8 * k ≤ (maxAlloc : Int))
    (hcomp : ∀ r ∈ pre, r.Complete unmarshal) (hj : (pre.length : Int) < k)
    (hshort : ShortRecord unmarshal rest) :
    ∃ e, (e = Error.EOF ∨ e = Error.ErrUnexpectedEOF) ∧
      getIndividualMsgsFromBatch unmarshal topic msgID (batchBody pre ++ rest) properties =
        .ret [] (some e) := by
  have hnn : ¬ (k < 0) := by omega
  have hle : ¬ ((maxAlloc : Int) < 8 * k) := by omega
  have hk : k.toNat = pre.length + ((k.toNat - pre.length - 1) + 1) := by omega
  obtain ⟨e, he, hr⟩ := batchLoop_short unmarshal topic msgID (k.toNat - pre.length - 1)
    (0 + pre.length) rest (overlayAll properties pre) ([] ++ expectedCells topic msgID 0 pre)
    hshort
  refine ⟨e, he, ?_⟩
  simp only [getIndividualMsgsFromBatch, hcount, hnn, hle, if_false]
  rw [hk, batchLoop_records_then unmarshal topic msgID pre hcomp, hr]

/-- When the batch count `k` is within the allocation limit and, at some record index
`j < k` (reached after `j` complete records, so `k >= 1`), fewer bytes remain
than the length field, the declared metadata length or the declared payload size
requires, `getIndividualMsgsFromBatch` returns a non-nil error (an end-of-input
error) and no message; in particular every strict prefix of a complete
`k`-record body is rejected with such an error. -/
theorem getIndividualMsgsFromBatch_truncated (unmarshal : Unmarshal) (topic : TopicName)
    (msgID : MessageID) (properties : PropMap) (k : Int)
    (hcount : Atoi (properties.get BatchHeader) = .ok k) (hcap : 8 * k ≤ (maxAlloc : Int)) :
    (∀ (pre : List Record) (rest : List Byte),
      (∀ r ∈ pre, r.Complete unmarshal) → (pre.length : Int) < k →
      ShortRecord unmarshal rest →
      ∃ e, (e = Error.EOF ∨ e = Error.ErrUnexpectedEOF) ∧
        getIndividualMsgsFromBatch unmarshal topic msgID (batchBody pre ++ rest) properties =
          .ret [] (some e)) ∧
    (∀ (recs : List Record) (p t : List Byte),
      (∀ r ∈ recs, r.Complete unmarshal) → (recs.length : Int) = k →
      p ++ t = batchBody recs → t ≠ [] →
      ∃ e, (e = Error.EOF ∨ e = Error.ErrUnexpectedEOF) ∧
        getIndividualMsgsFromBatch unmarshal topic msgID p properties = .ret [] (some e)) := by
  constructor
  · intro pre rest hcomp hj hshort
    exact getIndividualMsgsFromBatch_short unmarshal topic msgID properties k pre rest hcount
      hcap hcomp hj hshort
  · intro recs p t hcomp hlen hp ht
    obtain ⟨pre, rest, hpre, hlt, hpe, hs⟩ :=
      strict_prefix_decomposition unmarshal recs hcomp p t hp ht
    rw [hpe]
    exact getIndividualMsgsFromBatch_short unmarshal topic msgID properties k pre rest hcount
      hcap hpre (by omega) hs

theorem getIndividualMsgsFromBatch_truncated_sample :
    Atoi ((sampleBase "2").get BatchHeader) = .ok 2 ∧
    (∀ r ∈ [sampleRecA], r.Complete sampleUnmarshal) ∧
    (([sampleRecA].length : Nat) : Int) < 2 ∧
    ShortRecord sampleUnmarshal [0, 0, 0] ∧
    (∃ e, (e = Error.EOF ∨ e = Error.ErrUnexpectedEOF) ∧
      getIndividualMsgsFromBatch sampleUnmarshal sampleTopic sampleID
        (batchBody [sampleRecA] ++ [0, 0, 0]) (sampleBase "2") = .ret [] (some e)) ∧
    (∀ r ∈ [sampleRecA, sampleRecB], r.Complete sampleUnmarshal) ∧
    (([sampleRecA, sampleRecB].length : Nat) : Int) = 2 ∧
    (batchBody [sampleRecA] ++ [0, 0, 0, 1, 1]) ++ [9] = batchBody [sampleRecA, sampleRecB] ∧
    ([9] : List Byte) ≠ [] ∧
    (∃ e, (e = Error.EOF ∨ e = Error.ErrUnexpectedEOF) ∧
      getIndividualMsgsFromBatch sampleUnmarshal sampleTopic sampleID
        (batchBody [sampleRecA] ++ [0, 0, 0, 1, 1]) (sampleBase "2") = .ret [] (some e)) :=
  ⟨by decide, by decide, by decide, ShortRecord.lengthField _ (by decide),
    (getIndividualMsgsFromBatch_truncated sampleUnmarshal sampleTopic sampleID
      (sampleBase "2") 2 (by decide) (by decide)).1 [sampleRecA] [0, 0, 0] (by decide)
      (by decide) (ShortRecord.lengthField _ (by decide)),
    by decide, by decide, by decide, by decide,
    (getIndividualMsgsFromBatch_truncated sampleUnmarshal sampleTopic sampleID
      (sampleBase "2") 2 (by decide) (by decide)).2 [sampleRecA, sampleRecB]
      (batchBody [sampleRecA] ++ [0, 0, 0, 1, 1]) [9] (by decide) (by decide) (by decide)
      (by decide)⟩

/-- C5, the code at the failing input: with the batch-count text
`4611686018427387904` (that is `2^62`) the call does not return an error, whatever
the body holds, the empty body included: it panics in
`make([]*Message, 0, batchSize)`, whose `8 * batchSize` bytes are out of range. -/
theorem huge_batch_count_panics (unmarshal : Unmarshal) (topic : TopicName)
    (msgID : MessageID) (data : List Byte) :
    Atoi ((sampleBase "4611686018427387904").get BatchHeader) = .ok (2 ^ 62) ∧
    ShortRecord unmarshal [] ∧
    getIndividualMsgsFromBatch unmarshal topic msgID [] (sampleBase "4611686018427387904") =
      .panic .makesliceCap ∧
    getIndividualMsgsFromBatch unmarshal topic msgID data (sampleBase "4611686018427387904") =
      .panic .makesliceCap := by
  have h : Atoi ((sampleBase "4611686018427387904").get BatchHeader) = .ok (2 ^ 62) := by
    decide
  have hnn : ¬ ((2 : Int) ^ 62 < 0) := by decide
  have hle : (maxAlloc : Int) < 8 * 2 ^ 62 := by decide
  refine ⟨h, ShortRecord.lengthField _ (by decide), ?_, ?_⟩ <;>
    simp only [getIndividualMsgsFromBatch, h, hnn, hle, if_true, if_false]

/-! ## Claims on `handleResp` -/

theorem batchLoop_error_nil (unmarshal : Unmarshal) (topic : TopicName) (msgID : MessageID)
    (todo : Nat) (i : Int) (rd : List Byte) (properties : PropMap) (msgs : List MessageCell)
    (ms : List Message) (e : Error)
    (h : batchLoop unmarshal topic msgID todo i rd properties msgs = .ret ms (some e)) :
    ms = [] := by
  induction todo generalizing i rd properties msgs with
  | zero => simp [batchLoop] at h
  | succ todo ih =>
    simp only [batchLoop] at h
    split at h
    · cases h; rfl
    · split at h
      · cases h; rfl
      · split at h
        · cases h; rfl
        · split at h
          · cases h
          · split at h
            · cases h
            · split at h
              · cases h; rfl
              · exact ih _ _ _ _ h

theorem getIndividualMsgsFromBatch_error_nil (unmarshal : Unmarshal) (topic : TopicName)
    (msgID : MessageID) (data : List Byte) (properties : PropMap) (ms : List Message)
    (e : Error)
    (h : getIndividualMsgsFromBatch unmarshal topic msgID data properties = .ret ms (some e)) :
    ms = [] := by
  simp only [getIndividualMsgsFromBatch] at h
  split at h
  · cases h
  · split at h
    · cases h
    · split at h
      · cases h
      · exact batchLoop_error_nil _ _ _ _ _ _ _ _ _ _ h

theorem headerLoop_error_nil (unmarshal : Unmarshal) (topic : TopicName) (header : Header)
    (ID : MessageID) (payload : List Byte) (ks : List String) (properties : PropMap)
    (ms : List Message) (e : Error)
    (h : headerLoop unmarshal topic header ID payload ks properties = .ret ms (some e)) :
    ms = [] := by
  induction ks generalizing properties with
  | nil => simp [headerLoop] at h
  | cons k ks ih =>
    simp only [headerLoop] at h
    split at h
    · exact ih _ h
    · split at h
      · exact getIndividualMsgsFromBatch_error_nil _ _ _ _ _ _ _ h
      · split at h
        · exact ih _ h
        · exact ih _ h

/-- C6: decoding is all or nothing: whenever `getIndividualMsgsFromBatch` or
`handleResp` returns a non-nil error, the message list it returns is empty, also
when leading records of the batch had been decoded before the failing one. -/
theorem decode_error_returns_no_message (parseMessageID : MessageIDReader)
    (unmarshal : Unmarshal) (topic : TopicName) (msgID : MessageID) (data : List Byte)
    (properties : PropMap) (resp : Response) (ms : List Message) (e : Error)
    (h : getIndividualMsgsFromBatch unmarshal topic msgID data properties = .ret ms (some e) ∨
      handleResp parseMessageID unmarshal topic resp = .ret ms (some e)) :
    ms = [] := by
  rcases h with h | h
  · exact getIndividualMsgsFromBatch_error_nil _ _ _ _ _ _ _ h
  · simp only [handleResp] at h
    split at h
    · cases h; rfl
    · split at h
      · cases h; rfl
      · exact headerLoop_error_nil _ _ _ _ _ _ _ _ _ h

theorem decode_error_returns_no_message_witness :
    (getIndividualMsgsFromBatch sampleUnmarshal sampleTopic sampleID
        (batchBody [sampleRecA] ++ [0, 0, 0, 1, 1]) (sampleBase "2") =
        .ret [] (some .EOF) ∨
      handleResp ParseMessageID sampleUnmarshal sampleTopic sampleSingle =
        .ret [] (some .EOF)) ∧
    ([] : List Message) = [] :=
  ⟨Or.inl (by decide),
    decode_error_returns_no_message ParseMessageID sampleUnmarshal sampleTopic sampleID
      (batchBody [sampleRecA] ++ [0, 0, 0, 1, 1]) (sampleBase "2") sampleSingle []
      .EOF (Or.inl (by decide))⟩

theorem headerLoop_no_batch (unmarshal : Unmarshal) (topic : TopicName) (header : Header)
    (ID : MessageID) (payload : List Byte) (ks : List String) (properties : PropMap)
    (hnb : ∀ k ∈ ks, k ≠ BatchHeader) :
    headerLoop unmarshal topic header ID payload ks properties =
      .ret [NewMessage topic.String ID payload (ks.foldl (headerStep header) properties)]
        none := by
  induction ks generalizing properties with
  | nil => simp [headerLoop]
  | cons k ks ih =>
    have hk : k ≠ BatchHeader := hnb k (List.mem_cons_self _ _)
    have hks : ∀ k1 ∈ ks, k1 ≠ BatchHeader := fun k1 h => hnb k1 (List.mem_cons_of_mem _ h)
    simp only [headerLoop, List.foldl_cons, headerStep, hk, if_false]
    split
    · exact ih _ hks
    · split
      · exact ih _ hks
      · exact ih _ hks

/-- What `handleResp` returns for a response without a batch-count header. -/
theorem handleResp_no_batch (parseMessageID : MessageIDReader) (unmarshal : Unmarshal)
    (topic : TopicName) (resp : Response) (ID : MessageID) (payload : List Byte)
    (hid : parseMessageID (resp.Header.Get "X-Pulsar-Message-ID") = .ok ID)
    (hbody : resp.Body = .ok payload)
    (hnb : ∀ kv ∈ resp.Header, kv.1 ≠ BatchHeader) :
    handleResp parseMessageID unmarshal topic resp =
      .ret [⟨topic.String, ID, payload, baseProperties resp.Header⟩] none := by
  simp only [handleResp, hid, hbody]
  rw [headerLoop_no_batch]
  · rfl
  · intro k hk
    obtain ⟨kv, hkv, rfl⟩ := List.mem_map.mp hk
    exact hnb kv hkv

/-- C7: for a response with a parsable message-identity header, a readable body and
no batch-count header, `handleResp` returns no error and exactly one message: its
topic is `topic.String()`, its identity the parsed identity unchanged, its payload
the whole body, and its properties the base property map built from the headers. -/
theorem handleResp_single_message (parseMessageID : MessageIDReader) (unmarshal : Unmarshal)
    (topic : TopicName) (resp : Response) (ID : MessageID) (payload : List Byte)
    (hid : parseMessageID (resp.Header.Get "X-Pulsar-Message-ID") = .ok ID)
    (hbody : resp.Body = .ok payload)
    (hnb : ∀ kv ∈ resp.Header, kv.1 ≠ BatchHeader) :
    handleResp parseMessageID unmarshal topic resp =
      .ret [⟨topic.String, ID, payload, baseProperties resp.Header⟩] none :=
  handleResp_no_batch parseMessageID unmarshal topic resp ID payload hid hbody hnb

theorem handleResp_single_message_witness :
    ParseMessageID (sampleSingle.Header.Get "X-Pulsar-Message-ID") = .ok ⟨10, 20, -1, -1⟩ ∧
    sampleSingle.Body = .ok [104, 101, 108, 108, 111] ∧
    (∀ kv ∈ sampleSingle.Header, kv.1 ≠ BatchHeader) ∧
    handleResp ParseMessageID sampleUnmarshal sampleTopic sampleSingle =
      .ret [⟨sampleTopic.String, ⟨10, 20, -1, -1⟩, [104, 101, 108, 108, 111],
        baseProperties sampleSingle.Header⟩] none ∧
    baseProperties sampleSingle.Header =
      ⟨[("Color", "red"), ("publish-time", "2023-01-01")]⟩ :=
  ⟨by decide, by decide, by decide,
    handleResp_single_message ParseMessageID sampleUnmarshal sampleTopic sampleSingle
      ⟨10, 20, -1, -1⟩ [104, 101, 108, 108, 111] (by decide) (by decide) (by decide),
    by decide⟩

theorem Header.Get_absent (header : Header) (key : String)
    (h : ∀ kv ∈ header, kv.1 ≠ CanonicalMIMEHeaderKey key) : Header.Get header key = "" := by
  have hl : List.lookup (CanonicalMIMEHeaderKey key) header = none := by
    induction header with
    | nil => rfl
    | cons kv rest ih =>
      obtain ⟨a, b⟩ := kv
      have ha : a ≠ CanonicalMIMEHeaderKey key := h (a, b) (List.mem_cons_self _ _)
      have hb : (CanonicalMIMEHeaderKey key == a) = false := by
        simpa using fun h1 => ha h1.symm
      simp only [List.lookup, hb]
      exact ih (fun kv1 h1 => h kv1 (List.mem_cons_of_mem _ h1))
  simp only [Header.Get, hl]

/-- C8: when `ParseMessageID` fails on the value of the message-identity header, and
in particular when that header is absent (the value is then empty and the reader of
the spec rejects it), `handleResp` returns that error and no message, whatever the
other headers, a batch-count header included, and the body hold. -/
theorem handleResp_identity_error (parseMessageID : MessageIDReader) (unmarshal : Unmarshal)
    (topic : TopicName) (resp : Response) (e : Error)
    (h : parseMessageID (resp.Header.Get "X-Pulsar-Message-ID") = .error e ∨
      (parseMessageID = ParseMessageID ∧ e = .invalidMessageID "" ∧
        ∀ kv ∈ resp.Header, kv.1 ≠ "X-Pulsar-Message-Id")) :
    handleResp parseMessageID unmarshal topic resp = .ret [] (some e) := by
  have hfail : parseMessageID (resp.Header.Get "X-Pulsar-Message-ID") = .error e := by
    rcases h with h | ⟨hp, he, habs⟩
    · exact h
    · have hc : CanonicalMIMEHeaderKey "X-Pulsar-Message-ID" = "X-Pulsar-Message-Id" := by
        decide
      rw [Header.Get_absent resp.Header "X-Pulsar-Message-ID" (by rw [hc]; exact habs), hp, he]
      decide
  simp only [handleResp, hfail]

theorem handleResp_identity_error_witness :
    (ParseMessageID (sampleNoIdentity.Header.Get "X-Pulsar-Message-ID") =
        .error (.invalidMessageID "") ∨
      (ParseMessageID = ParseMessageID ∧ Error.invalidMessageID "" = .invalidMessageID "" ∧
        ∀ kv ∈ sampleNoIdentity.Header, kv.1 ≠ "X-Pulsar-Message-Id")) ∧
    handleResp ParseMessageID sampleUnmarshal sampleTopic sampleNoIdentity =
      .ret [] (some (.invalidMessageID "")) :=
  ⟨Or.inr ⟨rfl, rfl, by decide⟩,
    handleResp_identity_error ParseMessageID sampleUnmarshal sampleTopic sampleNoIdentity
      (.invalidMessageID "") (Or.inr ⟨rfl, rfl, by decide⟩)⟩

/-! ## Claims on `PeekMessages` -/

theorem peekLoop_done (peekNth : Int → Outcome (List Message)) (fuel : Nat) (n count : Int)
    (msgs : List Message) (fetched : List Int) (hn : n ≤ 0) :
    peekLoop peekNth fuel n count msgs fetched = some (.ret msgs none, fetched) := by
  have h : ¬ (n > 0) := by omega
  cases fuel <;> simp [peekLoop, h]

/-- As long as the fetches succeed and the requested count is not reached, the loop
appends what each position yields and moves on to the next position. -/
theorem peekLoop_run (peekNth : Int → Outcome (List Message)) (f : Nat → List Message)
    (m fuel : Nat) (n : Int) (c : Nat) (msgs : List Message) (fetched : List Int)
    (hok : ∀ j, j < m → peekNth ((c + j : Nat) : Int) = .ret (f (c + j)) none)
    (hrun : ∀ j, j < m → ((collect f c j).length : Int) < n) :
    peekLoop peekNth (fuel + m) n (c : Int) msgs fetched =
      peekLoop peekNth fuel (n - ((collect f c m).length : Int)) ((c + m : Nat) : Int)
        (msgs ++ collect f c m) (fetched ++ positionsFrom c m) := by
  induction m generalizing n c msgs fetched with
  | zero => simp [collect, positionsFrom]
  | succ m ih =>
    have hpos : n > 0 := by
      have := hrun 0 (Nat.succ_pos _)
      simpa [collect] using this
    have h0 : peekNth (c : Int) = .ret (f c) none := by
      have := hok 0 (Nat.succ_pos _)
      simpa using this
    have hfuel : fuel + (m + 1) = (fuel + m) + 1 := by omega
    rw [hfuel]
    simp only [peekLoop, hpos, if_true, h0]
    have hc : (c : Int) + 1 = ((c + 1 : Nat) : Int) := by push_cast; rfl
    rw [hc, ih (n - ((f c).length : Int)) (c + 1) (msgs ++ f c) (fetched ++ [(c : Int)])]
    · have e1 : c + 1 + m = c + (m + 1) := by omega
      have e2 : n - ((f c).length : Int) - ((collect f (c + 1) m).length : Int) =
          n - ((collect f c (m + 1)).length : Int) := by
        simp only [collect, List.length_append]; push_cast; ring
      rw [e1, e2]
      simp [collect, positionsFrom, List.append_assoc]
    · intro j hj
      have := hok (j + 1) (by omega)
      have e : c + (j + 1) = c + 1 + j := by omega
      rw [e] at this
      exact this
    · intro j hj
      have := hrun (j + 1) (by omega)
      simp only [collect, List.length_append] at this
      push_cast at this
      omega

theorem collect_length_ge (f : Nat → List Message) (c m : Nat)
    (h : ∀ pos, c ≤ pos → f pos ≠ []) : m ≤ (collect f c m).length := by
  induction m generalizing c with
  | zero => simp
  | succ m ih =>
    have h1 : 0 < (f c).length := List.length_pos.mpr (h c (Nat.le_refl _))
    have h2 := ih (c + 1) (fun pos hp => h pos (by omega))
    simp only [collect, List.length_append]
    omega

/-- C9: for `n > 0`, when the fetch of every position succeeds with at least one
message, `PeekMessages` returns the results of positions `1, ..., p` one after the
other, where `p` is the least number of positions whose results together hold at
least `n` messages; it fetches exactly the positions `1, ..., p`, each once, in
order, and the result may hold more than `n` messages. -/
theorem PeekMessages_collects (parseMessageID : MessageIDReader) (unmarshal : Unmarshal)
    (makeRequest : Transport) (topic : TopicName) (f : Nat → List Message) (n : Int)
    (hn : 0 < n)
    (hok : ∀ pos : Nat, 1 ≤ pos →
      peekNthMessage parseMessageID unmarshal makeRequest topic (pos : Int) =
        .ret (f pos) none ∧ f pos ≠ []) :
    ∃ p : Nat, 1 ≤ p ∧ n ≤ ((collect f 1 p).length : Int) ∧
      (∀ q, q < p → ((collect f 1 q).length : Int) < n) ∧
      ∀ fuel, p ≤ fuel →
        PeekMessages parseMessageID unmarshal makeRequest topic fuel n =
          some (.ret (collect f 1 p) none, positionsFrom 1 p) := by
  have hex : ∃ q : Nat, n ≤ ((collect f 1 q).length : Int) := by
    refine ⟨n.toNat, ?_⟩
    have := collect_length_ge f 1 n.toNat (fun pos hp => (hok pos hp).2)
    omega
  refine ⟨Nat.find hex, ?_, Nat.find_spec hex, ?_, ?_⟩
  · rcases Nat.eq_zero_or_pos (Nat.find hex) with h0 | hpos
    · have := Nat.find_spec hex
      rw [h0] at this
      simp [collect] at this
      omega
    · exact hpos
  · intro q hq
    have := Nat.find_min hex hq
    omega
  · intro fuel hfuel
    have hsplit : fuel = (fuel - Nat.find hex) + Nat.find hex := by omega
    simp only [PeekMessages, PeekMessagesWith]
    rw [hsplit]
    have hrun := peekLoop_run (peekNthMessage parseMessageID unmarshal makeRequest topic) f
      (Nat.find hex) (fuel - Nat.find hex) n 1 [] []
      (fun j _ => (hok (1 + j) (by omega)).1)
      (fun j hj => by
        have := Nat.find_min hex hj
        omega)
    rw [show ((1 : Nat) : Int) = 1 from rfl] at hrun
    rw [hrun, peekLoop_done _ _ _ _ _ _ (by have := Nat.find_spec hex; omega)]
    simp

theorem sampleTransport_ok (pos : Nat) (_ : 1 ≤ pos) :
    peekNthMessage ParseMessageID sampleUnmarshal sampleTransport sampleTopic (pos : Int) =
      .ret (sampleFetched pos) none ∧ sampleFetched pos ≠ [] := by
  by_cases h : pos = 1
  · subst h; decide
  · have h1 : ¬ ((pos : Int) = 1) := by omega
    have e1 : peekNthMessage ParseMessageID sampleUnmarshal sampleTransport sampleTopic
        (pos : Int) = handleResp ParseMessageID sampleUnmarshal sampleTopic sampleBatch4 := by
      simp only [peekNthMessage, sampleTransport, h1, if_false]
    have e2 : sampleFetched pos = decoded sampleBatch4 := by
      simp only [sampleFetched, h, if_false]
    rw [e1, e2]
    decide

theorem PeekMessages_collects_witness :
    (0 : Int) < 5 ∧
    (∀ pos : Nat, 1 ≤ pos →
      peekNthMessage ParseMessageID sampleUnmarshal sampleTransport sampleTopic (pos : Int) =
        .ret (sampleFetched pos) none ∧ sampleFetched pos ≠ []) ∧
    (∃ p : Nat, 1 ≤ p ∧ (5 : Int) ≤ ((collect sampleFetched 1 p).length : Int) ∧
      (∀ q, q < p → ((collect sampleFetched 1 q).length : Int) < 5) ∧
      ∀ fuel, p ≤ fuel →
        PeekMessages ParseMessageID sampleUnmarshal sampleTransport sampleTopic fuel 5 =
          some (.ret (collect sampleFetched 1 p) none, positionsFrom 1 p)) ∧
    (collect sampleFetched 1 2).length = 7 ∧ positionsFrom 1 2 = [1, 2] ∧
    PeekMessages ParseMessageID sampleUnmarshal sampleTransport sampleTopic 2 5 =
      some (.ret (collect sampleFetched 1 2) none, [1, 2]) :=
  ⟨by decide, sampleTransport_ok,
    PeekMessages_collects ParseMessageID sampleUnmarshal sampleTransport sampleTopic
      sampleFetched 5 (by decide) sampleTransport_ok,
    by decide, by decide, by decide⟩

/-- C10: when the fetches of positions `1, ..., q` succeed without reaching the
requested count and the fetch of position `q + 1` fails, `PeekMessages` stops there:
it returns that error with no message, dropping what the earlier positions yielded,
and the positions fetched are exactly `1, ..., q + 1`, each once. -/
theorem PeekMessages_fetch_error (parseMessageID : MessageIDReader) (unmarshal : Unmarshal)
    (makeRequest : Transport) (topic : TopicName) (f : Nat → List Message) (n : Int)
    (q : Nat) (ms : List Message) (e : Error)
    (hok : ∀ j, j < q →
      peekNthMessage parseMessageID unmarshal makeRequest topic ((1 + j : Nat) : Int) =
        .ret (f (1 + j)) none)
    (hrun : ∀ j, j ≤ q → ((collect f 1 j).length : Int) < n)
    (hfail : peekNthMessage parseMessageID unmarshal makeRequest topic ((1 + q : Nat) : Int) =
      .ret ms (some e)) :
    ∀ fuel, q + 1 ≤ fuel →
      PeekMessages parseMessageID unmarshal makeRequest topic fuel n =
        some (.ret [] (some e), positionsFrom 1 (q + 1)) := by
  intro fuel hfuel
  have hsplit : fuel = ((fuel - q - 1) + 1) + q := by omega
  simp only [PeekMessages, PeekMessagesWith]
  have hrun1 := peekLoop_run (peekNthMessage parseMessageID unmarshal makeRequest topic) f
    q ((fuel - q - 1) + 1) n 1 [] [] hok (fun j hj => hrun j (by omega))
  rw [show ((1 : Nat) : Int) = 1 from rfl] at hrun1
  have hpos : n - ((collect f 1 q).length : Int) > 0 := by
    have := hrun q (Nat.le_refl _)
    omega
  have hsnoc : ∀ (c m : Nat), positionsFrom c (m + 1) = positionsFrom c m ++ [((c + m : Nat) : Int)] := by
    intro c m
    induction m generalizing c with
    | zero => simp [positionsFrom]
    | succ m ih =>
      have e1 : c + (m + 1) = c + 1 + m := by omega
      rw [positionsFrom, ih (c + 1), e1]
      simp [positionsFrom]
  rw [hsplit, hrun1]
  simp only [peekLoop, hpos, if_true, hfail, List.nil_append, hsnoc 1 q]

theorem PeekMessages_fetch_error_witness :
    (∀ j, j < 1 →
      peekNthMessage ParseMessageID sampleUnmarshal sampleBrokenTransport sampleTopic
        ((1 + j : Nat) : Int) = .ret (sampleFetched (1 + j)) none) ∧
    (∀ j, j ≤ 1 → ((collect sampleFetched 1 j).length : Int) < 5) ∧
    peekNthMessage ParseMessageID sampleUnmarshal sampleBrokenTransport sampleTopic
      ((1 + 1 : Nat) : Int) = .ret [] (some (.transport "connection reset")) ∧
    (∀ fuel, 1 + 1 ≤ fuel →
      PeekMessages ParseMessageID sampleUnmarshal sampleBrokenTransport sampleTopic fuel 5 =
        some (.ret [] (some (.transport "connection reset")), positionsFrom 1 (1 + 1))) ∧
    positionsFrom 1 (1 + 1) = [1, 2] :=
  ⟨by decide, by decide, by decide,
    PeekMessages_fetch_error ParseMessageID sampleUnmarshal sampleBrokenTransport sampleTopic
      sampleFetched 5 1 [] (.transport "connection reset") (by decide) (by decide) (by decide),
    by decide⟩

/-! ## Successful batch decodes -/

theorem readFull_ok (rd : List Byte) (n : Nat) (a b : List Byte)
    (h : readFull rd n = .ok (a, b)) : rd = a ++ b ∧ a.length = n := by
  unfold readFull at h
  split at h
  · rename_i h0
    cases h
    exact ⟨rfl, h0.symm⟩
  · split at h
    · rename_i hle
      cases h
      exact ⟨(List.take_append_drop n rd).symm, List.length_take_of_le hle⟩
    · split at h <;> cases h

theorem beUint32_lt (buf : List Byte) : beUint32 buf < 2 ^ 32 := by
  unfold beUint32
  split
  · rename_i b0 b1 b2 b3
    have h0 := b0.isLt
    have h1 := b1.isLt
    have h2 := b2.isLt
    have h3 := b3.isLt
    omega
  · decide

theorem be32_beUint32 (buf : List Byte) (h : buf.length = 4) : be32 (beUint32 buf) = buf := by
  match buf, h with
  | [b0, b1, b2, b3], _ =>
    have h0 := b0.isLt
    have h1 := b1.isLt
    have h2 := b2.isLt
    have h3 := b3.isLt
    simp only [be32, beUint32, Fin.ofNat]
    congr 1
    · apply Fin.ext; simp only; omega
    · congr 1
      · apply Fin.ext; simp only; omega
      · congr 1
        · apply Fin.ext; simp only; omega
        · congr 1
          apply Fin.ext; simp only; omega

/-- A successful run of the loop has read complete records, one per iteration,
and returns their cells, all reading the final content of the shared map. -/
theorem batchLoop_success (unmarshal : Unmarshal) (topic : TopicName) (msgID : MessageID)
    (todo : Nat) (i : Int) (rd : List Byte) (properties : PropMap) (msgs : List MessageCell)
    (ms : List Message)
    (h : batchLoop unmarshal topic msgID todo i rd properties msgs = .ret ms none) :
    ∃ recs tail, (∀ r ∈ recs, r.Complete unmarshal) ∧ recs.length = todo ∧
      rd = batchBody recs ++ tail ∧
      ms = (msgs ++ expectedCells topic msgID i recs).map
        (MessageCell.deref (overlayAll properties recs)) := by
  induction todo generalizing i rd properties msgs with
  | zero =>
    simp only [batchLoop] at h
    cases h
    exact ⟨[], rd, by simp, rfl, by simp [batchBody], by simp [expectedCells, overlayAll]⟩
  | succ todo ih =>
    simp only [batchLoop] at h
    split at h
    · cases h
    · rename_i buf32 rd1 h1
      split at h
      · cases h
      · rename_i metaBuf rd2 h2
        split at h
        · cases h
        · rename_i meta hU
          split at h
          · cases h
          · rename_i properties1 hA
            obtain ⟨hC, hp1⟩ := applyProperties_ok _ _ _ hA
            split at h
            · cases h
            · rename_i hneg
              split at h
              · cases h
              · rename_i payload rd3 h3
                obtain ⟨recs, tail, hcomp, hlen, hrd, hms⟩ := ih _ _ _ _ h
                obtain ⟨e1, l1⟩ := readFull_ok _ _ _ _ h1
                obtain ⟨e2, l2⟩ := readFull_ok _ _ _ _ h2
                obtain ⟨e3, l3⟩ := readFull_ok _ _ _ _ h3
                refine ⟨⟨metaBuf, meta, payload⟩ :: recs, tail, ?_, ?_, ?_, ?_⟩
                · intro r hr
                  rcases List.mem_cons.mp hr with rfl | hr
                  · refine ⟨⟨?_, hU, ?_⟩, hC⟩
                    · simp only [l2]; exact beUint32_lt _
                    · simp only [l3]
                      omega
                  · exact hcomp r hr
                · simp [hlen]
                · simp only [batchBody, Record.bytes, l2, be32_beUint32 _ l1, List.append_assoc]
                  rw [e1, e2, e3, hrd]
                · rw [hms, hp1]
                  simp [expectedCells, overlayAll, List.append_assoc]

/-- A successful call of `getIndividualMsgsFromBatch` whose batch-count entry reads as
`k` has decoded `k` complete records from the front of the body. -/
theorem getIndividualMsgsFromBatch_success (unmarshal : Unmarshal) (topic : TopicName)
    (msgID : MessageID) (data : List Byte) (properties : PropMap) (k : Int)
    (ms : List Message)
    (hcount : Atoi (properties.get BatchHeader) = .ok k)
    (h : getIndividualMsgsFromBatch unmarshal topic msgID data properties = .ret ms none) :
    0 ≤ k ∧ ∃ recs tail, (∀ r ∈ recs, r.Complete unmarshal) ∧ (recs.length : Int) = k ∧
      data = batchBody recs ++ tail ∧
      ms = (expectedCells topic msgID 0 recs).map
        (MessageCell.deref (overlayAll properties recs)) := by
  simp only [getIndividualMsgsFromBatch, hcount] at h
  split at h
  · cases h
  · rename_i hk
    split at h
    · cases h
    · obtain ⟨recs, tail, hcomp, hlen, hrd, hms⟩ := batchLoop_success _ _ _ _ _ _ _ _ _ h
      refine ⟨by omega, recs, tail, hcomp, by omega, hrd, ?_⟩
      simpa using hms

/-! ## Claims on `GetMessageByID` -/

/-- When the loop of `handleResp` meets the batch-count header, what it returns is a
result of `getIndividualMsgsFromBatch` on the identity and the body. -/
theorem headerLoop_batch (unmarshal : Unmarshal) (topic : TopicName) (header : Header)
    (ID : MessageID) (payload : List Byte) (ks : List String) (properties : PropMap)
    (hb : BatchHeader ∈ ks) :
    ∃ base, headerLoop unmarshal topic header ID payload ks properties =
      getIndividualMsgsFromBatch unmarshal topic ID payload base := by
  induction ks generalizing properties with
  | nil => simp at hb
  | cons k ks ih =>
    simp only [headerLoop]
    split
    · rename_i hk
      have hne : BatchHeader ≠ k := by rw [hk]; decide
      rcases List.mem_cons.mp hb with h | h
      · exact absurd h hne
      · exact ih _ h
    · split
      · exact ⟨_, rfl⟩
      · rename_i hk1 hk2
        have hne : BatchHeader ≠ k := fun h => hk2 h.symm
        rcases List.mem_cons.mp hb with h | h
        · exact absurd h hne
        · split
          · exact ih _ h
          · exact ih _ h

/-- The first message of a successful batch decode has batch index 0. -/
theorem getIndividualMsgsFromBatch_first (unmarshal : Unmarshal) (topic : TopicName)
    (msgID : MessageID) (data : List Byte) (properties : PropMap) (m : Message)
    (ms : List Message)
    (h : getIndividualMsgsFromBatch unmarshal topic msgID data properties =
      .ret (m :: ms) none) : m.MessageID.BatchIndex = 0 := by
  cases hc : Atoi (properties.get BatchHeader) with
  | error e => simp [getIndividualMsgsFromBatch, hc] at h
  | ok k =>
    obtain ⟨_, recs, tail, _, _, _, hms⟩ :=
      getIndividualMsgsFromBatch_success unmarshal topic msgID data properties k _ hc h
    cases recs with
    | nil => simp [expectedCells] at hms
    | cons r rs =>
      simp only [expectedCells, List.map_cons, List.cons.injEq] at hms
      rw [hms.1]
      rfl

/-- C11: `GetMessageByID` returns no message and no error exactly when the request
and the decoding succeed with zero decoded messages; when the decoding succeeds with
one message or more it returns the first of them (the one with batch index 0 for a
batch response) and no error; when the request or the decoding fails it returns that
error and no message. -/
theorem GetMessageByID_result (parseMessageID : MessageIDReader) (unmarshal : Unmarshal)
    (makeRequest : EntryTransport) (topic : TopicName) (ledgerID entryID : Int) :
    (GetMessageByID parseMessageID unmarshal makeRequest topic ledgerID entryID =
        .ret none none ↔
      ∃ resp, makeRequest ledgerID entryID = .ok resp ∧
        handleResp parseMessageID unmarshal topic resp = .ret [] none) ∧
    (∀ resp m ms, makeRequest ledgerID entryID = .ok resp →
      handleResp parseMessageID unmarshal topic resp = .ret (m :: ms) none →
      GetMessageByID parseMessageID unmarshal makeRequest topic ledgerID entryID =
          .ret (some m) none ∧
        ((∃ kv ∈ resp.Header, kv.1 = BatchHeader) → m.MessageID.BatchIndex = 0)) ∧
    (∀ e, makeRequest ledgerID entryID = .error e →
      GetMessageByID parseMessageID unmarshal makeRequest topic ledgerID entryID =
        .ret none (some e)) ∧
    (∀ resp ms e, makeRequest ledgerID entryID = .ok resp →
      handleResp parseMessageID unmarshal topic resp = .ret ms (some e) →
      GetMessageByID parseMessageID unmarshal makeRequest topic ledgerID entryID =
        .ret none (some e)) := by
  refine ⟨⟨?_, ?_⟩, ?_, ?_, ?_⟩
  · intro h
    simp only [GetMessageByID] at h
    split at h
    · cases h
    · rename_i resp hreq
      refine ⟨resp, hreq, ?_⟩
      split at h
      · cases h
      · cases h
      · rename_i messages hresp
        split at h
        · exact hresp
        · cases h
  · rintro ⟨resp, hreq, hresp⟩
    simp only [GetMessageByID, hreq, hresp]
  · intro resp m ms hreq hresp
    refine ⟨by simp only [GetMessageByID, hreq, hresp], ?_⟩
    rintro ⟨kv, hkv, hk⟩
    simp only [handleResp] at hresp
    split at hresp
    · cases hresp
    · split at hresp
      · cases hresp
      · obtain ⟨base, hbase⟩ := headerLoop_batch unmarshal topic resp.Header _ _
          (resp.Header.map Prod.fst) PropMap.empty
          (List.mem_map.mpr ⟨kv, hkv, hk⟩)
        rw [hbase] at hresp
        exact getIndividualMsgsFromBatch_first _ _ _ _ _ _ _ hresp
  · intro e hreq
    simp only [GetMessageByID, hreq]
  · intro resp ms e hreq hresp
    simp only [GetMessageByID, hreq, hresp]

theorem GetMessageByID_result_witness :
    GetMessageByID ParseMessageID sampleUnmarshal sampleEntryTransport sampleTopic 7 0 =
      .ret none none ∧
    GetMessageByID ParseMessageID sampleUnmarshal sampleEntryTransport sampleTopic 7 1 =
      .ret (some ⟨sampleTopic.String, ⟨10, 20, -1, 0⟩, [7, 8],
        overlayAll (sampleBase "3") [sampleRecA, sampleRecB, sampleRecC]⟩) none ∧
    GetMessageByID ParseMessageID sampleUnmarshal sampleEntryTransport sampleTopic 7 3 =
      .ret none (some .ErrUnexpectedEOF) ∧
    GetMessageByID ParseMessageID sampleUnmarshal sampleEntryTransport sampleTopic 7 4 =
      .ret none (some (.transport "connection refused")) :=
  ⟨(GetMessageByID_result ParseMessageID sampleUnmarshal sampleEntryTransport sampleTopic
      7 0).1.mpr ⟨sampleBatch0, by decide, by decide⟩,
    by decide, by decide,
    (GetMessageByID_result ParseMessageID sampleUnmarshal sampleEntryTransport sampleTopic
      7 4).2.2.1 _ (by decide)⟩

/-! ## Claims on the base property map -/

/-- C12, the code at the failing input: the header `Foo-X-Pulsar-Property-Bar` does
not begin with `X-Pulsar-Property-`, and the non-batch decode still turns it into a
property, under its whole name. -/
theorem property_header_marker_inside_name :
    PropertyPrefix.toList.isPrefixOf "Foo-X-Pulsar-Property-Bar".toList = false ∧
    Header.Canonical sampleInfix.Header ∧
    handleResp ParseMessageID sampleUnmarshal sampleTopic sampleInfix =
      .ret [⟨sampleTopic.String, ⟨10, 20, -1, -1⟩, [104, 101, 108, 108, 111],
        ⟨[("Foo-X-Pulsar-Property-Bar", "v")]⟩⟩] none := by
  decide

/-- The one header name whose property entry is written under the key
`publish-time`. -/
theorem TrimPrefix_eq_publish_time (k : String)
    (hk : Contains k PropertyPrefix = true) (h : TrimPrefix k PropertyPrefix = "publish-time") :
    k = "X-Pulsar-Property-publish-time" := by
  unfold TrimPrefix at h
  split at h
  · rename_i hp
    have hpre : PropertyPrefix.toList <+: k.toList := List.isPrefixOf_iff_prefix.mp hp
    have hk1 : PropertyPrefix.toList ++ k.toList.drop PropertyPrefix.toList.length = k.toList :=
      List.prefix_iff_eq_append.mp hpre
    have hd : k.toList.drop PropertyPrefix.toList.length = "publish-time".toList :=
      congrArg String.toList h
    rw [hd] at hk1
    apply String.ext
    rw [← String.toList, ← hk1]
    decide
  · rw [h] at hk
    exact absurd hk (by decide)

theorem headerStep_other (header : Header) (properties : PropMap) (k : String)
    (hc : k ≠ "X-Pulsar-Property-publish-time") (hk : k ≠ PublishTimeHeader) :
    (headerStep header properties k).find "publish-time" = properties.find "publish-time" := by
  simp only [headerStep, hk, if_false]
  split
  · rename_i hcon
    have hne : TrimPrefix k PropertyPrefix ≠ "publish-time" :=
      fun h => hc (TrimPrefix_eq_publish_time k hcon h)
    rw [PropMap.find_set, if_neg (fun h => hne h.symm)]
  · rfl

theorem headerStep_publish_time (header : Header) (properties : PropMap) :
    (headerStep header properties PublishTimeHeader).find "publish-time" =
      if header.Get PublishTimeHeader ≠ "" then some (header.Get PublishTimeHeader)
      else properties.find "publish-time" := by
  simp only [headerStep, if_true]
  split
  · rw [PropMap.find_set, if_pos rfl]
  · rfl

theorem foldl_headerStep_publish_time (header : Header) (ks : List String)
    (properties : PropMap) (hc : ∀ k ∈ ks, k ≠ "X-Pulsar-Property-publish-time") :
    (ks.foldl (headerStep header) properties).find "publish-time" =
      if PublishTimeHeader ∈ ks ∧ header.Get PublishTimeHeader ≠ "" then
        some (header.Get PublishTimeHeader)
      else properties.find "publish-time" := by
  induction ks generalizing properties with
  | nil => simp
  | cons k ks ih =>
    have hck := hc k (List.mem_cons_self _ _)
    have hcs : ∀ k1 ∈ ks, k1 ≠ "X-Pulsar-Property-publish-time" :=
      fun k1 h => hc k1 (List.mem_cons_of_mem _ h)
    rw [List.foldl_cons, ih _ hcs]
    by_cases hk : k = PublishTimeHeader
    · subst hk
      rw [headerStep_publish_time]
      by_cases hg : header.Get PublishTimeHeader = ""
      · simp [hg]
      · simp [hg]
    · rw [headerStep_other header properties k hck hk]
      have hmem : PublishTimeHeader ∈ k :: ks ↔ PublishTimeHeader ∈ ks := by
        simp only [List.mem_cons]
        constructor
        · rintro (h | h)
          · exact absurd h.symm hk
          · exact h
        · exact Or.inr
      simp only [hmem]

/-- A publish-time header that is absent or empty leaves the map as the other
headers build it. -/
theorem foldl_headerStep_without_publish_time (header : Header) (ks : List String)
    (properties : PropMap)
    (h : PublishTimeHeader ∉ ks ∨ header.Get PublishTimeHeader = "") :
    ks.foldl (headerStep header) properties =
      (ks.filter (fun k => k != PublishTimeHeader)).foldl (headerStep header) properties := by
  induction ks generalizing properties with
  | nil => rfl
  | cons k ks ih =>
    have hrest : PublishTimeHeader ∉ ks ∨ header.Get PublishTimeHeader = "" := by
      rcases h with h | h
      · exact Or.inl (fun hm => h (List.mem_cons_of_mem _ hm))
      · exact Or.inr h
    by_cases hk : k = PublishTimeHeader
    · have hg : header.Get PublishTimeHeader = "" := by
        rcases h with h | h
        · exact absurd (by rw [hk]; exact List.mem_cons_self _ _) h
        · exact h
      have hstep : headerStep header properties k = properties := by
        simp [headerStep, hk, hg]
      have hf : (k != PublishTimeHeader) = false := by simp [hk]
      rw [List.foldl_cons, hstep, List.filter_cons_of_neg (by simp [hf]), ih _ hrest]
    · rw [List.foldl_cons, List.filter_cons_of_pos (by simpa using hk), List.foldl_cons,
        ih _ hrest]

/-- C13, counterexample: the response has the publish-time header with the value
`2023-01-01` and, iterated after it, a header named `X-Pulsar-Property-publish-time`;
the message of the non-batch decode does not have `publish-time` bound to the value
of the publish-time header (the later header writes the same key). -/
theorem handleResp_publish_time_counterexample :
    ¬ (∀ (parseMessageID : MessageIDReader) (unmarshal : Unmarshal) (topic : TopicName)
        (resp : Response) (ID : MessageID) (payload : List Byte) (m : Message),
        parseMessageID (resp.Header.Get "X-Pulsar-Message-ID") = .ok ID →
        resp.Body = .ok payload →
        (∀ kv ∈ resp.Header, kv.1 ≠ BatchHeader) →
        handleResp parseMessageID unmarshal topic resp = .ret [m] none →
        (∃ kv ∈ resp.Header, kv.1 = PublishTimeHeader) →
        resp.Header.Get PublishTimeHeader ≠ "" →
        m.Properties.find "publish-time" = some (resp.Header.Get PublishTimeHeader)) := by
  intro h
  have h0 := h ParseMessageID sampleUnmarshal sampleTopic
    ⟨[("X-Pulsar-Message-Id", ["10:20:-1:-1"]), ("X-Pulsar-Publish-Time", ["2023-01-01"]),
      ("X-Pulsar-Property-publish-time", ["x"])], .ok [104]⟩
    ⟨10, 20, -1, -1⟩ [104] _ (by decide) (by decide) (by decide) rfl (by decide) (by decide)
  revert h0
  decide

/-- C13, as the code has it: in a non-batch decode the one message carries the base
property map built from the headers. That map has `publish-time` bound to the value
of the publish-time header when that header is present with a non-empty value and no
header named `X-Pulsar-Property-publish-time` is iterated after it; when the
publish-time header is absent or empty it contributes no entry: the map is the one
the other headers build. -/
theorem handleResp_publish_time (parseMessageID : MessageIDReader) (unmarshal : Unmarshal)
    (topic : TopicName) (resp : Response) (ID : MessageID) (payload : List Byte)
    (hid : parseMessageID (resp.Header.Get "X-Pulsar-Message-ID") = .ok ID)
    (hbody : resp.Body = .ok payload)
    (hnb : ∀ kv ∈ resp.Header, kv.1 ≠ BatchHeader) :
    handleResp parseMessageID unmarshal topic resp =
      .ret [⟨topic.String, ID, payload, baseProperties resp.Header⟩] none ∧
    (∀ (before after : Header) (vs : List String),
      resp.Header = before ++ (PublishTimeHeader, vs) :: after →
      (∀ kv ∈ after, kv.1 ≠ "X-Pulsar-Property-publish-time") →
      resp.Header.Get PublishTimeHeader ≠ "" →
      (baseProperties resp.Header).find "publish-time" =
        some (resp.Header.Get PublishTimeHeader)) ∧
    ((¬ (∃ kv ∈ resp.Header, kv.1 = PublishTimeHeader) ∨
        resp.Header.Get PublishTimeHeader = "") →
      baseProperties resp.Header =
        ((resp.Header.map Prod.fst).filter (fun k => k != PublishTimeHeader)).foldl
          (headerStep resp.Header) PropMap.empty) := by
  refine ⟨handleResp_no_batch parseMessageID unmarshal topic resp ID payload hid hbody hnb,
    ?_, ?_⟩
  · intro before after vs hsplit hafter hg
    have hkeys : resp.Header.map Prod.fst =
        before.map Prod.fst ++ PublishTimeHeader :: after.map Prod.fst := by
      rw [hsplit]; simp
    have hc : ∀ k ∈ after.map Prod.fst, k ≠ "X-Pulsar-Property-publish-time" := by
      intro k hk
      obtain ⟨kv, hkv, rfl⟩ := List.mem_map.mp hk
      exact hafter kv hkv
    simp only [baseProperties]
    rw [hkeys, List.foldl_append, List.foldl_cons,
      foldl_headerStep_publish_time resp.Header _ _ hc, headerStep_publish_time]
    simp [hg]
  · intro h
    simp only [baseProperties]
    apply foldl_headerStep_without_publish_time
    rcases h with h | h
    · left
      intro hm
      obtain ⟨kv, hkv, hk⟩ := List.mem_map.mp hm
      exact h ⟨kv, hkv, hk⟩
    · exact Or.inr h

theorem handleResp_publish_time_witness :
    ParseMessageID (sampleSingle.Header.Get "X-Pulsar-Message-ID") = .ok ⟨10, 20, -1, -1⟩ ∧
    sampleSingle.Body = .ok [104, 101, 108, 108, 111] ∧
    (∀ kv ∈ sampleSingle.Header, kv.1 ≠ BatchHeader) ∧
    sampleSingle.Header = [("X-Pulsar-Message-Id", ["10:20:-1:-1"])] ++
      (PublishTimeHeader, ["2023-01-01"]) :: [("X-Pulsar-Property-Color", ["red"])] ∧
    (∀ kv ∈ [("X-Pulsar-Property-Color", ["red"])],
      kv.1 ≠ "X-Pulsar-Property-publish-time") ∧
    sampleSingle.Header.Get PublishTimeHeader ≠ "" ∧
    sampleSingle.Header.Get PublishTimeHeader = "2023-01-01" ∧
    (baseProperties sampleSingle.Header).find "publish-time" =
      some (sampleSingle.Header.Get PublishTimeHeader) ∧
    ParseMessageID (sampleInfix.Header.Get "X-Pulsar-Message-ID") = .ok ⟨10, 20, -1, -1⟩ ∧
    sampleInfix.Body = .ok [104, 101, 108, 108, 111] ∧
    (∀ kv ∈ sampleInfix.Header, kv.1 ≠ BatchHeader) ∧
    ¬ (∃ kv ∈ sampleInfix.Header, kv.1 = PublishTimeHeader) ∧
    baseProperties sampleInfix.Header =
      ((sampleInfix.Header.map Prod.fst).filter (fun k => k != PublishTimeHeader)).foldl
        (headerStep sampleInfix.Header) PropMap.empty :=
  ⟨by decide, by decide, by decide, by decide, by decide, by decide, by decide,
    (handleResp_publish_time ParseMessageID sampleUnmarshal sampleTopic sampleSingle
      ⟨10, 20, -1, -1⟩ [104, 101, 108, 108, 111] (by decide) (by decide) (by decide)).2.1
      [("X-Pulsar-Message-Id", ["10:20:-1:-1"])] [("X-Pulsar-Property-Color", ["red"])]
      ["2023-01-01"] (by decide) (by decide) (by decide),
    by decide, by decide, by decide, by decide,
    (handleResp_publish_time ParseMessageID sampleUnmarshal sampleTopic sampleInfix
      ⟨10, 20, -1, -1⟩ [104, 101, 108, 108, 111] (by decide) (by decide) (by decide)).2.2
      (Or.inl (by decide))⟩

/-! ## The number of messages of a successful decode -/

theorem PropMap.get_set (m : PropMap) (k v : String) : (m.set k v).get k = v := by
  simp [PropMap.get, PropMap.find_set]

/-- When the batch-count header is among the keys to visit, the loop of `handleResp`
ends in the call of `getIndividualMsgsFromBatch` made at that header. -/
theorem headerLoop_batch_count (unmarshal : Unmarshal) (topic : TopicName) (header : Header)
    (ID : MessageID) (payload : List Byte) (ks : List String) (properties : PropMap)
    (hb : BatchHeader ∈ ks) :
    ∃ before, headerLoop unmarshal topic header ID payload ks properties =
      getIndividualMsgsFromBatch unmarshal topic ID payload (withBatchCount header before) := by
  induction ks generalizing properties with
  | nil => simp at hb
  | cons k ks ih =>
    simp only [headerLoop]
    split
    · rename_i hk
      have hne : BatchHeader ≠ k := by rw [hk]; decide
      rcases List.mem_cons.mp hb with h | h
      · exact absurd h hne
      · exact ih _ h
    · split
      · rename_i hk
        subst hk
        exact ⟨properties, rfl⟩
      · rename_i hk1 hk2
        have hne : BatchHeader ≠ k := fun h => hk2 h.symm
        rcases List.mem_cons.mp hb with h | h
        · exact absurd h hne
        · split
          · exact ih _ h
          · exact ih _ h

theorem getIndividualMsgsFromBatch_success_length (unmarshal : Unmarshal) (topic : TopicName)
    (msgID : MessageID) (data : List Byte) (properties : PropMap) (k : Int)
    (ms : List Message)
    (hcount : Atoi (properties.get BatchHeader) = .ok k)
    (h : getIndividualMsgsFromBatch unmarshal topic msgID data properties = .ret ms none) :
    (ms.length : Int) = k := by
  obtain ⟨_, recs, tail, _, hlen, _, hms⟩ :=
    getIndividualMsgsFromBatch_success unmarshal topic msgID data properties k ms hcount h
  rw [hms, List.length_map, expectedCells_length]
  exact hlen

/-- C14, counterexample: a response whose batch-count header reads `0` decodes with no
error and no message. -/
theorem handleResp_success_nonempty_counterexample :
    ¬ (∀ (parseMessageID : MessageIDReader) (unmarshal : Unmarshal) (topic : TopicName)
        (resp : Response) (ms : List Message),
        handleResp parseMessageID unmarshal topic resp = .ret ms none → 1 ≤ ms.length) := by
  intro h
  have h0 := h ParseMessageID sampleUnmarshal sampleTopic sampleBatch0 [] (by decide)
  revert h0
  decide

/-- C14, as the code has it: when `handleResp` returns no error, the list it returns
holds exactly one message if the response has no batch-count header, and exactly `k`
messages if the value of the batch-count header reads as the integer `k`, which is
then not negative and may be zero. -/
theorem handleResp_success_length (parseMessageID : MessageIDReader) (unmarshal : Unmarshal)
    (topic : TopicName) (resp : Response) (ms : List Message)
    (h : handleResp parseMessageID unmarshal topic resp = .ret ms none) :
    ((∀ kv ∈ resp.Header, kv.1 ≠ BatchHeader) → ms.length = 1) ∧
    (∀ k : Int, (∃ kv ∈ resp.Header, kv.1 = BatchHeader) →
      Atoi (resp.Header.Get BatchHeader) = .ok k → 0 ≤ k ∧ (ms.length : Int) = k) := by
  simp only [handleResp] at h
  split at h
  · cases h
  · rename_i ID hid
    split at h
    · cases h
    · rename_i payload hbody
      constructor
      · intro hnb
        rw [headerLoop_no_batch] at h
        · cases h; rfl
        · intro k hk
          obtain ⟨kv, hkv, rfl⟩ := List.mem_map.mp hk
          exact hnb kv hkv
      · rintro k ⟨kv, hkv, hk⟩ hcount
        obtain ⟨before, hb⟩ := headerLoop_batch_count unmarshal topic resp.Header ID payload
          (resp.Header.map Prod.fst) PropMap.empty (List.mem_map.mpr ⟨kv, hkv, hk⟩)
        rw [hb] at h
        have hne : resp.Header.Get BatchHeader ≠ "" := by
          intro he
          have hempty : Atoi "" = .error .ErrSyntax := by decide
          rw [he, hempty] at hcount
          cases hcount
        have hget : (withBatchCount resp.Header before).get BatchHeader =
            resp.Header.Get BatchHeader := by
          simp only [withBatchCount, hne, ne_eq, not_false_eq_true, if_true, PropMap.get_set]
        have hlen := getIndividualMsgsFromBatch_success_length unmarshal topic ID payload _ k ms
          (by rw [hget]; exact hcount) h
        exact ⟨by omega, hlen⟩

theorem handleResp_success_length_witness :
    handleResp ParseMessageID sampleUnmarshal sampleTopic sampleBatch0 = .ret [] none ∧
    (∃ kv ∈ sampleBatch0.Header, kv.1 = BatchHeader) ∧
    Atoi (sampleBatch0.Header.Get BatchHeader) = .ok 0 ∧
    (0 : Int) ≤ 0 ∧ ((([] : List Message).length : Nat) : Int) = 0 :=
  ⟨by decide, by decide, by decide,
    (handleResp_success_length ParseMessageID sampleUnmarshal sampleTopic sampleBatch0 []
      (by decide)).2 0 (by decide) (by decide)⟩

/-- C15, the code at the failing input: with batch count `1` and one record whose
metadata declares the payload size `-1`, the call does not return; it panics in
`make([]byte, singleMeta.GetPayloadSize())`. -/
theorem negative_payload_size_panics :
    sampleUnmarshal [255] = .ok ⟨[], -1⟩ ∧
    getIndividualMsgsFromBatch sampleUnmarshal sampleTopic sampleID [0, 0, 0, 1, 255]
      (sampleBase "1") = .panic .makesliceLen := by
  decide

/-! ## Topic and identity of the messages of a batch -/

/-- C16: after a successful batch decode every returned message has the topic's
string form as its topic and the ledger id, entry id and partition index of the
input identity; the message at position `j` has batch index `j`, so the batch
indices are pairwise distinct and lie in `[0, N)` for `N` returned messages. -/
theorem batch_messages_identity (unmarshal : Unmarshal) (topic : TopicName)
    (msgID : MessageID) (data : List Byte) (properties : PropMap) (ms : List Message)
    (h : getIndividualMsgsFromBatch unmarshal topic msgID data properties = .ret ms none) :
    (∀ (j : Nat) (m : Message), ms[j]? = some m →
      m.Topic = topic.String ∧ m.MessageID.LedgerID = msgID.LedgerID ∧
      m.MessageID.EntryID = msgID.EntryID ∧
      m.MessageID.PartitionIndex = msgID.PartitionIndex ∧
      m.MessageID.BatchIndex = (j : Int) ∧
      0 ≤ m.MessageID.BatchIndex ∧ m.MessageID.BatchIndex < (ms.length : Int)) ∧
    (∀ (j1 j2 : Nat) (m1 m2 : Message), ms[j1]? = some m1 → ms[j2]? = some m2 → j1 ≠ j2 →
      m1.MessageID.BatchIndex ≠ m2.MessageID.BatchIndex) := by
  have key : ∀ (j : Nat) (m : Message), ms[j]? = some m →
      m.Topic = topic.String ∧ m.MessageID.LedgerID = msgID.LedgerID ∧
      m.MessageID.EntryID = msgID.EntryID ∧
      m.MessageID.PartitionIndex = msgID.PartitionIndex ∧
      m.MessageID.BatchIndex = (j : Int) ∧ j < ms.length := by
    intro j m hj
    cases hc : Atoi (properties.get BatchHeader) with
    | error e =>
      simp only [getIndividualMsgsFromBatch, hc] at h
      cases h
      simp at hj
    | ok k =>
      obtain ⟨_, recs, tail, _, _, _, hms⟩ :=
        getIndividualMsgsFromBatch_success unmarshal topic msgID data properties k ms hc h
      have hlt : j < ms.length := by
        rcases Nat.lt_or_ge j ms.length with hlt | hge
        · exact hlt
        · rw [List.getElem?_eq_none hge] at hj
          cases hj
      rw [hms, List.getElem?_map, expectedCells_getElem?] at hj
      cases hr : recs[j]? with
      | none => simp [hr] at hj
      | some r =>
        simp only [hr, Option.map_some', Option.some.injEq] at hj
        subst hj
        simp [MessageCell.deref, hlt]
  constructor
  · intro j m hj
    obtain ⟨h1, h2, h3, h4, h5, h6⟩ := key j m hj
    refine ⟨h1, h2, h3, h4, h5, ?_, ?_⟩
    · rw [h5]; omega
    · rw [h5]; omega
  · intro j1 j2 m1 m2 h1 h2 hne heq
    have e1 := (key j1 m1 h1).2.2.2.2.1
    have e2 := (key j2 m2 h2).2.2.2.2.1
    rw [e1, e2] at heq
    exact hne (by omega)

theorem batch_messages_identity_witness :
    ∃ ms, getIndividualMsgsFromBatch sampleUnmarshal sampleTopic sampleID
        (batchBody [sampleRecA, sampleRecB]) (sampleBase "2") = .ret ms none ∧
      ms.length = 2 ∧
      (∀ (j : Nat) (m : Message), ms[j]? = some m →
        m.Topic = sampleTopic.String ∧ m.MessageID.LedgerID = sampleID.LedgerID ∧
        m.MessageID.EntryID = sampleID.EntryID ∧
        m.MessageID.PartitionIndex = sampleID.PartitionIndex ∧
        m.MessageID.BatchIndex = (j : Int) ∧
        0 ≤ m.MessageID.BatchIndex ∧ m.MessageID.BatchIndex < (ms.length : Int)) ∧
      (∀ (j1 j2 : Nat) (m1 m2 : Message), ms[j1]? = some m1 → ms[j2]? = some m2 → j1 ≠ j2 →
        m1.MessageID.BatchIndex ≠ m2.MessageID.BatchIndex) :=
  ⟨(expectedCells sampleTopic sampleID 0 [sampleRecA, sampleRecB]).map
      (MessageCell.deref (overlayAll (sampleBase "2") [sampleRecA, sampleRecB])),
    by decide, by decide,
    batch_messages_identity sampleUnmarshal sampleTopic sampleID
      (batchBody [sampleRecA, sampleRecB]) (sampleBase "2") _ (by decide)⟩

/-! ## Properties across the records of a batch -/

theorem find_overlayProperties (properties : PropMap) (kvs : List KeyValue) (key : String) :
    (overlayProperties properties kvs).find key =
      match lastValue kvs key with
      | some v => some v
      | none => properties.find key := by
  induction kvs generalizing properties with
  | nil => rfl
  | cons kv rest ih =>
    obtain ⟨k, p⟩ := kv
    cases k with
    | none =>
      have hstep : overlayProperties properties (⟨none, p⟩ :: rest) =
          overlayProperties properties rest := rfl
      rw [hstep, ih]
      simp only [lastValue]
      cases lastValue rest key with
      | some v => rfl
      | none => simp
    | some k =>
      cases p with
      | none =>
        have hstep : overlayProperties properties (⟨some k, none⟩ :: rest) =
            overlayProperties properties rest := rfl
        rw [hstep, ih]
        simp only [lastValue]
        cases lastValue rest key with
        | some v => rfl
        | none => simp
      | some p =>
        have hstep : overlayProperties properties (⟨some k, some p⟩ :: rest) =
            overlayProperties (properties.set k p) rest := rfl
        rw [hstep, ih]
        simp only [lastValue]
        cases lastValue rest key with
        | some v => rfl
        | none =>
          simp only [PropMap.find_set]
          by_cases hk : key = k
          · simp [hk]
          · have hk1 : ¬ k = key := fun h => hk h.symm
            simp [hk, hk1]

theorem find_overlayAll (properties : PropMap) (recs : List Record) (key : String) :
    (overlayAll properties recs).find key =
      match lastWritten recs key with
      | some v => some v
      | none => properties.find key := by
  induction recs generalizing properties with
  | nil => rfl
  | cons r rs ih =>
    simp only [overlayAll, lastWritten]
    rw [ih]
    cases lastWritten rs key with
    | some v => rfl
    | none => exact find_overlayProperties _ _ _

theorem lastWritten_append (a b : List Record) (key : String) :
    lastWritten (a ++ b) key =
      match lastWritten b key with
      | some v => some v
      | none => lastWritten a key := by
  induction a with
  | nil =>
    simp only [List.nil_append, lastWritten]
    cases lastWritten b key <;> rfl
  | cons r rs ih =>
    have e : lastWritten (r :: rs ++ b) key =
        match lastWritten (rs ++ b) key with
        | some v => some v
        | none => lastValue r.metadata.Properties key := rfl
    rw [e, ih]
    cases lastWritten b key with
    | some w => rfl
    | none => rfl

theorem lastWritten_none (recs : List Record) (key : String)
    (h : ∀ r ∈ recs, lastValue r.metadata.Properties key = none) :
    lastWritten recs key = none := by
  induction recs with
  | nil => rfl
  | cons r rs ih =>
    simp only [lastWritten, ih (fun r1 h1 => h r1 (List.mem_cons_of_mem _ h1)),
      h r (List.mem_cons_self _ _)]

/-- A key set by the record at position `i` is set by the records as a whole, and to
the value of that record when no later record sets it. -/
theorem lastWritten_of_record (recs : List Record) (i : Nat) (r : Record) (key v : String)
    (hr : recs[i]? = some r) (hv : lastValue r.metadata.Properties key = some v) :
    (∃ w, lastWritten recs key = some w) ∧
    ((∀ r1 ∈ recs.drop (i + 1), lastValue r1.metadata.Properties key = none) →
      lastWritten recs key = some v) := by
  have hi : i < recs.length := by
    rcases Nat.lt_or_ge i recs.length with h | h
    · exact h
    · rw [List.getElem?_eq_none h] at hr
      cases hr
  have hsplit : recs = recs.take i ++ (r :: recs.drop (i + 1)) := by
    have hget : recs[i] = r := by
      rw [List.getElem?_eq_getElem hi] at hr
      exact Option.some.inj hr
    rw [← hget, ← List.drop_eq_getElem_cons hi, List.take_append_drop]
  have hcons : lastWritten (r :: recs.drop (i + 1)) key =
      match lastWritten (recs.drop (i + 1)) key with
      | some w => some w
      | none => some v := by
    simp only [lastWritten, hv]
  constructor
  · rw [hsplit, lastWritten_append, hcons]
    cases lastWritten (recs.drop (i + 1)) key with
    | some w => exact ⟨w, rfl⟩
    | none => exact ⟨v, rfl⟩
  · intro hlater
    rw [hsplit, lastWritten_append, hcons, lastWritten_none _ _ hlater]

/-- C17, counterexample: in the batch `[sampleRecA, sampleRecB, sampleRecD]` record 0
sets `a = 2`, record 1 sets nothing, and message 1 reads `a = 9`, the value record 2
wrote. -/
theorem property_carry_over_counterexample :
    ¬ (∀ (unmarshal : Unmarshal) (topic : TopicName) (msgID : MessageID)
        (recs : List Record) (properties : PropMap) (msgs : List Message),
        (∀ r ∈ recs, r.WellFormed unmarshal) →
        Atoi (properties.get BatchHeader) = .ok (recs.length : Int) →
        getIndividualMsgsFromBatch unmarshal topic msgID (batchBody recs) properties =
          .ret msgs none →
        ∀ (i : Nat) (r r1 : Record) (m : Message), recs[i]? = some r →
          recs[i + 1]? = some r1 → msgs[i + 1]? = some m →
          ∀ key v, lastValue r.metadata.Properties key = some v →
            m.Properties.find key =
              match lastValue r1.metadata.Properties key with
              | some w => some w
              | none => some v) := by
  intro h
  have h0 := h sampleUnmarshal sampleTopic sampleID [sampleRecA, sampleRecB, sampleRecD]
    (sampleBase "3") _ (by decide) (by decide) rfl 0 sampleRecA sampleRecB _ rfl rfl rfl
    "a" "2" (by decide)
  revert h0
  decide

/-- C17, as the code has it: for `i + 1` below the batch count, every property key set
by the metadata of record `i` is present in the properties of message `i + 1` of a
successful decode; its value there is the one the last record of the whole batch
setting this key wrote, which is the value of record `i` when no later record sets
the key. The decode is successful when every property of the records carries a key
and a value and the slice of messages can be allocated. -/
theorem property_carry_over (unmarshal : Unmarshal) (topic : TopicName) (msgID : MessageID)
    (recs : List Record) (tail : List Byte) (properties : PropMap)
    (i : Nat) (r : Record) (key v : String)
    (hwf : ∀ r ∈ recs, r.WellFormed unmarshal)
    (hcount : Atoi (properties.get BatchHeader) = .ok (recs.length : Int))
    (hr : recs[i]? = some r) (hi : i + 1 < recs.length)
    (hv : lastValue r.metadata.Properties key = some v) :
    ((∀ r ∈ recs, ∀ kv ∈ r.metadata.Properties, kv.Complete) → 8 * recs.length ≤ maxAlloc →
      ∃ msgs, getIndividualMsgsFromBatch unmarshal topic msgID (batchBody recs ++ tail)
        properties = .ret msgs none) ∧
    ∀ msgs, getIndividualMsgsFromBatch unmarshal topic msgID (batchBody recs ++ tail)
        properties = .ret msgs none →
      ∃ m, msgs[i + 1]? = some m ∧
        m.Properties.find key = lastWritten recs key ∧
        (∃ w, m.Properties.find key = some w) ∧
        ((∀ r1 ∈ recs.drop (i + 1), lastValue r1.metadata.Properties key = none) →
          m.Properties.find key = some v) := by
  refine ⟨fun hC hcap => ⟨_, getIndividualMsgsFromBatch_records unmarshal topic msgID recs
    tail properties (fun r hr => ⟨hwf r hr, hC r hr⟩) hcap hcount⟩, ?_⟩
  intro msgs hsucc
  obtain ⟨_, _, _, hmsgs⟩ := getIndividualMsgsFromBatch_records_ret unmarshal topic msgID
    recs tail properties hwf hcount msgs none hsucc
  subst hmsgs
  obtain ⟨r1, hr1⟩ : ∃ r1, recs[i + 1]? = some r1 :=
    ⟨recs[i + 1], List.getElem?_eq_getElem hi⟩
  obtain ⟨⟨w, hw⟩, hlast⟩ := lastWritten_of_record recs i r key v hr hv
  have hfind : (overlayAll properties recs).find key = lastWritten recs key := by
    rw [find_overlayAll, hw]
  refine ⟨MessageCell.deref (overlayAll properties recs)
      ⟨topic.String, { msgID with BatchIndex := 0 + ((i + 1 : Nat) : Int) }, r1.payload⟩,
    ?_, hfind, ?_, ?_⟩
  · rw [List.getElem?_map, expectedCells_getElem?, hr1]
    rfl
  · exact ⟨w, by rw [← hw]; exact hfind⟩
  · intro hlater
    rw [← hlast hlater]
    exact hfind

theorem property_carry_over_witness :
    (∀ r ∈ [sampleRecA, sampleRecB, sampleRecC], r.WellFormed sampleUnmarshal) ∧
    Atoi ((sampleBase "3").get BatchHeader) =
      .ok (([sampleRecA, sampleRecB, sampleRecC].length : Nat) : Int) ∧
    [sampleRecA, sampleRecB, sampleRecC][0]? = some sampleRecA ∧
    0 + 1 < [sampleRecA, sampleRecB, sampleRecC].length ∧
    lastValue sampleRecA.metadata.Properties "a" = some "2" ∧
    (∀ r ∈ [sampleRecA, sampleRecB, sampleRecC], ∀ kv ∈ r.metadata.Properties, kv.Complete) ∧
    8 * [sampleRecA, sampleRecB, sampleRecC].length ≤ maxAlloc ∧
    (∃ msgs, getIndividualMsgsFromBatch sampleUnmarshal sampleTopic sampleID
        (batchBody [sampleRecA, sampleRecB, sampleRecC] ++ []) (sampleBase "3") =
          .ret msgs none) ∧
    getIndividualMsgsFromBatch sampleUnmarshal sampleTopic sampleID
        (batchBody [sampleRecA, sampleRecB, sampleRecC] ++ []) (sampleBase "3") =
      .ret ((expectedCells sampleTopic sampleID 0 [sampleRecA, sampleRecB, sampleRecC]).map
        (MessageCell.deref (overlayAll (sampleBase "3")
          [sampleRecA, sampleRecB, sampleRecC]))) none ∧
    ∃ m, ((expectedCells sampleTopic sampleID 0 [sampleRecA, sampleRecB, sampleRecC]).map
        (MessageCell.deref (overlayAll (sampleBase "3")
          [sampleRecA, sampleRecB, sampleRecC])))[0 + 1]? = some m ∧
      m.Properties.find "a" = lastWritten [sampleRecA, sampleRecB, sampleRecC] "a" ∧
      (∃ w, m.Properties.find "a" = some w) ∧
      ((∀ r1 ∈ [sampleRecA, sampleRecB, sampleRecC].drop (0 + 1),
          lastValue r1.metadata.Properties "a" = none) →
        m.Properties.find "a" = some "2") :=
  ⟨by decide, by decide, by decide, by decide, by decide, by decide, by decide,
    (property_carry_over sampleUnmarshal sampleTopic sampleID
      [sampleRecA, sampleRecB, sampleRecC] [] (sampleBase "3") 0 sampleRecA "a" "2"
      (by decide) (by decide) (by decide) (by decide) (by decide)).1 (by decide) (by decide),
    by decide,
    (property_carry_over sampleUnmarshal sampleTopic sampleID
      [sampleRecA, sampleRecB, sampleRecC] [] (sampleBase "3") 0 sampleRecA "a" "2"
      (by decide) (by decide) (by decide) (by decide) (by decide)).2 _ (by decide)⟩

/-! ## Dispatch to the batch decoder -/

/-- The loop of `handleResp` over keys of which the batch-count header is the first
`BatchHeader`: the headers before it build the map, the headers after it are not
visited. -/
theorem headerLoop_split (unmarshal : Unmarshal) (topic : TopicName) (header : Header)
    (ID : MessageID) (payload : List Byte) (bks aks : List String) (properties : PropMap)
    (hb : ∀ k ∈ bks, k ≠ BatchHeader) :
    headerLoop unmarshal topic header ID payload (bks ++ BatchHeader :: aks) properties =
      getIndividualMsgsFromBatch unmarshal topic ID payload
        (withBatchCount header (bks.foldl (headerStep header) properties)) := by
  induction bks generalizing properties with
  | nil =>
    have hne : ¬ (BatchHeader = PublishTimeHeader) := by decide
    simp only [List.nil_append, headerLoop, hne, if_false, if_true, List.foldl_nil]
    rfl
  | cons k ks ih =>
    have hk : k ≠ BatchHeader := hb k (List.mem_cons_self _ _)
    have hks : ∀ k1 ∈ ks, k1 ≠ BatchHeader := fun k1 h => hb k1 (List.mem_cons_of_mem _ h)
    simp only [List.cons_append, headerLoop, List.foldl_cons, headerStep, hk, if_false]
    split
    · exact ih _ hks
    · split
      · exact ih _ hks
      · exact ih _ hks

theorem lookup_append_of_mem (a b : Header) (c : String) (h : c ∈ a.map Prod.fst) :
    (a ++ b).lookup c = a.lookup c := by
  induction a with
  | nil => simp at h
  | cons kv rest ih =>
    obtain ⟨k, v⟩ := kv
    simp only [List.cons_append, List.lookup]
    cases hck : c == k with
    | true => rfl
    | false =>
      have hne : c ≠ k := by simpa using hck
      simp only [List.map_cons, List.mem_cons] at h
      rcases h with h | h
      · exact absurd h hne
      · exact ih h

theorem lookup_append_of_not_mem (a b : Header) (c : String) (h : c ∉ a.map Prod.fst) :
    (a ++ b).lookup c = b.lookup c := by
  induction a with
  | nil => rfl
  | cons kv rest ih =>
    obtain ⟨k, v⟩ := kv
    simp only [List.map_cons, List.mem_cons, not_or] at h
    have hck : (c == k) = false := by simpa using h.1
    simp only [List.cons_append, List.lookup, hck]
    exact ih h.2

/-- The value `Header.Get` finds for a canonical key of the leading headers does not
depend on the headers that follow. -/
theorem Header.Get_append_left (a b : Header) (k : String)
    (hc : CanonicalMIMEHeaderKey k = k) (hk : k ∈ a.map Prod.fst) :
    Header.Get (a ++ b) k = Header.Get a k := by
  simp only [Header.Get, hc, lookup_append_of_mem a b k hk]

theorem Header.Get_batch (before after : Header) (vs : List String)
    (hb : ∀ kv ∈ before, kv.1 ≠ BatchHeader) :
    Header.Get (before ++ (BatchHeader, vs) :: after) BatchHeader =
      Header.Get [(BatchHeader, vs)] BatchHeader := by
  have hc : CanonicalMIMEHeaderKey BatchHeader = BatchHeader := by decide
  have hnm : BatchHeader ∉ before.map Prod.fst := by
    intro h
    obtain ⟨kv, hkv, hk⟩ := List.mem_map.mp h
    exact hb kv hkv hk
  simp only [Header.Get, hc, lookup_append_of_not_mem _ _ _ hnm]
  simp [List.lookup]

theorem headerStep_congr (h1 h2 : Header) (properties : PropMap) (k : String)
    (h : Header.Get h1 k = Header.Get h2 k) :
    headerStep h1 properties k = headerStep h2 properties k := by
  simp only [headerStep, h]

theorem foldl_headerStep_congr (h1 h2 : Header) (ks : List String) (properties : PropMap)
    (h : ∀ k ∈ ks, Header.Get h1 k = Header.Get h2 k) :
    ks.foldl (headerStep h1) properties = ks.foldl (headerStep h2) properties := by
  induction ks generalizing properties with
  | nil => rfl
  | cons k ks ih =>
    simp only [List.foldl_cons]
    rw [headerStep_congr h1 h2 properties k (h k (List.mem_cons_self _ _))]
    exact ih _ (fun k1 hk1 => h k1 (List.mem_cons_of_mem _ hk1))

/-- C18, counterexample, in two parts. With a property header that writes under the
name of the batch-count header iterated first and a batch-count header of empty
value, `handleResp` decodes one message, while `getIndividualMsgsFromBatch` on the
base map holding the raw (empty) value of the batch-count header under its name
decodes none. And with the header `X-Pulsar-Property-foo` iterated before the
batch-count header, a header `X-Pulsar-Property-Foo` iterated after it changes the
returned message: the value of the property `foo` is looked up under the canonical
name. -/
theorem handleResp_batch_dispatch_counterexample :
    ¬ (∀ (parseMessageID : MessageIDReader) (unmarshal : Unmarshal) (topic : TopicName)
        (before after : Header) (vs : List String) (payload : List Byte) (ID : MessageID),
        (∀ kv ∈ before, kv.1 ≠ BatchHeader) →
        parseMessageID (Header.Get (before ++ (BatchHeader, vs) :: after)
          "X-Pulsar-Message-ID") = .ok ID →
        handleResp parseMessageID unmarshal topic
            ⟨before ++ (BatchHeader, vs) :: after, .ok payload⟩ =
          getIndividualMsgsFromBatch unmarshal topic ID payload
            (((before.map Prod.fst).foldl
                (headerStep (before ++ (BatchHeader, vs) :: after)) PropMap.empty).set
              BatchHeader (Header.Get (before ++ (BatchHeader, vs) :: after) BatchHeader))) ∧
    ¬ (∀ (parseMessageID : MessageIDReader) (unmarshal : Unmarshal) (topic : TopicName)
        (before after after2 : Header) (vs : List String) (payload : List Byte)
        (ID : MessageID),
        (∀ kv ∈ before, kv.1 ≠ BatchHeader) →
        parseMessageID (Header.Get (before ++ (BatchHeader, vs) :: after)
          "X-Pulsar-Message-ID") = .ok ID →
        parseMessageID (Header.Get (before ++ (BatchHeader, vs) :: after2)
          "X-Pulsar-Message-ID") = .ok ID →
        handleResp parseMessageID unmarshal topic
            ⟨before ++ (BatchHeader, vs) :: after2, .ok payload⟩ =
          handleResp parseMessageID unmarshal topic
            ⟨before ++ (BatchHeader, vs) :: after, .ok payload⟩) := by
  constructor
  · intro h
    have h0 := h ParseMessageID sampleUnmarshal sampleTopic sampleBefore [] [""]
      (batchBody [sampleRecB]) ⟨10, 20, -1, -1⟩ (by decide) (by decide)
    revert h0
    decide
  · intro h
    have h0 := h ParseMessageID sampleUnmarshal sampleTopic
      [("X-Pulsar-Message-Id", ["10:20:-1:-1"]), ("X-Pulsar-Property-foo", ["a"])]
      [] [("X-Pulsar-Property-Foo", ["b"])] ["1"]
      (batchBody [sampleRecB]) ⟨10, 20, -1, -1⟩ (by decide) (by decide) (by decide)
    revert h0
    decide

/-- C18, as the code has it: when the batch-count header is present, `handleResp`
returns exactly the result of `getIndividualMsgsFromBatch` on the identity, the body
and a base map, wherever the batch-count header stands in the iteration order. The
base map holds the contributions of the publish-time and property headers iterated
before the batch-count header and, when it is not empty, the value of the
batch-count header under the name `X-Pulsar-Num-Batch-Message`; an empty value is
not stored. Headers iterated after the batch-count header contribute nothing: with
canonical names before it, the result is the same whatever follows it. -/
theorem handleResp_batch_dispatch (parseMessageID : MessageIDReader) (unmarshal : Unmarshal)
    (topic : TopicName) (before after : Header) (vs : List String) (payload : List Byte)
    (ID : MessageID)
    (hb : ∀ kv ∈ before, kv.1 ≠ BatchHeader)
    (hid : parseMessageID (Header.Get (before ++ (BatchHeader, vs) :: after)
      "X-Pulsar-Message-ID") = .ok ID) :
    handleResp parseMessageID unmarshal topic
        ⟨before ++ (BatchHeader, vs) :: after, .ok payload⟩ =
      getIndividualMsgsFromBatch unmarshal topic ID payload
        (withBatchCount (before ++ (BatchHeader, vs) :: after)
          ((before.map Prod.fst).foldl
            (headerStep (before ++ (BatchHeader, vs) :: after)) PropMap.empty)) ∧
    (Header.Canonical before → ∀ after2 : Header,
      parseMessageID (Header.Get (before ++ (BatchHeader, vs) :: after2)
        "X-Pulsar-Message-ID") = .ok ID →
      handleResp parseMessageID unmarshal topic
          ⟨before ++ (BatchHeader, vs) :: after2, .ok payload⟩ =
        handleResp parseMessageID unmarshal topic
          ⟨before ++ (BatchHeader, vs) :: after, .ok payload⟩) := by
  have hkeys : ∀ k ∈ before.map Prod.fst, k ≠ BatchHeader := by
    intro k hk
    obtain ⟨kv, hkv, rfl⟩ := List.mem_map.mp hk
    exact hb kv hkv
  have main : ∀ (rest : Header),
      parseMessageID (Header.Get (before ++ (BatchHeader, vs) :: rest)
        "X-Pulsar-Message-ID") = .ok ID →
      handleResp parseMessageID unmarshal topic
          ⟨before ++ (BatchHeader, vs) :: rest, .ok payload⟩ =
        getIndividualMsgsFromBatch unmarshal topic ID payload
          (withBatchCount (before ++ (BatchHeader, vs) :: rest)
            ((before.map Prod.fst).foldl
              (headerStep (before ++ (BatchHeader, vs) :: rest)) PropMap.empty)) := by
    intro rest hrest
    simp only [handleResp, hrest, List.map_append, List.map_cons]
    exact headerLoop_split unmarshal topic _ ID payload _ _ PropMap.empty hkeys
  refine ⟨main after hid, ?_⟩
  intro hcanon after2 hid2
  rw [main after hid, main after2 hid2]
  have hfold : ∀ (rest : Header),
      (before.map Prod.fst).foldl (headerStep (before ++ (BatchHeader, vs) :: rest))
        PropMap.empty = (before.map Prod.fst).foldl (headerStep before) PropMap.empty := by
    intro rest
    apply foldl_headerStep_congr
    intro k hk
    obtain ⟨kv, hkv, rfl⟩ := List.mem_map.mp hk
    exact Header.Get_append_left before _ kv.1 (hcanon kv hkv) (List.mem_map.mpr ⟨kv, hkv, rfl⟩)
  have hwith : ∀ (rest : Header) (p : PropMap),
      withBatchCount (before ++ (BatchHeader, vs) :: rest) p =
        withBatchCount [(BatchHeader, vs)] p := by
    intro rest p
    simp only [withBatchCount, Header.Get_batch before rest vs hb]
  rw [hfold after, hfold after2, hwith after, hwith after2]

theorem handleResp_batch_dispatch_witness :
    (∀ kv ∈ sampleBefore, kv.1 ≠ BatchHeader) ∧
    ParseMessageID (Header.Get (sampleBefore ++ (BatchHeader, ["1"]) ::
      [("X-Pulsar-Property-Color", ["red"])]) "X-Pulsar-Message-ID") = .ok ⟨10, 20, -1, -1⟩ ∧
    Header.Canonical sampleBefore ∧
    ParseMessageID (Header.Get (sampleBefore ++ (BatchHeader, ["1"]) :: [])
      "X-Pulsar-Message-ID") = .ok ⟨10, 20, -1, -1⟩ ∧
    handleResp ParseMessageID sampleUnmarshal sampleTopic
        ⟨sampleBefore ++ (BatchHeader, ["1"]) :: [], .ok (batchBody [sampleRecB])⟩ =
      handleResp ParseMessageID sampleUnmarshal sampleTopic
        ⟨sampleBefore ++ (BatchHeader, ["1"]) :: [("X-Pulsar-Property-Color", ["red"])],
          .ok (batchBody [sampleRecB])⟩ :=
  ⟨by decide, by decide, by decide, by decide,
    (handleResp_batch_dispatch ParseMessageID sampleUnmarshal sampleTopic sampleBefore
      [("X-Pulsar-Property-Color", ["red"])] ["1"] (batchBody [sampleRecB])
      ⟨10, 20, -1, -1⟩ (by decide) (by decide)).2 (by decide) [] (by decide)⟩

/-! ## Termination of `PeekMessages` -/

theorem peekLoop_mono (peekNth : Int → Outcome (List Message)) (fuel : Nat) (n count : Int)
    (msgs : List Message) (fetched : List Int) (r : Outcome (List Message) × List Int)
    (h : peekLoop peekNth fuel n count msgs fetched = some r) :
    peekLoop peekNth (fuel + 1) n count msgs fetched = some r := by
  induction fuel generalizing n count msgs fetched with
  | zero =>
    simp only [peekLoop] at h
    split at h
    · cases h
    · rename_i hn
      simp only [peekLoop, hn, if_false]
      exact h
  | succ fuel ih =>
    rw [peekLoop] at h
    rw [peekLoop]
    split
    · rename_i hn
      simp only [hn, if_true] at h
      split
      · rename_i p hp
        simp only [hp] at h
        exact h
      · rename_i ms e hp
        simp only [hp] at h
        exact h
      · rename_i ms hp
        simp only [hp] at h
        exact ih _ _ _ _ h
    · rename_i hn
      simp only [hn, if_false] at h
      exact h

theorem peekLoop_mono_add (peekNth : Int → Outcome (List Message)) (fuel d : Nat)
    (n count : Int) (msgs : List Message) (fetched : List Int)
    (r : Outcome (List Message) × List Int)
    (h : peekLoop peekNth fuel n count msgs fetched = some r) :
    peekLoop peekNth (fuel + d) n count msgs fetched = some r := by
  induction d with
  | zero => exact h
  | succ d ih => exact peekLoop_mono peekNth (fuel + d) n count msgs fetched r ih

theorem positionsFrom_succ (c m : Nat) :
    positionsFrom c (m + 1) = (c : Int) :: positionsFrom (c + 1) m := rfl

/-- When every fetch fails or yields a message, the loop ends within `max(n, 0)`
iterations, having fetched consecutive positions. -/
theorem peekLoop_terminates (peekNth : Int → Outcome (List Message))
    (hfetch : ∀ pos : Int, (∃ ms e, peekNth pos = .ret ms (some e)) ∨
      (∃ ms, peekNth pos = .ret ms none ∧ ms ≠ []))
    (fuel : Nat) (n : Int) (c : Nat) (msgs : List Message) (fetched : List Int)
    (hfuel : n.toNat ≤ fuel) :
    ∃ out m, m ≤ n.toNat ∧
      peekLoop peekNth fuel n (c : Int) msgs fetched =
        some (out, fetched ++ positionsFrom c m) ∧
      (n ≤ 0 → out = .ret msgs none ∧ m = 0) := by
  induction fuel generalizing n c msgs fetched with
  | zero =>
    have hn : ¬ (n > 0) := by omega
    exact ⟨.ret msgs none, 0, Nat.zero_le _, by simp [peekLoop, hn, positionsFrom],
      fun _ => ⟨rfl, rfl⟩⟩
  | succ fuel ih =>
    by_cases hn : n > 0
    · rcases hfetch (c : Int) with ⟨ms, e, hp⟩ | ⟨ms, hp, hne⟩
      · refine ⟨.ret [] (some e), 1, by omega, ?_, fun h => absurd hn (by omega)⟩
        simp [peekLoop, hn, hp, positionsFrom]
      · have hlen : 0 < ms.length := List.length_pos.mpr hne
        obtain ⟨out, m, hm, hloop, _⟩ := ih (n - (ms.length : Int)) (c + 1) (msgs ++ ms)
          (fetched ++ [(c : Int)]) (by omega)
        refine ⟨out, m + 1, by omega, ?_, fun h => absurd hn (by omega)⟩
        have hc : (c : Int) + 1 = ((c + 1 : Nat) : Int) := by push_cast; rfl
        simp only [peekLoop, hn, if_true, hp, hc, hloop, positionsFrom_succ]
        simp
    · exact ⟨.ret msgs none, 0, Nat.zero_le _, by simp [peekLoop, hn, positionsFrom],
        fun _ => ⟨rfl, rfl⟩⟩

/-- C19: when every fetch either fails or returns at least one message,
`PeekMessages` terminates for every `n`: it returns after at most `max(n, 0)` fetches,
made at the positions `1, 2, 3, ...` without gap or repeat; for `n <= 0` it makes no
fetch and returns an empty list with no error. -/
theorem PeekMessages_terminates (parseMessageID : MessageIDReader) (unmarshal : Unmarshal)
    (makeRequest : Transport) (topic : TopicName) (n : Int)
    (hfetch : ∀ pos : Int,
      (∃ ms e, peekNthMessage parseMessageID unmarshal makeRequest topic pos =
        .ret ms (some e)) ∨
      (∃ ms, peekNthMessage parseMessageID unmarshal makeRequest topic pos = .ret ms none ∧
        ms ≠ [])) :
    ∃ out m, m ≤ n.toNat ∧
      (∀ fuel, n.toNat ≤ fuel →
        PeekMessages parseMessageID unmarshal makeRequest topic fuel n =
          some (out, positionsFrom 1 m)) ∧
      (n ≤ 0 → out = .ret [] none ∧ m = 0 ∧
        ∀ fuel, PeekMessages parseMessageID unmarshal makeRequest topic fuel n =
          some (.ret [] none, [])) := by
  obtain ⟨out, m, hm, hloop, hzero⟩ := peekLoop_terminates
    (peekNthMessage parseMessageID unmarshal makeRequest topic) hfetch n.toNat n 1 [] []
    (Nat.le_refl _)
  rw [show ((1 : Nat) : Int) = 1 from rfl, List.nil_append] at hloop
  refine ⟨out, m, hm, ?_, ?_⟩
  · intro fuel hfuel
    have hsplit : fuel = n.toNat + (fuel - n.toNat) := by omega
    simp only [PeekMessages, PeekMessagesWith]
    rw [hsplit]
    exact peekLoop_mono_add _ _ _ _ _ _ _ _ hloop
  · intro hn
    refine ⟨(hzero hn).1, (hzero hn).2, ?_⟩
    intro fuel
    simp only [PeekMessages, PeekMessagesWith]
    exact peekLoop_done _ _ _ _ _ _ hn

theorem sampleTransport_total (pos : Int) :
    (∃ ms e, peekNthMessage ParseMessageID sampleUnmarshal sampleTransport sampleTopic pos =
      .ret ms (some e)) ∨
    (∃ ms, peekNthMessage ParseMessageID sampleUnmarshal sampleTransport sampleTopic pos =
      .ret ms none ∧ ms ≠ []) := by
  right
  by_cases h : pos = 1
  · subst h
    exact ⟨decoded sampleBatch3, by decide, by decide⟩
  · refine ⟨decoded sampleBatch4, ?_, by decide⟩
    have e1 : peekNthMessage ParseMessageID sampleUnmarshal sampleTransport sampleTopic pos =
        handleResp ParseMessageID sampleUnmarshal sampleTopic sampleBatch4 := by
      simp only [peekNthMessage, sampleTransport, h, if_false]
    rw [e1]
    decide

theorem PeekMessages_terminates_witness :
    (∀ pos : Int,
      (∃ ms e, peekNthMessage ParseMessageID sampleUnmarshal sampleTransport sampleTopic pos =
        .ret ms (some e)) ∨
      (∃ ms, peekNthMessage ParseMessageID sampleUnmarshal sampleTransport sampleTopic pos =
        .ret ms none ∧ ms ≠ [])) ∧
    (∃ out m, m ≤ (5 : Int).toNat ∧
      (∀ fuel, (5 : Int).toNat ≤ fuel →
        PeekMessages ParseMessageID sampleUnmarshal sampleTransport sampleTopic fuel 5 =
          some (out, positionsFrom 1 m)) ∧
      ((5 : Int) ≤ 0 → out = .ret [] none ∧ m = 0 ∧
        ∀ fuel, PeekMessages ParseMessageID sampleUnmarshal sampleTransport sampleTopic fuel 5 =
          some (.ret [] none, []))) ∧
    PeekMessages ParseMessageID sampleUnmarshal sampleTransport sampleTopic 0 0 =
      some (.ret [] none, []) :=
  ⟨sampleTransport_total,
    PeekMessages_terminates ParseMessageID sampleUnmarshal sampleTransport sampleTopic 5
      sampleTransport_total,
    by decide⟩

/-! ## The shared property map -/

/-- C20: all messages returned by one successful call of `getIndividualMsgsFromBatch`
carry the same property map: for each of them, message 0 included, it is the base
map overlaid with the metadata properties of all the records `0..k-1` in record
order, so that a property set by any record, a later one included, is present on
every message. -/
theorem batch_messages_share_properties (unmarshal : Unmarshal) (topic : TopicName)
    (msgID : MessageID) (data : List Byte) (properties : PropMap) (ms : List Message)
    (h : getIndividualMsgsFromBatch unmarshal topic msgID data properties = .ret ms none) :
    (∀ m1 ∈ ms, ∀ m2 ∈ ms, m1.Properties = m2.Properties) ∧
    (∀ k : Int, Atoi (properties.get BatchHeader) = .ok k →
      ∃ recs tail, (∀ r ∈ recs, r.Complete unmarshal) ∧ (recs.length : Int) = k ∧
        data = batchBody recs ++ tail ∧ ms.length = recs.length ∧
        ∀ m ∈ ms, m.Properties = overlayAll properties recs ∧
          (∀ key, m.Properties.find key =
            match lastWritten recs key with
            | some v => some v
            | none => properties.find key) ∧
          (∀ r ∈ recs, ∀ key v, lastValue r.metadata.Properties key = some v →
            ∃ w, m.Properties.find key = some w)) := by
  have hshape : ∀ k : Int, Atoi (properties.get BatchHeader) = .ok k →
      ∃ recs tail, (∀ r ∈ recs, r.Complete unmarshal) ∧ (recs.length : Int) = k ∧
        data = batchBody recs ++ tail ∧ ms.length = recs.length ∧
        ∀ m ∈ ms, m.Properties = overlayAll properties recs := by
    intro k hc
    obtain ⟨_, recs, tail, hcomp, hlen, hdata, hms⟩ :=
      getIndividualMsgsFromBatch_success unmarshal topic msgID data properties k ms hc h
    refine ⟨recs, tail, hcomp, hlen, hdata, ?_, ?_⟩
    · rw [hms, List.length_map, expectedCells_length]
    · intro m hm
      rw [hms] at hm
      obtain ⟨c, _, rfl⟩ := List.mem_map.mp hm
      rfl
  constructor
  · intro m1 h1 m2 h2
    cases hc : Atoi (properties.get BatchHeader) with
    | error e =>
      simp only [getIndividualMsgsFromBatch, hc] at h
      cases h
      simp at h1
    | ok k =>
      obtain ⟨recs, _, _, _, _, _, hall⟩ := hshape k hc
      rw [hall m1 h1, hall m2 h2]
  · intro k hc
    obtain ⟨recs, tail, hcomp, hlen, hdata, hl, hall⟩ := hshape k hc
    refine ⟨recs, tail, hcomp, hlen, hdata, hl, ?_⟩
    intro m hm
    refine ⟨hall m hm, ?_, ?_⟩
    · intro key
      rw [hall m hm, find_overlayAll]
    · intro r hr key v hv
      obtain ⟨i, hi⟩ := List.mem_iff_getElem?.mp hr
      obtain ⟨⟨w, hw⟩, _⟩ := lastWritten_of_record recs i r key v hi hv
      exact ⟨w, by rw [hall m hm, find_overlayAll, hw]⟩

theorem batch_messages_share_properties_witness :
    ∃ m0 m1, getIndividualMsgsFromBatch sampleUnmarshal sampleTopic sampleID
        (batchBody [sampleRecB, sampleRecC]) (sampleBase "2") = .ret [m0, m1] none ∧
      lastValue sampleRecB.metadata.Properties "c" = none ∧
      lastValue sampleRecC.metadata.Properties "c" = some "4" ∧
      m0.Properties.find "c" = some "4" ∧
      (∀ a ∈ [m0, m1], ∀ b ∈ [m0, m1], a.Properties = b.Properties) :=
  ⟨⟨sampleTopic.String, ⟨10, 20, -1, 0⟩, [9],
      overlayAll (sampleBase "2") [sampleRecB, sampleRecC]⟩,
    ⟨sampleTopic.String, ⟨10, 20, -1, 1⟩, [],
      overlayAll (sampleBase "2") [sampleRecB, sampleRecC]⟩,
    by decide, by decide, by decide, by decide,
    (batch_messages_share_properties sampleUnmarshal sampleTopic sampleID
      (batchBody [sampleRecB, sampleRecC]) (sampleBase "2") _ (by decide)).1⟩

/-! ## Bytes after the last record -/

/-- Bytes that follow the last of the `k` records are ignored: on a well-formed
`k`-record body followed by any bytes, `getIndividualMsgsFromBatch` with batch
count `k` does what it does on the body alone; this is a return of `k` messages and
no error when every property of the records carries a key and a value and the slice
of messages can be allocated; and with the batch-count text `0` it returns an empty
list and no error for every body. -/
theorem getIndividualMsgsFromBatch_trailing_bytes (unmarshal : Unmarshal)
    (topic : TopicName) (msgID : MessageID) (recs : List Record) (t : List Byte)
    (properties : PropMap)
    (hwf : ∀ r ∈ recs, r.WellFormed unmarshal)
    (hcount : Atoi (properties.get BatchHeader) = .ok (recs.length : Int)) :
    getIndividualMsgsFromBatch unmarshal topic msgID (batchBody recs ++ t) properties =
      getIndividualMsgsFromBatch unmarshal topic msgID (batchBody recs) properties ∧
    ((∀ r ∈ recs, ∀ kv ∈ r.metadata.Properties, kv.Complete) → 8 * recs.length ≤ maxAlloc →
      ∃ msgs, getIndividualMsgsFromBatch unmarshal topic msgID (batchBody recs ++ t)
          properties = .ret msgs none ∧
        msgs.length = recs.length) ∧
    (∀ (data : List Byte) (properties0 : PropMap), properties0.get BatchHeader = "0" →
      getIndividualMsgsFromBatch unmarshal topic msgID data properties0 = .ret [] none) := by
  refine ⟨?_, ?_, ?_⟩
  · have hnn : ¬ ((recs.length : Int) < 0) := by omega
    by_cases hle : (maxAlloc : Int) < 8 * (recs.length : Int)
    · simp only [getIndividualMsgsFromBatch, hcount, hnn, hle, if_true, if_false]
    · by_cases hC : ∀ r ∈ recs, ∀ kv ∈ r.metadata.Properties, kv.Complete
      · have hcomp : ∀ r ∈ recs, r.Complete unmarshal := fun r hr => ⟨hwf r hr, hC r hr⟩
        have hcap : 8 * recs.length ≤ maxAlloc := by
          have : ((8 * recs.length : Nat) : Int) ≤ (maxAlloc : Int) := by push_cast; omega
          exact_mod_cast this
        have h1 := getIndividualMsgsFromBatch_records unmarshal topic msgID recs t properties
          hcomp hcap hcount
        have h2 := getIndividualMsgsFromBatch_records unmarshal topic msgID recs [] properties
          hcomp hcap hcount
        rw [List.append_nil] at h2
        rw [h1, h2]
      · have h1 := batchLoop_nil_property unmarshal topic msgID recs hwf hC 0 t 0 properties []
        have h2 := batchLoop_nil_property unmarshal topic msgID recs hwf hC 0 [] 0 properties []
        rw [Nat.add_zero] at h1 h2
        rw [List.append_nil] at h2
        simp only [getIndividualMsgsFromBatch, hcount, hnn, hle, if_false, Int.toNat_ofNat,
          h1, h2]
  · intro hC hcap
    exact ⟨_, getIndividualMsgsFromBatch_records unmarshal topic msgID recs t properties
      (fun r hr => ⟨hwf r hr, hC r hr⟩) hcap hcount, by simp [expectedCells_length]⟩
  · intro data properties0 h0
    have hz : Atoi "0" = .ok 0 := by decide
    simp only [getIndividualMsgsFromBatch, h0, hz]
    rfl

theorem getIndividualMsgsFromBatch_trailing_bytes_sample :
    (∀ r ∈ [sampleRecA, sampleRecB], r.WellFormed sampleUnmarshal) ∧
    Atoi ((sampleBase "2").get BatchHeader) =
      .ok (([sampleRecA, sampleRecB].length : Nat) : Int) ∧
    (∃ msgs, getIndividualMsgsFromBatch sampleUnmarshal sampleTopic sampleID
          (batchBody [sampleRecA, sampleRecB] ++ [1, 2, 3]) (sampleBase "2") =
            .ret msgs none ∧
        msgs.length = [sampleRecA, sampleRecB].length) ∧
    getIndividualMsgsFromBatch sampleUnmarshal sampleTopic sampleID [1, 2, 3]
      (sampleBase "0") = .ret [] none :=
  ⟨by decide, by decide,
    (getIndividualMsgsFromBatch_trailing_bytes sampleUnmarshal sampleTopic sampleID
      [sampleRecA, sampleRecB] [1, 2, 3] (sampleBase "2") (by decide) (by decide)).2.1
      (by decide) (by decide),
    by decide⟩

/-- C22, the code at the failing input: the batch count is `1` and the body is the one
well-formed record `sampleRecNoValue`, whose metadata decodes to a property with a
key and no value. With and without bytes after the record the call returns no
message: it panics loading `*v.Value`. -/
theorem nil_property_trailing_bytes_panics (topic : TopicName) (msgID : MessageID)
    (t : List Byte) :
    sampleRecNoValue.WellFormed sampleUnmarshal ∧
    Atoi ((sampleBase "1").get BatchHeader) = .ok 1 ∧
    getIndividualMsgsFromBatch sampleUnmarshal topic msgID (batchBody [sampleRecNoValue])
      (sampleBase "1") = .panic .nilDereference ∧
    getIndividualMsgsFromBatch sampleUnmarshal topic msgID (batchBody [sampleRecNoValue] ++ t)
      (sampleBase "1") = .panic .nilDereference := by
  have hparse : Atoi ((sampleBase "1").get BatchHeader) = .ok 1 := by decide
  have hwf : ∀ r ∈ [sampleRecNoValue], r.WellFormed sampleUnmarshal := by decide
  have hnil : ¬ ∀ r ∈ [sampleRecNoValue], ∀ kv ∈ r.metadata.Properties, kv.Complete := by
    decide
  have hmax : ¬ ((maxAlloc : Int) < 8 * 1) := by decide
  have h1 := batchLoop_nil_property sampleUnmarshal topic msgID [sampleRecNoValue] hwf hnil
    0 [] 0 (sampleBase "1") []
  have h2 := batchLoop_nil_property sampleUnmarshal topic msgID [sampleRecNoValue] hwf hnil
    0 t 0 (sampleBase "1") []
  rw [List.append_nil] at h1
  refine ⟨by decide, hparse, ?_, ?_⟩
  · simp only [getIndividualMsgsFromBatch, hparse, hmax, if_false]
    exact h1
  · simp only [getIndividualMsgsFromBatch, hparse, hmax, if_false]
    exact h2

/-! ## Claims on the small types -/

/-- C23: `ParseSubscriptionAuthMode` succeeds exactly on the strings `None` and
`Prefix` (other spellings, other case and surrounding blanks fail) and returns an
error with the empty mode on every other string; wherever it succeeds, `String`
gives the input back, and the `String` of each of the two modes parses to that
mode. -/
theorem ParseSubscriptionAuthMode_spec (s : String) :
    ((ParseSubscriptionAuthMode s).2 = none ↔ (s = "None" ∨ s = "Prefix")) ∧
    (s = "None" → ParseSubscriptionAuthMode s = (SubscriptionAuthMode.None, none)) ∧
    (s = "Prefix" → ParseSubscriptionAuthMode s = (SubscriptionAuthMode.Prefix, none)) ∧
    (s ≠ "None" → s ≠ "Prefix" →
      ParseSubscriptionAuthMode s = (⟨""⟩, some "Invalid subscription auth mode")) ∧
    ((ParseSubscriptionAuthMode s).2 = none → (ParseSubscriptionAuthMode s).1.String = s) ∧
    ParseSubscriptionAuthMode SubscriptionAuthMode.None.String =
      (SubscriptionAuthMode.None, none) ∧
    ParseSubscriptionAuthMode SubscriptionAuthMode.Prefix.String =
      (SubscriptionAuthMode.Prefix, none) ∧
    (ParseSubscriptionAuthMode "none").2 ≠ none ∧
    (ParseSubscriptionAuthMode " None").2 ≠ none ∧
    (ParseSubscriptionAuthMode "").2 ≠ none := by
  refine ⟨?_, ?_, ?_, ?_, ?_, by decide, by decide, by decide, by decide, by decide⟩
  · unfold ParseSubscriptionAuthMode
    by_cases h1 : s = "None"
    · simp [h1]
    · by_cases h2 : s = "Prefix"
      · simp [h2]
      · simp [h1, h2]
  · intro h; subst h; decide
  · intro h; subst h; decide
  · intro h1 h2
    simp [ParseSubscriptionAuthMode, h1, h2]
  · unfold ParseSubscriptionAuthMode
    by_cases h1 : s = "None"
    · subst h1; intro _; decide
    · by_cases h2 : s = "Prefix"
      · subst h2; intro _; decide
      · simp [h1, h2]

theorem ParseSubscriptionAuthMode_spec_witness :
    ParseSubscriptionAuthMode "Prefix" = (SubscriptionAuthMode.Prefix, none) ∧
    ParseSubscriptionAuthMode "prefix" = (⟨""⟩, some "Invalid subscription auth mode") :=
  ⟨(ParseSubscriptionAuthMode_spec "Prefix").2.2.1 rfl,
    (ParseSubscriptionAuthMode_spec "prefix").2.2.2.1 (by decide) (by decide)⟩

/-- C24: `APIVersion.String` is total and returns the empty string only for `APIV1`:
it gives `""` for `APIV1`, `v2` for `APIV2`, `v3` for `APIV3`, and `DefaultAPIVersion`
(`v2`) for every other value, `undefined` and the values below 0 or above 3
included; in `defaultAPIProfile()` the Functions API renders as `v3` and each of the
other thirteen as `v2`. -/
theorem APIVersion_String_spec (v : APIVersion) :
    (v.String = "" ↔ v = APIV1) ∧
    APIV1.String = "" ∧ APIV2.String = "v2" ∧ APIV3.String = "v3" ∧
    undefined.String = "v2" ∧ DefaultAPIVersion = "v2" ∧
    (v ≠ APIV1 → v ≠ APIV2 → v ≠ APIV3 → v.String = DefaultAPIVersion) ∧
    defaultAPIProfile.Functions.String = "v3" ∧
    [defaultAPIProfile.Clusters, defaultAPIProfile.Tenants, defaultAPIProfile.Topics,
      defaultAPIProfile.Sources, defaultAPIProfile.Sinks, defaultAPIProfile.Namespaces,
      defaultAPIProfile.Schemas, defaultAPIProfile.NsIsolationPolicy,
      defaultAPIProfile.Brokers, defaultAPIProfile.BrokerStats,
      defaultAPIProfile.ResourceQuotas, defaultAPIProfile.FunctionsWorker,
      defaultAPIProfile.Packages].map APIVersion.String = List.replicate 13 "v2" := by
  refine ⟨?_, by decide, by decide, by decide, by decide, rfl, ?_, by decide, by decide⟩
  · unfold APIVersion.String
    by_cases h0 : v = undefined
    · subst h0; decide
    · by_cases h1 : v = APIV1
      · subst h1; decide
      · by_cases h2 : v = APIV2
        · subst h2; decide
        · by_cases h3 : v = APIV3
          · subst h3; decide
          · simp only [h0, h1, h2, h3, if_false, iff_false]
            decide
  · intro h1 h2 h3
    unfold APIVersion.String
    by_cases h0 : v = undefined
    · simp [h0]
    · simp [h0, h1, h2, h3]

theorem APIVersion_String_spec_witness :
    (⟨-5⟩ : APIVersion).String = DefaultAPIVersion ∧
    (⟨4⟩ : APIVersion).String = DefaultAPIVersion :=
  ⟨(APIVersion_String_spec ⟨-5⟩).2.2.2.2.2.2.1 (by decide) (by decide) (by decide),
    (APIVersion_String_spec ⟨4⟩).2.2.2.2.2.2.1 (by decide) (by decide) (by decide)⟩

/-- C25: `GetLoadReport` never returns a non-nil error: when the underlying `Get`
fails it returns no report and no error, and when it succeeds it returns the report
and no error; `GetMetrics`, `GetMBeans`, `GetTopics` and `GetAllocatorStats` return
the error of the failed call unchanged. -/
theorem GetLoadReport_drops_error {LocalBrokerData Metrics AllocatorStats : Type}
    (endpoint : List String → String)
    (Get : String → LocalBrokerData → Except Error LocalBrokerData)
    (NewLocalBrokerData : LocalBrokerData)
    (GetM : String → List Metrics → Except Error (List Metrics))
    (GetT : String → Except Error (List Byte))
    (GetA : String → AllocatorStats → Except Error AllocatorStats) (zero : AllocatorStats)
    (allocatorName : String) :
    (GetLoadReport endpoint Get NewLocalBrokerData).2 = none ∧
    (∀ e, Get (endpoint ["/load-report"]) NewLocalBrokerData = .error e →
      GetLoadReport endpoint Get NewLocalBrokerData = (none, none)) ∧
    (∀ r, Get (endpoint ["/load-report"]) NewLocalBrokerData = .ok r →
      GetLoadReport endpoint Get NewLocalBrokerData = (some r, none)) ∧
    (∀ e, GetM (endpoint ["/metrics"]) [] = .error e →
      GetMetrics endpoint GetM = ([], some e)) ∧
    (∀ e, GetM (endpoint ["/mbeans"]) [] = .error e →
      GetMBeans endpoint GetM = ([], some e)) ∧
    (∀ e, GetT (endpoint ["/topics"]) = .error e →
      GetTopics endpoint GetT = ([], some e)) ∧
    (∀ e, GetA (endpoint ["/allocator-stats", allocatorName]) zero = .error e →
      GetAllocatorStats endpoint GetA zero allocatorName = (none, some e)) := by
  refine ⟨?_, ?_, ?_, ?_, ?_, ?_, ?_⟩
  · unfold GetLoadReport
    cases Get (endpoint ["/load-report"]) NewLocalBrokerData <;> rfl
  · intro e h; simp only [GetLoadReport, h]
  · intro r h; simp only [GetLoadReport, h]
  · intro e h; simp only [GetMetrics, h]
  · intro e h; simp only [GetMBeans, h]
  · intro e h; simp only [GetTopics, h]
  · intro e h; simp only [GetAllocatorStats, h]

theorem GetLoadReport_drops_error_witness :
    GetLoadReport sampleEndpoint (sampleFailingGet : String → Nat → Except Error Nat) 0 =
      (none, none) ∧
    GetLoadReport sampleEndpoint (sampleGet : String → Nat → Except Error Nat) 0 =
      (some 0, none) ∧
    GetMetrics sampleEndpoint (sampleFailingGet : String → List Nat → Except Error (List Nat)) =
      ([], some (.transport "connection refused")) ∧
    GetAllocatorStats sampleEndpoint (sampleFailingGet : String → Nat → Except Error Nat) 0
      "default" = (none, some (.transport "connection refused")) :=
  ⟨(@GetLoadReport_drops_error Nat Nat Nat sampleEndpoint sampleFailingGet 0 sampleFailingGet
      (fun _ => .ok []) (sampleFailingGet : String → Nat → Except Error Nat) 0 "default").2.1
      _ rfl,
    (@GetLoadReport_drops_error Nat Nat Nat sampleEndpoint sampleGet 0 sampleFailingGet
      (fun _ => .ok []) (sampleFailingGet : String → Nat → Except Error Nat) 0 "default").2.2.1
      _ rfl,
    (@GetLoadReport_drops_error Nat Nat Nat sampleEndpoint
      (sampleGet : String → Nat → Except Error Nat) 0 sampleFailingGet
      (fun _ => .ok []) (sampleFailingGet : String → Nat → Except Error Nat) 0
      "default").2.2.2.1 _ rfl,
    (@GetLoadReport_drops_error Nat Nat Nat sampleEndpoint
      (sampleGet : String → Nat → Except Error Nat) 0 sampleFailingGet
      (fun _ => .ok []) (sampleFailingGet : String → Nat → Except Error Nat) 0
      "default").2.2.2.2.2.2 _ rfl⟩

/-- C26: `NewBundlesData(b)` keeps `b` as its boundaries and sets
`NumBundles = len(b) - 1` (`-1` for the empty list); `NewDefaultBoundle()` has the
two boundaries `FirstBoundary`, `LastBoundary` in that order and `NumBundles = 1`,
and so equals `NewBundlesData` of that list; `NewBundlesDataWithNumBundles(n)` keeps
`n` with no boundaries and meets `NumBundles = len(Boundaries) - 1` only for
`n = -1`. -/
theorem BundlesData_constructors (b : List String) (FirstBoundary LastBoundary : String)
    (n : Int) :
    (NewBundlesData b).Boundaries = b ∧
    (NewBundlesData b).NumBundles = (b.length : Int) - 1 ∧
    (NewBundlesData []).NumBundles = -1 ∧
    (NewDefaultBoundle FirstBoundary LastBoundary).Boundaries =
      [FirstBoundary, LastBoundary] ∧
    (NewDefaultBoundle FirstBoundary LastBoundary).NumBundles = 1 ∧
    NewDefaultBoundle FirstBoundary LastBoundary =
      NewBundlesData [FirstBoundary, LastBoundary] ∧
    (NewBundlesDataWithNumBundles n).Boundaries = [] ∧
    (NewBundlesDataWithNumBundles n).NumBundles = n ∧
    ((NewBundlesDataWithNumBundles n).NumBundles =
        ((NewBundlesDataWithNumBundles n).Boundaries.length : Int) - 1 ↔ n = -1) := by
  refine ⟨rfl, rfl, rfl, rfl, rfl, rfl, rfl, rfl, ?_⟩
  simp [NewBundlesDataWithNumBundles]

/-! ## Order of the header iteration -/

theorem headerStep_eq_write (header : Header) (properties : PropMap) (k : String) :
    headerStep header properties k =
      match headerWrite header k with
      | some (a, v) => properties.set a v
      | none => properties := by
  unfold headerStep headerWrite
  split
  · split <;> rfl
  · split <;> rfl

theorem find_headerStep (header : Header) (properties : PropMap) (k : String) :
    (headerStep header properties k).find = stepFind header properties.find k := by
  rw [headerStep_eq_write]
  unfold stepFind
  cases headerWrite header k with
  | none => rfl
  | some w =>
    obtain ⟨a, v⟩ := w
    funext key
    exact PropMap.find_set properties a v key

theorem find_foldl_headerStep (header : Header) (ks : List String) (properties : PropMap) :
    (ks.foldl (headerStep header) properties).find =
      ks.foldl (stepFind header) properties.find := by
  induction ks generalizing properties with
  | nil => rfl
  | cons k ks ih =>
    simp only [List.foldl_cons]
    rw [ih, find_headerStep]

theorem writtenKey_of_headerWrite (header : Header) (k a v : String)
    (h : headerWrite header k = some (a, v)) : writtenKey k = some a := by
  unfold headerWrite at h
  unfold writtenKey
  split at h
  · rename_i hk
    split at h
    · cases h; simp only [hk, if_true]
    · cases h
  · rename_i hk
    split at h
    · rename_i hc
      cases h; simp only [hk, hc, if_true, if_false]
    · cases h

/-- Two steps of the header loop commute on the lookup function when they come from
the same header or write to different keys. -/
theorem stepFind_comm (header : Header) (g : String → Option String) (x y : String)
    (h : writtenKey x ≠ none → writtenKey x = writtenKey y → x = y) :
    stepFind header (stepFind header g x) y = stepFind header (stepFind header g y) x := by
  by_cases hxy : x = y
  · subst hxy; rfl
  · cases hx : headerWrite header x with
    | none => simp only [stepFind, hx]
    | some wx =>
      obtain ⟨ax, vx⟩ := wx
      cases hy : headerWrite header y with
      | none => simp only [stepFind, hx, hy]
      | some wy =>
        obtain ⟨ay, vy⟩ := wy
        have kx := writtenKey_of_headerWrite header x ax vx hx
        have ky := writtenKey_of_headerWrite header y ay vy hy
        have hne : ax ≠ ay := by
          intro he
          apply hxy
          apply h
          · rw [kx]; exact Option.some_ne_none _
          · rw [kx, ky, he]
        simp only [stepFind, hx, hy]
        funext key
        by_cases h1 : key = ax
        · have h2 : key ≠ ay := by rw [h1]; exact hne
          simp [h1, hne]
        · by_cases h2 : key = ay
          · have h3 : ¬ ay = ax := fun he => hne he.symm
            simp [h2, h3]
          · simp [h1, h2]

/-- The lookup in a header does not depend on the order of its entries when the keys
are distinct. -/
theorem lookup_perm (h1 h2 : Header) (c : String) (hp : h1.Perm h2)
    (hn : (h1.map Prod.fst).Nodup) : h1.lookup c = h2.lookup c := by
  induction hp with
  | nil => rfl
  | cons kv _ ih =>
    obtain ⟨k, v⟩ := kv
    simp only [List.map_cons, List.nodup_cons] at hn
    simp only [List.lookup]
    cases c == k with
    | true => rfl
    | false => exact ih hn.2
  | swap kv1 kv2 l =>
    obtain ⟨k1, v1⟩ := kv1
    obtain ⟨k2, v2⟩ := kv2
    simp only [List.map_cons, List.nodup_cons, List.mem_cons, not_or] at hn
    have hne : k2 ≠ k1 := hn.1.1
    simp only [List.lookup]
    cases e1 : c == k1 with
    | true =>
      cases e2 : c == k2 with
      | true =>
        have a1 : c = k1 := by simpa using e1
        have a2 : c = k2 := by simpa using e2
        exact absurd (a2.symm.trans a1) hne
      | false => rfl
    | false =>
      cases e2 : c == k2 <;> rfl
  | trans p1 _ ih1 ih2 =>
    exact (ih1 hn).trans (ih2 ((p1.map Prod.fst).nodup_iff.mp hn))

theorem Header.Get_perm (h1 h2 : Header) (k : String) (hp : h1.Perm h2)
    (hn : (h1.map Prod.fst).Nodup) : Header.Get h1 k = Header.Get h2 k := by
  simp only [Header.Get, lookup_perm h1 h2 _ hp hn]

theorem stepFind_perm (h1 h2 : Header) (hp : h1.Perm h2) (hn : (h1.map Prod.fst).Nodup) :
    stepFind h1 = stepFind h2 := by
  funext g k
  simp only [stepFind, headerWrite, Header.Get_perm h1 h2 k hp hn]

/-- C21, counterexample: the canonical header names
`X-Pulsar-Property-A-X-Pulsar-Property-B` and `A-X-Pulsar-Property-B` both write the
property `A-X-Pulsar-Property-B`, and the value the message carries is that of the
header iterated last. -/
theorem handleResp_order_counterexample :
    ¬ (∀ (parseMessageID : MessageIDReader) (unmarshal : Unmarshal) (topic : TopicName)
        (h1 h2 : Header) (body : Except Error (List Byte)) (m1 m2 : Message),
        h1.Perm h2 → (h1.map Prod.fst).Nodup → Header.Canonical h1 →
        (∀ kv ∈ h1, kv.1 ≠ BatchHeader) →
        handleResp parseMessageID unmarshal topic ⟨h1, body⟩ = .ret [m1] none →
        handleResp parseMessageID unmarshal topic ⟨h2, body⟩ = .ret [m2] none →
        m1.Topic = m2.Topic ∧ m1.MessageID = m2.MessageID ∧ m1.Payload = m2.Payload ∧
          ∀ key, m1.Properties.find key = m2.Properties.find key) := by
  intro h
  have hp : sampleCollision.Perm sampleCollisionSwapped :=
    List.Perm.cons _ (List.Perm.swap _ _ _)
  have h0 := (h ParseMessageID sampleUnmarshal sampleTopic sampleCollision
    sampleCollisionSwapped (.ok [104, 105])
    ⟨sampleTopic.String, ⟨10, 20, -1, -1⟩, [104, 105], ⟨[("A-X-Pulsar-Property-B", "2")]⟩⟩
    ⟨sampleTopic.String, ⟨10, 20, -1, -1⟩, [104, 105], ⟨[("A-X-Pulsar-Property-B", "1")]⟩⟩
    hp (by decide) (by decide) (by decide) (by decide) (by decide)).2.2.2
    "A-X-Pulsar-Property-B"
  revert h0
  decide

/-- C21, as the code has it: for a response without a batch-count header in which no
two headers write to the same property key, the message `handleResp` returns is the
same for every order in which the headers are iterated: same topic, identity and
payload, and the same value under every property key. -/
theorem handleResp_order_independent (parseMessageID : MessageIDReader)
    (unmarshal : Unmarshal) (topic : TopicName) (h1 h2 : Header)
    (body : Except Error (List Byte)) (ID : MessageID) (payload : List Byte)
    (hp : h1.Perm h2) (hn : (h1.map Prod.fst).Nodup)
    (hnb : ∀ kv ∈ h1, kv.1 ≠ BatchHeader) (hnc : Header.NoCollision h1)
    (hid : parseMessageID (Header.Get h1 "X-Pulsar-Message-ID") = .ok ID)
    (hbody : body = .ok payload) :
    ∃ m1 m2, handleResp parseMessageID unmarshal topic ⟨h1, body⟩ = .ret [m1] none ∧
      handleResp parseMessageID unmarshal topic ⟨h2, body⟩ = .ret [m2] none ∧
      m1.Topic = m2.Topic ∧ m1.MessageID = m2.MessageID ∧ m1.Payload = m2.Payload ∧
      ∀ key, m1.Properties.find key = m2.Properties.find key := by
  have hid2 : parseMessageID (Header.Get h2 "X-Pulsar-Message-ID") = .ok ID := by
    rw [← Header.Get_perm h1 h2 _ hp hn]; exact hid
  have hnb2 : ∀ kv ∈ h2, kv.1 ≠ BatchHeader := fun kv hkv => hnb kv (hp.mem_iff.mpr hkv)
  refine ⟨_, _, handleResp_no_batch parseMessageID unmarshal topic ⟨h1, body⟩ ID payload
      hid hbody hnb,
    handleResp_no_batch parseMessageID unmarshal topic ⟨h2, body⟩ ID payload
      hid2 hbody hnb2, rfl, rfl, rfl, ?_⟩
  intro key
  show (baseProperties h1).find key = (baseProperties h2).find key
  simp only [baseProperties]
  rw [find_foldl_headerStep, find_foldl_headerStep, ← stepFind_perm h1 h2 hp hn]
  have hperm : (h1.map Prod.fst).Perm (h2.map Prod.fst) := hp.map Prod.fst
  rw [List.Perm.foldl_eq' hperm]
  intro x hx y hy g
  obtain ⟨kvx, hkx, rfl⟩ := List.mem_map.mp hx
  obtain ⟨kvy, hky, rfl⟩ := List.mem_map.mp hy
  exact stepFind_comm h1 g kvx.1 kvy.1 (hnc kvx hkx kvy hky)

theorem handleResp_order_independent_witness :
    sampleSingle.Header.Perm sampleSingleSwapped ∧
    (sampleSingle.Header.map Prod.fst).Nodup ∧
    (∀ kv ∈ sampleSingle.Header, kv.1 ≠ BatchHeader) ∧
    Header.NoCollision sampleSingle.Header ∧
    ParseMessageID (Header.Get sampleSingle.Header "X-Pulsar-Message-ID") =
      .ok ⟨10, 20, -1, -1⟩ ∧
    ∃ m1 m2, handleResp ParseMessageID sampleUnmarshal sampleTopic
        ⟨sampleSingle.Header, .ok [104, 105]⟩ = .ret [m1] none ∧
      handleResp ParseMessageID sampleUnmarshal sampleTopic
        ⟨sampleSingleSwapped, .ok [104, 105]⟩ = .ret [m2] none ∧
      m1.Topic = m2.Topic ∧ m1.MessageID = m2.MessageID ∧ m1.Payload = m2.Payload ∧
      ∀ key, m1.Properties.find key = m2.Properties.find key :=
  ⟨by decide, by decide, by decide, by decide, by decide,
    handleResp_order_independent ParseMessageID sampleUnmarshal sampleTopic
      sampleSingle.Header sampleSingleSwapped (.ok [104, 105]) ⟨10, 20, -1, -1⟩ [104, 105]
      (by decide) (by decide) (by decide) (by decide) (by decide) rfl⟩

end PulsarAdmin
